import Mathlib

/-!
# Bounded buffers of `simple-examples-of-concurrent-programming`

Shallow embedding of the programs of the repository and proofs about them:

* `ProdCons`         : `threads/producer-consumer/prod_cons_sem_t.c`
* `RevCond`          : `threads/pthread-exercises/reverse-map/reverse_map_cond_t.c`
* `RevSem`           : `threads/pthread-exercises/reverse-map/reverse_map_sem_t.c`
* `PalindromeFilter` : `threads/pthread-exercises/palindrome-filter/palindrome_filter.c`
* `ChineseMorra`     : `threads/pthread-exercises/chinese-morra/chinese_morra_sem_t.c`

Every thread is a program counter (plus its locals); the shared structure is a record;
one scheduler action runs one atomic step of one thread.  A semaphore is a natural number:
`sem_wait` is enabled only when it is positive and decrements it, `sem_post` increments it.
Semaphore and mutex calls are assumed to succeed (the programs only log their failure).
-/

/-! ## `prod_cons_sem_t.c` -/

namespace ProdCons

def BUFFER_SIZE : Nat := 10
def NEUTRAL_VALUE : Nat := 0
def items_to_produce : Nat := 100
def items_to_consume : Nat := 100

/-- Program counter of a `producer` thread.
`loop` is the test of the `while`, `waitEmpty` and `waitMutex` the two `sem_wait`s,
`crit` the guarded block between them and the posts, `postMutex` and `postFull` the two
`sem_post`s of the loop body, `finalPost` the `sem_post(full)` after the loop, `done` the return. -/
inductive PPc
  | loop | waitEmpty | waitMutex | crit | postMutex | postFull | finalPost | done
  deriving DecidableEq, Repr

/-- Program counter of a `consumer` thread. -/
inductive CPc
  | loop | waitFull | waitMutex | crit | postMutex | postEmpty | done
  deriving DecidableEq, Repr

/-- One line group written to standard output inside a critical section. -/
inductive Output
  /-- The line `P<thread>: buffer[<slot>] = <value>`. -/
  | produced (thread slot value : Nat)
  /-- The line `C<thread>: buffer[<slot>] = <value>`. -/
  | consumed (thread slot value : Nat)
  /-- The line printed by `printBuffer`. -/
  | cells (buffer : List Nat)
  deriving DecidableEq, Repr

/-- The `shared_data` record, the standard output, and the threads:
`ppc[i]` and `pdata[i]` are the program counter and the local `data` of producer `i`,
`cpc[j]` is the program counter of consumer `j`. -/
structure State where
  buffer : List Nat
  in_ : Nat
  out : Nat
  produced_items : Nat
  consumed_items : Nat
  mutex : Nat
  empty : Nat
  full : Nat
  stdout : List Output
  ppc : List PPc
  pdata : List Nat
  cpc : List CPc
  deriving DecidableEq, Repr

/-- State after `init_shared` and before any of the `P` producers and `Q` consumers has run. -/
def init_shared (P Q : Nat) : State where
  buffer := List.replicate BUFFER_SIZE NEUTRAL_VALUE
  in_ := 0
  out := 0
  produced_items := 0
  consumed_items := 0
  mutex := 1
  empty := BUFFER_SIZE
  full := 0
  stdout := []
  ppc := List.replicate P PPc.loop
  pdata := List.replicate P 0
  cpc := List.replicate Q CPc.loop

/-- One atomic step of producer `i`; `r` is what `rand()` returns if the step calls it.
`none` when the thread is blocked, has returned, or does not exist. -/
def producer (s : State) (i r : Nat) : Option State :=
  match s.ppc[i]? with
  | none => none
  | some PPc.loop =>
    if s.produced_items < items_to_produce then
      some { s with pdata := s.pdata.set i (r % 99 + 1), ppc := s.ppc.set i PPc.waitEmpty }
    else
      some { s with ppc := s.ppc.set i PPc.finalPost }
  | some PPc.waitEmpty =>
    if 0 < s.empty then
      some { s with empty := s.empty - 1, ppc := s.ppc.set i PPc.waitMutex }
    else none
  | some PPc.waitMutex =>
    if 0 < s.mutex then
      some { s with mutex := s.mutex - 1, ppc := s.ppc.set i PPc.crit }
    else none
  | some PPc.crit =>
    if s.produced_items < items_to_produce then
      let data := s.pdata.getD i 0
      let buffer := s.buffer.set s.in_ data
      some { s with
        buffer := buffer
        in_ := (s.in_ + 1) % BUFFER_SIZE
        produced_items := s.produced_items + 1
        stdout := s.stdout ++ [Output.produced (i + 1) s.in_ data, Output.cells buffer]
        ppc := s.ppc.set i PPc.postMutex }
    else
      some { s with ppc := s.ppc.set i PPc.postMutex }
  | some PPc.postMutex =>
    some { s with mutex := s.mutex + 1, ppc := s.ppc.set i PPc.postFull }
  | some PPc.postFull =>
    some { s with full := s.full + 1, ppc := s.ppc.set i PPc.loop }
  | some PPc.finalPost =>
    some { s with full := s.full + 1, ppc := s.ppc.set i PPc.done }
  | some PPc.done => none

/-- One atomic step of consumer `j`. -/
def consumer (s : State) (j : Nat) : Option State :=
  match s.cpc[j]? with
  | none => none
  | some CPc.loop =>
    if s.consumed_items < items_to_consume then
      some { s with cpc := s.cpc.set j CPc.waitFull }
    else
      some { s with cpc := s.cpc.set j CPc.done }
  | some CPc.waitFull =>
    if 0 < s.full then
      some { s with full := s.full - 1, cpc := s.cpc.set j CPc.waitMutex }
    else none
  | some CPc.waitMutex =>
    if 0 < s.mutex then
      some { s with mutex := s.mutex - 1, cpc := s.cpc.set j CPc.crit }
    else none
  | some CPc.crit =>
    if s.consumed_items < items_to_consume then
      let data := s.buffer.getD s.out 0
      let buffer := s.buffer.set s.out NEUTRAL_VALUE
      some { s with
        buffer := buffer
        out := (s.out + 1) % BUFFER_SIZE
        consumed_items := s.consumed_items + 1
        stdout := s.stdout ++ [Output.consumed (j + 1) s.out data, Output.cells buffer]
        cpc := s.cpc.set j CPc.postMutex }
    else
      some { s with cpc := s.cpc.set j CPc.postMutex }
  | some CPc.postMutex =>
    some { s with mutex := s.mutex + 1, cpc := s.cpc.set j CPc.postEmpty }
  | some CPc.postEmpty =>
    some { s with empty := s.empty + 1, cpc := s.cpc.set j CPc.loop }
  | some CPc.done => none

/-- A scheduler choice: which thread runs its next atomic step. -/
inductive Action
  | producer (i r : Nat)
  | consumer (j : Nat)
  deriving DecidableEq, Repr

def step (s : State) : Action → Option State
  | Action.producer i r => producer s i r
  | Action.consumer j => consumer s j

/-- States of the run with `P` producers and `Q` consumers. -/
inductive Reachable (P Q : Nat) : State → Prop
  | init : Reachable P Q (init_shared P Q)
  | step {s s' : State} (a : Action) : Reachable P Q s → step s a = some s' → Reachable P Q s'

/-- Runs a schedule, skipping the actions that are not enabled. -/
def run (s : State) : List Action → State
  | [] => s
  | a :: as => run ((step s a).getD s) as

/-- No thread can take a step. -/
def Stuck (s : State) : Prop := ∀ a, step s a = none

/-- Every producer is past its `while` and every consumer has returned. -/
def AllExited (s : State) : Prop :=
  (∀ c ∈ s.ppc, c = PPc.finalPost ∨ c = PPc.done) ∧ (∀ c ∈ s.cpc, c = CPc.done)

/-- Values stored by the producers, in the order of the critical sections. -/
def writes (s : State) : List Nat :=
  s.stdout.filterMap fun o => match o with
    | Output.produced _ _ v => some v
    | _ => none

/-- Values loaded by the consumers, in the order of the critical sections. -/
def reads (s : State) : List Nat :=
  s.stdout.filterMap fun o => match o with
    | Output.consumed _ _ v => some v
    | _ => none

/-- Token accounting of the three semaphores.  `np` and `nc` count the critical sections
that found the target already reached (producers resp. consumers). -/
structure Tokens (P Q : Nat) (s : State) (np nc : Nat) : Prop where
  plen : s.ppc.length = P
  clen : s.cpc.length = Q
  psum : s.ppc.count PPc.loop + s.ppc.count PPc.waitEmpty + s.ppc.count PPc.waitMutex
    + s.ppc.count PPc.crit + s.ppc.count PPc.postMutex + s.ppc.count PPc.postFull
    + s.ppc.count PPc.finalPost + s.ppc.count PPc.done = P
  csum : s.cpc.count CPc.loop + s.cpc.count CPc.waitFull + s.cpc.count CPc.waitMutex
    + s.cpc.count CPc.crit + s.cpc.count CPc.postMutex + s.cpc.count CPc.postEmpty
    + s.cpc.count CPc.done = Q
  pmax : s.produced_items ≤ 100
  cmax : s.consumed_items ≤ 100
  mutex_eq : s.mutex + s.ppc.count PPc.crit + s.ppc.count PPc.postMutex
    + s.cpc.count CPc.crit + s.cpc.count CPc.postMutex = 1
  empty_eq : s.empty + s.ppc.count PPc.waitMutex + s.ppc.count PPc.crit
    + s.cpc.count CPc.postMutex + s.cpc.count CPc.postEmpty + s.produced_items + np
    = 10 + s.consumed_items + nc
  full_eq : s.full + s.cpc.count CPc.waitMutex + s.cpc.count CPc.crit
    + s.ppc.count PPc.postMutex + s.ppc.count PPc.postFull + s.consumed_items + nc
    = s.produced_items + np + s.ppc.count PPc.done
  prun : s.produced_items < 100 →
    np = 0 ∧ s.ppc.count PPc.finalPost = 0 ∧ s.ppc.count PPc.done = 0
  crun : s.consumed_items < 100 → nc = 0 ∧ s.cpc.count CPc.done = 0
  plag : s.produced_items = 100 →
    np + s.ppc.count PPc.waitEmpty + s.ppc.count PPc.waitMutex + s.ppc.count PPc.crit + 1 ≤ P
  clag : s.consumed_items = 100 →
    nc + s.cpc.count CPc.waitFull + s.cpc.count CPc.waitMutex + s.cpc.count CPc.crit + 1 ≤ Q

end ProdCons

namespace ProdCons

/-- The circular buffer seen as a queue: the cursors follow the counters, the slots between
`out` and `in` hold the values written and not yet read, every other slot is neutral. -/
structure Queue (s : State) : Prop where
  blen : s.buffer.length = 10
  dlen : s.pdata.length = s.ppc.length
  in_eq : s.in_ = s.produced_items % 10
  out_eq : s.out = s.consumed_items % 10
  wlen : (writes s).length = s.produced_items
  rd : reads s = (writes s).take s.consumed_items
  live : ∀ j, s.consumed_items ≤ j → j < s.produced_items →
    s.buffer.getD (j % 10) 0 = (writes s).getD j 0
  free : ∀ k, k < 10 → (∀ j, s.consumed_items ≤ j → j < s.produced_items → j % 10 ≠ k) →
    s.buffer.getD k 0 = 0
  wrange : ∀ v ∈ writes s, 1 ≤ v ∧ v ≤ 99
  drange : ∀ i, (s.ppc[i]? = some PPc.waitEmpty ∨ s.ppc[i]? = some PPc.waitMutex
    ∨ s.ppc[i]? = some PPc.crit) → 1 ≤ s.pdata.getD i 0 ∧ s.pdata.getD i 0 ≤ 99

end ProdCons

namespace ProdCons

/-- Whether a producer at program counter `c` has no enabled step in `s`. -/
def blockedP (s : State) : PPc → Bool
  | PPc.waitEmpty => s.empty == 0
  | PPc.waitMutex => s.mutex == 0
  | PPc.done => true
  | _ => false

/-- Whether a consumer at program counter `c` has no enabled step in `s`. -/
def blockedC (s : State) : CPc → Bool
  | CPc.waitFull => s.full == 0
  | CPc.waitMutex => s.mutex == 0
  | CPc.done => true
  | _ => false

/-- Executable form of `Stuck`. -/
def stuckB (s : State) : Bool := s.ppc.all (blockedP s) && s.cpc.all (blockedC s)

/-- Executable form of `AllExited`. -/
def allExitedB (s : State) : Bool :=
  s.ppc.all (fun c => c == PPc.finalPost || c == PPc.done) && s.cpc.all (fun c => c == CPc.done)

/-- The schedule `l` repeated `n` times. -/
def cycle (l : List Action) : Nat → List Action
  | 0 => []
  | n + 1 => l ++ cycle l n

/-- Producer `i` runs one whole pass of its loop (six steps), drawing `r` from `rand()`. -/
def producerPass (i r : Nat) : List Action := List.replicate 6 (Action.producer i r)

/-- Consumer `j` runs one whole pass of its loop (six steps). -/
def consumerPass (j : Nat) : List Action := List.replicate 6 (Action.consumer j)

/-- End of `starve`: the three consumers all pass the test of their `while` with 99 items
consumed; the producer writes item 100 and returns; consumers 0 and 1 use the two tokens
left on `full`. -/
def starveTail : List Action :=
  [Action.consumer 0, Action.consumer 1, Action.consumer 2]
    ++ producerPass 0 6 ++ [Action.producer 0 0, Action.producer 0 0]
    ++ consumerPass 0 ++ consumerPass 1

/-- A schedule for one producer and three consumers: producer 0 and consumer 0 move 99 items,
then `starveTail`. -/
def starve : List Action :=
  cycle (producerPass 0 6 ++ consumerPass 0) 99 ++ starveTail

end ProdCons

namespace ProdCons

/-- Between two passes: `k` items went through, every semaphore has its initial value,
producer 0 and consumer 0 are at the test of their `while`; `ps` and `cs` are the program
counters of the other producers and consumers. -/
structure Idle (ps : List PPc) (cs : List CPc) (k : Nat) (s : State) : Prop where
  produced : s.produced_items = k
  consumed : s.consumed_items = k
  mutex : s.mutex = 1
  empty : s.empty = 10
  full : s.full = 0
  ppc : s.ppc = PPc.loop :: ps
  cpc : s.cpc = CPc.loop :: cs

end ProdCons

namespace ProdCons

/-- End of `relay`: every thread finds the test of its `while` false and returns. -/
def relayTail : List Action :=
  [Action.producer 0 0, Action.producer 0 0, Action.producer 1 0, Action.producer 1 0,
   Action.producer 2 0, Action.producer 2 0, Action.producer 3 0, Action.producer 3 0,
   Action.consumer 0, Action.consumer 1, Action.consumer 2, Action.consumer 3]

/-- A schedule for four producers and four consumers: producer 0 and consumer 0 move the 100
items, then `relayTail`. -/
def relay : List Action :=
  cycle (producerPass 0 6 ++ consumerPass 0) 100 ++ relayTail

/-- A short schedule for two producers and three consumers: producer 1 writes one item,
producer 0 reserves a slot, consumer 2 reads the item. -/
def warmup : List Action :=
  producerPass 1 41 ++ [Action.producer 0 7, Action.producer 0 7] ++ consumerPass 2

end ProdCons

namespace ProdCons

/-- Producer `i` runs the body of its loop from `sem_wait(empty)` to `sem_post(full)`
(five steps) without any other thread running in between. -/
def bodyPass (i r : Nat) : List Action := List.replicate 5 (Action.producer i r)

/-- A schedule for two producers and one consumer: producer 0 and the consumer move 99 items;
producer 1 passes the test of its `while`; producer 0 writes item 100. Producer 1 is then
about to call `sem_wait(empty)` with `produced_items = 100`. -/
def lagging : List Action :=
  cycle (producerPass 0 6 ++ consumerPass 0) 99 ++ (Action.producer 1 3 :: producerPass 0 6)

end ProdCons

/-! ## `reverse_map_cond_t.c` and `reverse_map_sem_t.c`: what the two programs share -/

namespace ReverseMap

def BUFFER_SIZE : Nat := 4

/-- Size of a slot of `buffer`, from `<linux/limits.h>`. -/
def PATH_MAX : Nat := 4096

/-- A path given on the command line: the bytes of a C string, without its terminator. -/
abbrev Path := List Nat

/-- The bytes of `src` that `strncpy(dst, src, n)` copies into `dst` (the padding with
NUL bytes is left out). -/
def strncpy (src : Path) (n : Nat) : Path := src.take n

/-- A queue operation: `enq i p k` is thread `reverse_file` number `i` storing its path `p`
in slot `k`, `deq k` is `print_file` taking slot `k`. -/
inductive QEvent
  | enq (thread : Nat) (path : Path) (slot : Nat)
  | deq (slot : Nat)
  deriving DecidableEq, Repr

/-- Whether a queue operation is an insertion. -/
def QEvent.isEnq : QEvent → Bool
  | QEvent.enq _ _ _ => true
  | QEvent.deq _ => false

/-- A scheduler choice: `reverse i ok` runs the next atomic step of thread `reverse_file`
number `i`, where `ok` tells whether its file operations (`open`, `fstat`, `mmap`, `close`,
`munmap`) succeed if the step performs them; `print` runs the next step of `print_file`. -/
inductive Action
  | reverse (i : Nat) (ok : Bool)
  | print
  deriving DecidableEq, Repr

end ReverseMap

/-! ## `reverse_map_cond_t.c` -/

namespace RevCond

open ReverseMap

/-- Program counter of a `reverse_file` thread.  `start`: mapping and reversing the file;
`lock`: `pthread_mutex_lock`; `check`: the test of the `while` (mutex held); `wait`: inside
`pthread_cond_wait(full)` (mutex released); `insert`: past the `while` (mutex held);
`unlock`: `pthread_cond_signal(empty)` and `pthread_mutex_unlock`; `done`: returned after the
insertion; `failed`: returned early after a failed file operation. -/
inductive RPc
  | start | lock | check | wait | insert | unlock | done | failed
  deriving DecidableEq, Repr

/-- Program counter of the `print_file` thread.  `lock`: `pthread_mutex_lock`; `check`: the
test of the inner `while` (mutex held); `wait`: inside `pthread_cond_wait(empty)`; `past`:
past the inner `while`, at `if (paths_to_consume == paths_num)` (mutex held); `unlock`:
`pthread_cond_signal(full)` and `pthread_mutex_unlock` after a dequeue; `display`: opening and
printing the file at `td->filepath`; `done`: after `break`. -/
inductive QPc
  | lock | check | wait | past | unlock | display | done
  deriving DecidableEq, Repr

/-- Indicator (0 or 1): 1 when `print_file` holds the mutex at this program counter. -/
def QPc.holds : QPc → Nat
  | QPc.check => 1
  | QPc.past => 1
  | QPc.unlock => 1
  | _ => 0

/-- Indicator (0 or 1): 1 when `print_file` is past its wait loop and before the test that follows. -/
def QPc.atPast : QPc → Nat
  | QPc.past => 1
  | _ => 0

/-- The `shared_data` record and the threads.  `mutex` is true while the mutex is locked;
`args[i]` is `td[i].filepath` of thread `reverse_file` number `i` and `rpc[i]` its program
counter; `qpc` is the program counter of `print_file` and `filepath` the slot its
`td->filepath` points into; `shown` lists what `print_file` found at `td->filepath` each time
it opened it.  `trace` is a history variable (no step reads it): the queue operations so far. -/
structure State where
  buffer : List Path
  in_ : Nat
  out : Nat
  paths_num : Nat
  paths_to_produce : Nat
  paths_to_consume : Nat
  current_paths_num : Int
  mutex : Bool
  args : List Path
  rpc : List RPc
  qpc : QPc
  filepath : Option Nat
  shown : List Path
  trace : List QEvent
  deriving DecidableEq, Repr

/-- State after `init_shared(shared, argc - 1)` for the command line `args`; `junk` is the
content of the buffer, which `malloc` leaves uninitialised. -/
def init_shared (args : List Path) (junk : List Path) : State where
  buffer := junk
  in_ := 0
  out := 0
  paths_num := args.length
  paths_to_produce := 0
  paths_to_consume := 0
  current_paths_num := 0
  mutex := false
  args := args
  rpc := List.replicate args.length RPc.start
  qpc := QPc.lock
  filepath := none
  shown := []
  trace := []

/-- One atomic step of thread `reverse_file` number `i`.  A thread inside `pthread_cond_wait`
may return from it whenever the mutex is free (POSIX allows spurious wake-ups), so a signal
adds no behaviour and `pthread_cond_signal` changes nothing in the state. -/
def reverse_file (s : State) (i : Nat) (ok : Bool) : Option State :=
  match s.rpc[i]? with
  | none => none
  | some RPc.start =>
    if ok then some { s with rpc := s.rpc.set i RPc.lock }
    else some { s with rpc := s.rpc.set i RPc.failed }
  | some RPc.lock =>
    if s.mutex then none
    else some { s with mutex := true, rpc := s.rpc.set i RPc.check }
  | some RPc.check =>
    if s.current_paths_num = BUFFER_SIZE then
      some { s with mutex := false, rpc := s.rpc.set i RPc.wait }
    else
      some { s with rpc := s.rpc.set i RPc.insert }
  | some RPc.wait =>
    if s.mutex then none
    else some { s with mutex := true, rpc := s.rpc.set i RPc.check }
  | some RPc.insert =>
    some { s with
      buffer := s.buffer.set s.in_ (strncpy (s.args.getD i []) PATH_MAX)
      in_ := (s.in_ + 1) % BUFFER_SIZE
      paths_to_produce := s.paths_to_produce + 1
      current_paths_num := s.current_paths_num + 1
      trace := s.trace ++ [QEvent.enq i (s.args.getD i []) s.in_]
      rpc := s.rpc.set i RPc.unlock }
  | some RPc.unlock =>
    some { s with mutex := false, rpc := s.rpc.set i RPc.done }
  | some RPc.done => none
  | some RPc.failed => none

/-- One atomic step of the `print_file` thread. -/
def print_file (s : State) : Option State :=
  match s.qpc with
  | QPc.lock =>
    if s.mutex then none
    else some { s with mutex := true, qpc := QPc.check }
  | QPc.check =>
    if s.current_paths_num = 0 ∧ s.paths_to_produce ≠ s.paths_num then
      some { s with mutex := false, qpc := QPc.wait }
    else
      some { s with qpc := QPc.past }
  | QPc.wait =>
    if s.mutex then none
    else some { s with mutex := true, qpc := QPc.check }
  | QPc.past =>
    if s.paths_to_consume = s.paths_num then
      some { s with mutex := false, qpc := QPc.done }
    else
      some { s with
        filepath := some s.out
        out := (s.out + 1) % BUFFER_SIZE
        paths_to_consume := s.paths_to_consume + 1
        current_paths_num := s.current_paths_num - 1
        trace := s.trace ++ [QEvent.deq s.out]
        qpc := QPc.unlock }
  | QPc.unlock =>
    some { s with mutex := false, qpc := QPc.display }
  | QPc.display =>
    some { s with
      shown := s.shown ++ [s.buffer.getD (s.filepath.getD 0) []]
      qpc := QPc.lock }
  | QPc.done => none

def step (s : State) : Action → Option State
  | Action.reverse i ok => reverse_file s i ok
  | Action.print => print_file s

/-- States of the run on the command line `args`. -/
inductive Reachable (args junk : List Path) : State → Prop
  | init : Reachable args junk (init_shared args junk)
  | step {s s' : State} (a : Action) :
      Reachable args junk s → step s a = some s' → Reachable args junk s'

/-- Runs a schedule, skipping the actions that are not enabled. -/
def run (s : State) : List Action → State
  | [] => s
  | a :: as => run ((step s a).getD s) as

/-- Accounting of the mutex and the three counters. -/
structure Counters (n : Nat) (s : State) : Prop where
  rlen : s.rpc.length = n
  pnum : s.paths_num = n
  rsum : s.rpc.count RPc.start + s.rpc.count RPc.lock + s.rpc.count RPc.check
    + s.rpc.count RPc.wait + s.rpc.count RPc.insert + s.rpc.count RPc.unlock
    + s.rpc.count RPc.done + s.rpc.count RPc.failed = n
  holder : (if s.mutex then 1 else 0)
    = s.rpc.count RPc.check + s.rpc.count RPc.insert + s.rpc.count RPc.unlock + s.qpc.holds
  past_le : s.qpc.atPast ≤ s.qpc.holds
  current_eq : s.current_paths_num + s.paths_to_consume = s.paths_to_produce
  produced_eq : s.paths_to_produce = s.rpc.count RPc.unlock + s.rpc.count RPc.done
  current_ge : 0 ≤ s.current_paths_num
  current_le : s.current_paths_num ≤ 4
  room : 1 ≤ s.rpc.count RPc.insert → s.current_paths_num < 4
  ready : s.qpc.atPast = 1 → s.current_paths_num ≠ 0 ∨ s.paths_to_produce = s.paths_num

end RevCond

namespace RevCond

open ReverseMap

/-- Two paths, `a` and `b`, for the examples. -/
def twoPaths : List Path := [[97], [98]]

/-- Thread `reverse_file` number `i` runs from its start to its return, all file operations
succeeding (five steps when it never has to wait; a sixth action is skipped). -/
def reversePass (i : Nat) : List Action := List.replicate 6 (Action.reverse i true)

/-- Thread 0 inserts its path, then `print_file` locks and gets past its wait loop. -/
def firstPath : List Action := reversePass 0 ++ [Action.print, Action.print]

/-- Both threads insert their paths, `print_file` takes and prints both, then locks again
and gets past its wait loop with nothing left. -/
def bothPaths : List Action :=
  reversePass 0 ++ reversePass 1 ++ List.replicate 12 Action.print

end RevCond

namespace RevCond

open ReverseMap

/-- Five paths, `a` to `e`, for the examples. -/
def fivePaths : List Path := [[97], [98], [99], [100], [101]]

/-- A schedule for five paths: threads 0 to 3 fill the four slots; thread 4 finds the buffer
full and waits; `print_file` takes slot 0 (which holds `a`), signals and unlocks. -/
def taken : List Action :=
  reversePass 0 ++ reversePass 1 ++ reversePass 2 ++ reversePass 3
    ++ List.replicate 3 (Action.reverse 4 true) ++ List.replicate 4 Action.print

/-- After `taken`, thread 4 wakes up and stores `e` in slot 0, and only then `print_file`
opens the path its pointer refers to. -/
def overwritten : List Action :=
  taken ++ List.replicate 4 (Action.reverse 4 true) ++ [Action.print]

/-- After `overwritten`, `print_file` takes and prints the four paths left and returns. -/
def overwrittenAll : List Action := overwritten ++ List.replicate 23 Action.print

end RevCond

/-! ## `reverse_map_sem_t.c` -/

namespace RevSem

open ReverseMap

/-- Program counter of a `reverse_file` thread.  `start`: mapping and reversing the file;
`waitEmpty`, `waitMutex`: the two `sem_wait`s; `crit`: the insertion; `postMutex`, `postFull`:
the two `sem_post`s; `done`: returned after the insertion; `failed`: returned early after a
failed file operation. -/
inductive RPc
  | start | waitEmpty | waitMutex | crit | postMutex | postFull | done | failed
  deriving DecidableEq, Repr

/-- Program counter of the `print_file` thread.  `loop`: the test of the `while`;
`waitFull`, `waitMutex`: the two `sem_wait`s; `crit`: the removal; `postMutex`, `postEmpty`:
the two `sem_post`s; `display`: opening and printing the file at `td->filepath`; `done`:
returned. -/
inductive QPc
  | loop | waitFull | waitMutex | crit | postMutex | postEmpty | display | done
  deriving DecidableEq, Repr

/-- Indicator (0 or 1): 1 when `print_file` has taken a token of `full` and not yet used it. -/
def QPc.hasFull : QPc → Nat
  | QPc.waitMutex => 1
  | QPc.crit => 1
  | _ => 0

/-- Indicator (0 or 1): 1 when `print_file` holds the semaphore `mutex`. -/
def QPc.inMutex : QPc → Nat
  | QPc.crit => 1
  | QPc.postMutex => 1
  | _ => 0

/-- Indicator (0 or 1): 1 when `print_file` has removed a path and not yet posted `empty`. -/
def QPc.owesEmpty : QPc → Nat
  | QPc.postMutex => 1
  | QPc.postEmpty => 1
  | _ => 0

/-- Indicator (0 or 1): 1 when `print_file` has passed the test of its `while` and not yet removed a path. -/
def QPc.committed : QPc → Nat
  | QPc.waitFull => 1
  | QPc.waitMutex => 1
  | QPc.crit => 1
  | _ => 0

/-- The `shared_data` record and the threads.  `args[i]` is `td[i].filepath` of thread
`reverse_file` number `i` and `rpc[i]` its program counter; `qpc` is the program counter of
`print_file` and `filepath` the slot its `td->filepath` points into; `shown` lists what
`print_file` found at `td->filepath` each time it opened it.  `trace` is a history variable
(no step reads it): the queue operations so far. -/
structure State where
  buffer : List Path
  in_ : Nat
  out : Nat
  paths_num : Nat
  paths_to_consume : Nat
  mutex : Nat
  empty : Nat
  full : Nat
  args : List Path
  rpc : List RPc
  qpc : QPc
  filepath : Option Nat
  shown : List Path
  trace : List QEvent
  deriving DecidableEq, Repr

/-- State after `init_shared(shared, argc - 1)` for the command line `args`; `junk` is the
content of the buffer, which `malloc` leaves uninitialised. -/
def init_shared (args : List Path) (junk : List Path) : State where
  buffer := junk
  in_ := 0
  out := 0
  paths_num := args.length
  paths_to_consume := 0
  mutex := 1
  empty := BUFFER_SIZE
  full := 0
  args := args
  rpc := List.replicate args.length RPc.start
  qpc := QPc.loop
  filepath := none
  shown := []
  trace := []

/-- One atomic step of thread `reverse_file` number `i`. -/
def reverse_file (s : State) (i : Nat) (ok : Bool) : Option State :=
  match s.rpc[i]? with
  | none => none
  | some RPc.start =>
    if ok then some { s with rpc := s.rpc.set i RPc.waitEmpty }
    else some { s with rpc := s.rpc.set i RPc.failed }
  | some RPc.waitEmpty =>
    if 0 < s.empty then
      some { s with empty := s.empty - 1, rpc := s.rpc.set i RPc.waitMutex }
    else none
  | some RPc.waitMutex =>
    if 0 < s.mutex then
      some { s with mutex := s.mutex - 1, rpc := s.rpc.set i RPc.crit }
    else none
  | some RPc.crit =>
    some { s with
      buffer := s.buffer.set s.in_ (strncpy (s.args.getD i []) PATH_MAX)
      in_ := (s.in_ + 1) % BUFFER_SIZE
      trace := s.trace ++ [QEvent.enq i (s.args.getD i []) s.in_]
      rpc := s.rpc.set i RPc.postMutex }
  | some RPc.postMutex =>
    some { s with mutex := s.mutex + 1, rpc := s.rpc.set i RPc.postFull }
  | some RPc.postFull =>
    some { s with full := s.full + 1, rpc := s.rpc.set i RPc.done }
  | some RPc.done => none
  | some RPc.failed => none

/-- One atomic step of the `print_file` thread. -/
def print_file (s : State) : Option State :=
  match s.qpc with
  | QPc.loop =>
    if s.paths_to_consume < s.paths_num then some { s with qpc := QPc.waitFull }
    else some { s with qpc := QPc.done }
  | QPc.waitFull =>
    if 0 < s.full then some { s with full := s.full - 1, qpc := QPc.waitMutex }
    else none
  | QPc.waitMutex =>
    if 0 < s.mutex then some { s with mutex := s.mutex - 1, qpc := QPc.crit }
    else none
  | QPc.crit =>
    some { s with
      filepath := some s.out
      out := (s.out + 1) % BUFFER_SIZE
      paths_to_consume := s.paths_to_consume + 1
      trace := s.trace ++ [QEvent.deq s.out]
      qpc := QPc.postMutex }
  | QPc.postMutex =>
    some { s with mutex := s.mutex + 1, qpc := QPc.postEmpty }
  | QPc.postEmpty =>
    some { s with empty := s.empty + 1, qpc := QPc.display }
  | QPc.display =>
    some { s with
      shown := s.shown ++ [s.buffer.getD (s.filepath.getD 0) []]
      qpc := QPc.loop }
  | QPc.done => none

def step (s : State) : Action → Option State
  | Action.reverse i ok => reverse_file s i ok
  | Action.print => print_file s

/-- States of the run on the command line `args`. -/
inductive Reachable (args junk : List Path) : State → Prop
  | init : Reachable args junk (init_shared args junk)
  | step {s s' : State} (a : Action) :
      Reachable args junk s → step s a = some s' → Reachable args junk s'

/-- Runs a schedule, skipping the actions that are not enabled. -/
def run (s : State) : List Action → State
  | [] => s
  | a :: as => run ((step s a).getD s) as

/-- The paths inserted so far, in the order of the critical sections. -/
def enqueued (s : State) : List Path :=
  s.trace.filterMap fun e => match e with
    | QEvent.enq _ p _ => some p
    | QEvent.deq _ => none

/-- The slots taken so far by `print_file`, in order. -/
def dequeued (s : State) : List Nat :=
  s.trace.filterMap fun e => match e with
    | QEvent.enq _ _ _ => none
    | QEvent.deq k => some k

/-- Token accounting of the three semaphores. -/
structure Tokens (n : Nat) (s : State) : Prop where
  rlen : s.rpc.length = n
  pnum : s.paths_num = n
  rsum : s.rpc.count RPc.start + s.rpc.count RPc.waitEmpty + s.rpc.count RPc.waitMutex
    + s.rpc.count RPc.crit + s.rpc.count RPc.postMutex + s.rpc.count RPc.postFull
    + s.rpc.count RPc.done + s.rpc.count RPc.failed = n
  mutex_eq : s.mutex + s.rpc.count RPc.crit + s.rpc.count RPc.postMutex + s.qpc.inMutex = 1
  enq_eq : (enqueued s).length
    = s.rpc.count RPc.postMutex + s.rpc.count RPc.postFull + s.rpc.count RPc.done
  deq_eq : (dequeued s).length = s.paths_to_consume
  empty_eq : s.empty + s.rpc.count RPc.waitMutex + s.rpc.count RPc.crit
    + (enqueued s).length + s.qpc.owesEmpty = 4 + s.paths_to_consume
  full_eq : s.full + s.qpc.hasFull + s.paths_to_consume
    + s.rpc.count RPc.postMutex + s.rpc.count RPc.postFull = (enqueued s).length
  consumed_le : s.paths_to_consume ≤ s.paths_num
  consumed_lt : s.qpc.committed = 1 → s.paths_to_consume < s.paths_num

/-- The circular buffer seen as a queue: the cursors follow the numbers of insertions and
removals, and the slots between `out` and `in` hold the paths inserted and not yet taken. -/
structure Queue (s : State) : Prop where
  blen : s.buffer.length = 4
  in_eq : s.in_ = (enqueued s).length % 4
  out_eq : s.out = s.paths_to_consume % 4
  live : ∀ j, s.paths_to_consume ≤ j → j < (enqueued s).length →
    s.buffer.getD (j % 4) [] = strncpy ((enqueued s).getD j []) PATH_MAX

/-- Two paths, `a` and `b`, for the examples. -/
def twoPaths : List Path := [[97], [98]]

/-- Thread 1 inserts its path and returns, then `print_file` enters its critical section. -/
def handOver : List Action :=
  List.replicate 6 (Action.reverse 1 true) ++ [Action.print, Action.print, Action.print]

end RevSem

/-! ## The reversing loop of `reverse_file` (both `reverse_map` programs) -/

namespace ReverseMap

/-- The loop
`for (int i = 0; i < st_size / 2; i++) { tmp = map[st_size - i - 1]; map[st_size - i - 1] = map[i]; map[i] = tmp; }`
from the value `i` of its counter on; `size` is `statbuf.st_size` and `map` the mapped bytes.
The counter is a natural number, which is what the `int` of the source holds as long as
`size < 2 ^ 31`. -/
def swap_loop (size : Nat) (map : List Nat) (i : Nat) : List Nat :=
  if i < size / 2 then
    let tmp := map.getD (size - i - 1) 0
    let map1 := map.set (size - i - 1) (map.getD i 0)
    let map2 := map1.set i tmp
    swap_loop size map2 (i + 1)
  else map
termination_by size / 2 - i

/-- Content of the mapping after the loop of `reverse_file` has run on `map`. -/
def reverse_content (map : List Nat) : List Nat := swap_loop map.length map 0

end ReverseMap

/-! ## `palindrome_filter.c`: the test -/

namespace PalindromeFilter

/-- The loop of `is_palindrome` from the value `i` of its counter on; `str` holds the bytes
of the string before its terminator, so `strlen(str)` is `str.length`.  The counter is a
natural number, which is what the `int` of the source holds as long as
`strlen(str) / 2 < 2 ^ 31` (the strings of the program are shorter than `BUFFER_SIZE`). -/
def is_palindrome_loop (str : List Nat) (i : Nat) : Bool :=
  if i < str.length / 2 then
    if str.getD i 0 ≠ str.getD (str.length - i - 1) 0 then false
    else is_palindrome_loop str (i + 1)
  else true
termination_by str.length / 2 - i

def is_palindrome (str : List Nat) : Bool := is_palindrome_loop str 0

end PalindromeFilter

/-! ## `chinese_morra_sem_t.c` and `chinese_morra_cond_t.c`: the rules -/

namespace ChineseMorra

def moves_type : List String := ["rock", "paper", "scissors"]

/-- The function `checkWinner` (the same text in both programs); `strcmp(a, b) == 0` is
equality of the two strings. -/
def checkWinner (P1_move P2_move : String) : Int :=
  if P1_move = P2_move then -1
  else if (P1_move = moves_type.getD 0 "" ∧ P2_move = moves_type.getD 2 "")
      ∨ (P1_move = moves_type.getD 1 "" ∧ P2_move = moves_type.getD 0 "")
      ∨ (P1_move = moves_type.getD 2 "" ∧ P2_move = moves_type.getD 1 "") then 0
  else 1

/-- The rules of the game in words: rock beats scissors, paper beats rock, scissors beats
paper. -/
def beats (a b : String) : Prop :=
  (a = "rock" ∧ b = "scissors") ∨ (a = "paper" ∧ b = "rock") ∨ (a = "scissors" ∧ b = "paper")

end ChineseMorra

/-! ## `palindrome_filter.c`: the three threads -/

namespace PalindromeFilter

def BUFFER_SIZE : Nat := 4096

/-- The bytes `fgets` stores for one call that may store up to `k` bytes: it stops after a
newline (byte 10) or at the end of the file. -/
def takeLine : Nat → List Nat → List Nat
  | 0, _ => []
  | _, [] => []
  | k + 1, c :: cs => if c = 10 then [c] else c :: takeLine k cs

/-- The call `fgets(readerbuff, n, file)` on the unread bytes `file`: `none` at the end of
the file, else the bytes stored and the bytes left unread. -/
def fgets (n : Nat) (file : List Nat) : Option (List Nat × List Nat) :=
  if file = [] then none
  else some (takeLine (n - 1) file, file.drop (takeLine (n - 1) file).length)

/-- The string a buffer holds: its bytes before the first NUL. -/
def cstr (bytes : List Nat) : List Nat := bytes.takeWhile (fun c => c ≠ 0)

/-- The statement `if (readerbuff[strlen(readerbuff) - 1] == '\n') readerbuff[strlen(readerbuff) - 1] = '\0';`
on the string `str` (for the empty string the source reads out of bounds; the string is
left as it is). -/
def chomp (str : List Nat) : List Nat :=
  if str.getLast? = some 10 then str.dropLast else str

/-- Program counter of `reader_thread`.  `fgets`: the test of the `while`, with the removal
of the newline; `waitR`: `sem_wait(sem[R])`; `copy`: the `strncpy`; `postP`: `sem_post(sem[P])`;
`finish`: `ended_work = true`; `lastP`, `lastW`: the two final `sem_post`s. -/
inductive ReaderPc
  | fgets | waitR | copy | postP | finish | lastP | lastW | done
  deriving DecidableEq, Repr

/-- Program counter of `palindrome_thread`.  `loop`: the test of the `while`; `waitP`:
`sem_wait(sem[P])`; `test`: the call of `is_palindrome`; `postW`, `postR`: the two branches. -/
inductive CheckerPc
  | loop | waitP | test | postW | postR | done
  deriving DecidableEq, Repr

/-- Program counter of `writer_thread`.  `loop`: the test of the `while`; `waitW`:
`sem_wait(sem[W])`; `print`: the `printf`; `postR`: `sem_post(sem[R])`. -/
inductive WriterPc
  | loop | waitW | print | postR | done
  deriving DecidableEq, Repr

/-- The `shared` record (`buffer` is the string it holds), the three semaphores `sem[R]`,
`sem[P]`, `sem[W]`, the unread bytes of the file, the local `readerbuff` of the reader, the
program counters, and the lines printed by the writer. -/
structure State where
  buffer : List Nat
  ended_work : Bool
  semR : Nat
  semP : Nat
  semW : Nat
  file : List Nat
  readerbuff : List Nat
  rpc : ReaderPc
  ppc : CheckerPc
  wpc : WriterPc
  stdout : List (List Nat)
  deriving DecidableEq, Repr

/-- State after `init_shared` on the file content `file`; `junk` is what the buffer,
which `malloc` leaves uninitialised, holds. -/
def init_shared (file junk : List Nat) : State where
  buffer := junk
  ended_work := false
  semR := 1
  semP := 0
  semW := 0
  file := file
  readerbuff := []
  rpc := ReaderPc.fgets
  ppc := CheckerPc.loop
  wpc := WriterPc.loop
  stdout := []

/-- One atomic step of `reader_thread`. -/
def reader_thread (s : State) : Option State :=
  match s.rpc with
  | ReaderPc.fgets =>
    match fgets BUFFER_SIZE s.file with
    | none => some { s with rpc := ReaderPc.finish }
    | some (line, rest) =>
      some { s with readerbuff := chomp (cstr line), file := rest, rpc := ReaderPc.waitR }
  | ReaderPc.waitR =>
    if 0 < s.semR then some { s with semR := s.semR - 1, rpc := ReaderPc.copy } else none
  | ReaderPc.copy => some { s with buffer := s.readerbuff, rpc := ReaderPc.postP }
  | ReaderPc.postP => some { s with semP := s.semP + 1, rpc := ReaderPc.fgets }
  | ReaderPc.finish => some { s with ended_work := true, rpc := ReaderPc.lastP }
  | ReaderPc.lastP => some { s with semP := s.semP + 1, rpc := ReaderPc.lastW }
  | ReaderPc.lastW => some { s with semW := s.semW + 1, rpc := ReaderPc.done }
  | ReaderPc.done => none

/-- One atomic step of `palindrome_thread`. -/
def palindrome_thread (s : State) : Option State :=
  match s.ppc with
  | CheckerPc.loop =>
    if s.ended_work then some { s with ppc := CheckerPc.done }
    else some { s with ppc := CheckerPc.waitP }
  | CheckerPc.waitP =>
    if 0 < s.semP then some { s with semP := s.semP - 1, ppc := CheckerPc.test } else none
  | CheckerPc.test =>
    if is_palindrome s.buffer then some { s with ppc := CheckerPc.postW }
    else some { s with ppc := CheckerPc.postR }
  | CheckerPc.postW => some { s with semW := s.semW + 1, ppc := CheckerPc.loop }
  | CheckerPc.postR => some { s with semR := s.semR + 1, ppc := CheckerPc.loop }
  | CheckerPc.done => none

/-- One atomic step of `writer_thread`. -/
def writer_thread (s : State) : Option State :=
  match s.wpc with
  | WriterPc.loop =>
    if s.ended_work then some { s with wpc := WriterPc.done }
    else some { s with wpc := WriterPc.waitW }
  | WriterPc.waitW =>
    if 0 < s.semW then some { s with semW := s.semW - 1, wpc := WriterPc.print } else none
  | WriterPc.print => some { s with stdout := s.stdout ++ [s.buffer], wpc := WriterPc.postR }
  | WriterPc.postR => some { s with semR := s.semR + 1, wpc := WriterPc.loop }
  | WriterPc.done => none

/-- A scheduler choice: which of the three threads runs its next atomic step. -/
inductive Action
  | reader | checker | writer
  deriving DecidableEq, Repr

def step (s : State) : Action → Option State
  | Action.reader => reader_thread s
  | Action.checker => palindrome_thread s
  | Action.writer => writer_thread s

/-- States of the run on the file content `file`. -/
inductive Reachable (file junk : List Nat) : State → Prop
  | init : Reachable file junk (init_shared file junk)
  | step {s s' : State} (a : Action) :
      Reachable file junk s → step s a = some s' → Reachable file junk s'

/-- Runs a schedule, skipping the actions that are not enabled. -/
def run (s : State) : List Action → State
  | [] => s
  | a :: as => run ((step s a).getD s) as

/-- A schedule for a file of one line: the writer enters its loop and waits; the reader
hands the line over; the checker tests it; the reader meets the end of the file and posts
its three final signals; the writer, woken by the last of them, prints the buffer; then the
checker and the writer leave their loops. -/
def lateWake : List Action :=
  [Action.writer, Action.reader, Action.reader, Action.reader, Action.reader,
   Action.checker, Action.checker, Action.checker, Action.checker,
   Action.reader, Action.reader, Action.reader, Action.reader,
   Action.writer, Action.writer, Action.writer, Action.writer,
   Action.checker]

/-- A schedule for a file of one line: the reader runs to its return before the other two
threads start, so both find `ended_work` set at their first test and return. -/
def earlyEnd : List Action :=
  List.replicate 9 Action.reader ++ [Action.checker, Action.writer]

end PalindromeFilter

/-! ## `chinese_morra_sem_t.c`: the four threads -/

namespace ChineseMorra

def PLAYER1 : Nat := 0
def PLAYER2 : Nat := 1
def JUDGE : Nat := 2
def SCOREBOARD : Nat := 3

/-- The call `sem_wait(&sem[k])`: `none` while the semaphore is 0. -/
def sem_wait (sem : List Nat) (k : Nat) : Option (List Nat) :=
  if 0 < sem.getD k 0 then some (sem.set k (sem.getD k 0 - 1)) else none

/-- The call `sem_post(&sem[k])`. -/
def sem_post (sem : List Nat) (k : Nat) : List Nat := sem.set k (sem.getD k 0 + 1)

/-- Program counter of a `player` thread.  `wait`: `sem_wait` on its own semaphore; `test`:
`if (ended_games == games_num) break`; `move`: the choice and the print of the move; `post`:
`sem_post(sem[JUDGE])`. -/
inductive PlayerPc
  | wait | test | move | post | done
  deriving DecidableEq, Repr

/-- Program counter of the `judge` thread.  `loop`: the test of the `while` and the print of
the game number; `postP1`, `postP2`: waking the players; `wait1`, `wait2`: the two
`sem_wait(sem[JUDGE])`; `check`: the call of `checkWinner` and the test of its result;
`next`: `ended_games++`; `postBoard`: `sem_post(sem[SCOREBOARD])`; `waitBoard`: the third
`sem_wait(sem[JUDGE])`; `endP1`, `endP2`: the two `sem_post`s after the loop. -/
inductive JudgePc
  | loop | postP1 | postP2 | wait1 | wait2 | check | next | postBoard | waitBoard
  | endP1 | endP2 | done
  deriving DecidableEq, Repr

/-- Program counter of the `scoreboard` thread.  `loop`: the test of the `while`; `wait`:
`sem_wait(sem[SCOREBOARD])`; `count`: `score[winner]++` and the print of the score so far;
`post`: `sem_post(sem[JUDGE])`; `final`: the print of the final score and winner. -/
inductive BoardPc
  | loop | wait | count | post | final | done
  deriving DecidableEq, Repr

/-- What the threads print. -/
inductive Output
  /-- The line `Game <k>)`. -/
  | game (k : Nat)
  /-- The line `P<thread> -> <move>`. -/
  | moved (thread : Nat) (move : String)
  /-- The line `Draw`. -/
  | draw
  /-- The lines `Partial score:` and `P1 = <p1>, P2 = <p2>`. -/
  | score (p1 p2 : Nat)
  /-- The lines `Final score:` and `P1 = <p1>, P2 = <p2>`, and the verdict: 0 for
  `Draw game`, 1 for P1, 2 for P2. -/
  | total (p1 p2 verdict : Nat)
  deriving DecidableEq, Repr

/-- The `shared` record, the threads, the local `score` of the scoreboard and the standard
output. -/
structure State where
  moves : List String
  winner : Int
  games_num : Nat
  ended_games : Nat
  sem : List Nat
  players : List PlayerPc
  judge : JudgePc
  board : BoardPc
  score : List Nat
  stdout : List Output
  deriving DecidableEq, Repr

/-- State after `init_shared(sh, games_num)`; `junk` is what `moves`, which `malloc` leaves
uninitialised, holds. -/
def init_shared (games_num : Nat) (junk : List String) : State where
  moves := junk
  winner := -1
  games_num := games_num
  ended_games := 0
  sem := [0, 0, 0, 0]
  players := [PlayerPc.wait, PlayerPc.wait]
  judge := JudgePc.loop
  board := BoardPc.loop
  score := [0, 0]
  stdout := []

/-- One atomic step of the `player` thread with `thread_i = p + 1`; `r` is what `rand()`
returns if the step calls it. -/
def player (s : State) (p r : Nat) : Option State :=
  match s.players[p]? with
  | none => none
  | some PlayerPc.wait =>
    match sem_wait s.sem p with
    | none => none
    | some sem => some { s with sem := sem, players := s.players.set p PlayerPc.test }
  | some PlayerPc.test =>
    if s.ended_games = s.games_num then some { s with players := s.players.set p PlayerPc.done }
    else some { s with players := s.players.set p PlayerPc.move }
  | some PlayerPc.move =>
    some { s with
      moves := s.moves.set p (moves_type.getD (r % 3) "")
      stdout := s.stdout ++ [Output.moved (p + 1) (moves_type.getD (r % 3) "")]
      players := s.players.set p PlayerPc.post }
  | some PlayerPc.post =>
    some { s with sem := sem_post s.sem JUDGE, players := s.players.set p PlayerPc.wait }
  | some PlayerPc.done => none

/-- One atomic step of the `judge` thread. -/
def judge (s : State) : Option State :=
  match s.judge with
  | JudgePc.loop =>
    if s.ended_games < s.games_num then
      some { s with stdout := s.stdout ++ [Output.game (s.ended_games + 1)],
                    judge := JudgePc.postP1 }
    else some { s with judge := JudgePc.endP1 }
  | JudgePc.postP1 => some { s with sem := sem_post s.sem PLAYER1, judge := JudgePc.postP2 }
  | JudgePc.postP2 => some { s with sem := sem_post s.sem PLAYER2, judge := JudgePc.wait1 }
  | JudgePc.wait1 =>
    match sem_wait s.sem JUDGE with
    | none => none
    | some sem => some { s with sem := sem, judge := JudgePc.wait2 }
  | JudgePc.wait2 =>
    match sem_wait s.sem JUDGE with
    | none => none
    | some sem => some { s with sem := sem, judge := JudgePc.check }
  | JudgePc.check =>
    if 0 ≤ checkWinner (s.moves.getD PLAYER1 "") (s.moves.getD PLAYER2 "") then
      some { s with winner := checkWinner (s.moves.getD PLAYER1 "") (s.moves.getD PLAYER2 ""),
                    judge := JudgePc.next }
    else
      some { s with winner := checkWinner (s.moves.getD PLAYER1 "") (s.moves.getD PLAYER2 ""),
                    stdout := s.stdout ++ [Output.draw], judge := JudgePc.loop }
  | JudgePc.next => some { s with ended_games := s.ended_games + 1, judge := JudgePc.postBoard }
  | JudgePc.postBoard =>
    some { s with sem := sem_post s.sem SCOREBOARD, judge := JudgePc.waitBoard }
  | JudgePc.waitBoard =>
    match sem_wait s.sem JUDGE with
    | none => none
    | some sem => some { s with sem := sem, judge := JudgePc.loop }
  | JudgePc.endP1 => some { s with sem := sem_post s.sem PLAYER1, judge := JudgePc.endP2 }
  | JudgePc.endP2 => some { s with sem := sem_post s.sem PLAYER2, judge := JudgePc.done }
  | JudgePc.done => none

/-- The statement `score[winner]++` (for a `winner` that is neither 0 nor 1 the source writes
out of bounds; the score is left as it is). -/
def bump (score : List Nat) (winner : Int) : List Nat :=
  if winner = 0 then score.set 0 (score.getD 0 0 + 1)
  else if winner = 1 then score.set 1 (score.getD 1 0 + 1)
  else score

/-- The verdict printed with the final score: 0 for `Draw game`, 1 for P1, 2 for P2. -/
def verdict (score : List Nat) : Nat :=
  if score.getD 0 0 = score.getD 1 0 then 0
  else if score.getD 0 0 > score.getD 1 0 then 1
  else 2

/-- One atomic step of the `scoreboard` thread. -/
def scoreboard (s : State) : Option State :=
  match s.board with
  | BoardPc.loop =>
    if s.ended_games < s.games_num then some { s with board := BoardPc.wait }
    else some { s with board := BoardPc.final }
  | BoardPc.wait =>
    match sem_wait s.sem SCOREBOARD with
    | none => none
    | some sem => some { s with sem := sem, board := BoardPc.count }
  | BoardPc.count =>
    some { s with
      score := bump s.score s.winner
      stdout := s.stdout ++ [Output.score ((bump s.score s.winner).getD 0 0)
        ((bump s.score s.winner).getD 1 0)]
      board := BoardPc.post }
  | BoardPc.post => some { s with sem := sem_post s.sem JUDGE, board := BoardPc.loop }
  | BoardPc.final =>
    some { s with
      stdout := s.stdout ++ [Output.total (s.score.getD 0 0) (s.score.getD 1 0)
        (verdict s.score)]
      board := BoardPc.done }
  | BoardPc.done => none

/-- A scheduler choice: which thread runs its next atomic step (`player p r` is the player
with `thread_i = p + 1`, drawing `r` from `rand()`). -/
inductive Action
  | player (p r : Nat)
  | judge
  | board
  deriving DecidableEq, Repr

def step (s : State) : Action → Option State
  | Action.player p r => player s p r
  | Action.judge => judge s
  | Action.board => scoreboard s

/-- States of the run for `games_num` games. -/
inductive Reachable (games_num : Nat) (junk : List String) : State → Prop
  | init : Reachable games_num junk (init_shared games_num junk)
  | step {s s' : State} (a : Action) :
      Reachable games_num junk s → step s a = some s' → Reachable games_num junk s'

/-- Runs a schedule, skipping the actions that are not enabled. -/
def run (s : State) : List Action → State
  | [] => s
  | a :: as => run ((step s a).getD s) as

/-- A schedule for one game: the judge wakes the players, P1 plays rock and P2 scissors, the
judge finds P1 the winner, counts the game as ended and signals the scoreboard; only then
does the scoreboard run the test of its `while` for the first time. -/
def lateBoard : List Action :=
  List.replicate 3 Action.judge ++ List.replicate 4 (Action.player 0 0)
    ++ List.replicate 4 (Action.player 1 2) ++ List.replicate 5 Action.judge
    ++ [Action.board, Action.board]

end ChineseMorra

/-! ## The two `reverse_map` programs seen through their queue events -/

namespace ReverseMap

/-- A queue event as an observer sees it: `enq p k` is the path `p` being stored in slot `k`,
`deq p k` is slot `k`, which holds `p`, being taken. -/
inductive Ev
  | enq (path : Path) (slot : Nat)
  | deq (path : Path) (slot : Nat)
  deriving DecidableEq, Repr

/-- Whether the file operations of the step succeed. -/
def Action.succeeds : Action → Bool
  | Action.reverse _ ok => ok
  | Action.print => true

end ReverseMap

namespace RevSem

open ReverseMap

/-- The queue event of the step that action `a` takes in state `s`: the critical section of
a `reverse_file` thread stores its path in slot `in`, the critical section of `print_file`
takes slot `out`; every other step is silent. -/
def emit (s : State) : Action → Option Ev
  | Action.reverse i _ =>
    if s.rpc[i]? = some RPc.crit then
      some (Ev.enq (strncpy (s.args.getD i []) PATH_MAX) s.in_)
    else none
  | Action.print =>
    if s.qpc = QPc.crit then some (Ev.deq (s.buffer.getD s.out []) s.out) else none

/-- The runs on the command line `args` with the sequence of queue events each produces.
With `faults = false` no file operation fails, so every `reverse_file` thread reaches its
insertion; with `faults = true` a thread may return early. -/
inductive Produces (faults : Bool) (args junk : List Path) : List Ev → State → Prop
  | init : Produces faults args junk [] (init_shared args junk)
  | step {tr : List Ev} {s s' : State} (a : Action) :
      Produces faults args junk tr s → (faults = true ∨ a.succeeds = true) →
      step s a = some s' → Produces faults args junk (tr ++ (emit s a).toList) s'

/-- Where a thread of the semaphore program stands for the condition-variable program when
the latter is between two queue operations: before or after its insertion. -/
def toCond : RPc → RevCond.RPc
  | RPc.start => RevCond.RPc.start
  | RPc.waitEmpty => RevCond.RPc.start
  | RPc.waitMutex => RevCond.RPc.start
  | RPc.crit => RevCond.RPc.start
  | RPc.postMutex => RevCond.RPc.done
  | RPc.postFull => RevCond.RPc.done
  | RPc.done => RevCond.RPc.done
  | RPc.failed => RevCond.RPc.failed

/-- A state `c` of the condition-variable program that has performed the queue operations of
the state `s` of the semaphore program and is between two operations. -/
structure Mirror (s : State) (c : RevCond.State) : Prop where
  rpc : c.rpc = s.rpc.map toCond
  qpc : c.qpc = RevCond.QPc.lock
  mutex : c.mutex = false
  args : c.args = s.args
  in_eq : c.in_ = s.in_
  out_eq : c.out = s.out
  pnum : c.paths_num = s.paths_num
  consumed : c.paths_to_consume = s.paths_to_consume
  produced : c.paths_to_produce = (enqueued s).length
  current : c.current_paths_num + (s.paths_to_consume : Int) = ((enqueued s).length : Int)
  blen : c.buffer.length = 4
  live : ∀ j, s.paths_to_consume ≤ j → j < (enqueued s).length →
    c.buffer.getD (j % 4) [] = s.buffer.getD (j % 4) []

end RevSem

namespace RevCond

open ReverseMap

/-- The queue event of the step that action `a` takes in state `s`: a `reverse_file` thread
past its wait loop stores its path in slot `in`, `print_file` past its wait loop with paths
left to take takes slot `out`; every other step is silent. -/
def emit (s : State) : Action → Option Ev
  | Action.reverse i _ =>
    if s.rpc[i]? = some RPc.insert then
      some (Ev.enq (strncpy (s.args.getD i []) PATH_MAX) s.in_)
    else none
  | Action.print =>
    if s.qpc = QPc.past ∧ s.paths_to_consume ≠ s.paths_num then
      some (Ev.deq (s.buffer.getD s.out []) s.out)
    else none

/-- The runs on the command line `args` with the sequence of queue events each produces.
With `faults = false` no file operation fails, so every `reverse_file` thread reaches its
insertion; with `faults = true` a thread may return early. -/
inductive Produces (faults : Bool) (args junk : List Path) : List Ev → State → Prop
  | init : Produces faults args junk [] (init_shared args junk)
  | step {tr : List Ev} {s s' : State} (a : Action) :
      Produces faults args junk tr s → (faults = true ∨ a.succeeds = true) →
      step s a = some s' → Produces faults args junk (tr ++ (emit s a).toList) s'

/-- Where a thread of the condition-variable program stands for the semaphore program when
the latter is between two queue operations: before or after its insertion. -/
def toSem : RPc → RevSem.RPc
  | RPc.start => RevSem.RPc.start
  | RPc.lock => RevSem.RPc.start
  | RPc.check => RevSem.RPc.start
  | RPc.wait => RevSem.RPc.start
  | RPc.insert => RevSem.RPc.start
  | RPc.unlock => RevSem.RPc.done
  | RPc.done => RevSem.RPc.done
  | RPc.failed => RevSem.RPc.failed

/-- A state `s` of the semaphore program that has performed the queue operations of the
state `c` of the condition-variable program and is between two operations. -/
structure Mirror (c : State) (s : RevSem.State) : Prop where
  rpc : s.rpc = c.rpc.map toSem
  qpc : s.qpc = RevSem.QPc.loop
  mutex : s.mutex = 1
  args : s.args = c.args
  in_eq : s.in_ = c.in_
  out_eq : s.out = c.out
  in_mod : c.in_ = c.paths_to_produce % 4
  out_mod : c.out = c.paths_to_consume % 4
  pnum : s.paths_num = c.paths_num
  consumed : s.paths_to_consume = c.paths_to_consume
  full : s.full + c.paths_to_consume = c.paths_to_produce
  empty : s.empty + c.paths_to_produce = 4 + c.paths_to_consume
  blen : s.buffer.length = 4
  clen : c.buffer.length = 4
  live : ∀ j, c.paths_to_consume ≤ j → j < c.paths_to_produce →
    s.buffer.getD (j % 4) [] = c.buffer.getD (j % 4) []

end RevCond
/-! ## `prod_cons_sem_t.c`: the threads counted by program counter -/

namespace ProdCons

/-- What a state of `prod_cons_sem_t` looks like when the threads are not told apart: the two
counters, the three semaphores, and the number of producers (`p...`) and of consumers
(`c...`) that stand at each program counter. -/
structure Census where
  produced_items : Nat
  consumed_items : Nat
  mutex : Nat
  empty : Nat
  full : Nat
  pLoop : Nat
  pWaitEmpty : Nat
  pWaitMutex : Nat
  pCrit : Nat
  pPostMutex : Nat
  pPostFull : Nat
  pFinalPost : Nat
  pDone : Nat
  cLoop : Nat
  cWaitFull : Nat
  cWaitMutex : Nat
  cCrit : Nat
  cPostMutex : Nat
  cPostEmpty : Nat
  cDone : Nat
  deriving DecidableEq, Repr

/-- The census of a state. -/
def census (s : State) : Census where
  produced_items := s.produced_items
  consumed_items := s.consumed_items
  mutex := s.mutex
  empty := s.empty
  full := s.full
  pLoop := s.ppc.count PPc.loop
  pWaitEmpty := s.ppc.count PPc.waitEmpty
  pWaitMutex := s.ppc.count PPc.waitMutex
  pCrit := s.ppc.count PPc.crit
  pPostMutex := s.ppc.count PPc.postMutex
  pPostFull := s.ppc.count PPc.postFull
  pFinalPost := s.ppc.count PPc.finalPost
  pDone := s.ppc.count PPc.done
  cLoop := s.cpc.count CPc.loop
  cWaitFull := s.cpc.count CPc.waitFull
  cWaitMutex := s.cpc.count CPc.waitMutex
  cCrit := s.cpc.count CPc.crit
  cPostMutex := s.cpc.count CPc.postMutex
  cPostEmpty := s.cpc.count CPc.postEmpty
  cDone := s.cpc.count CPc.done

/-- Some reachable state of the run with `P` producers and `Q` consumers has the census `c`. -/
def Covers (P Q : Nat) (c : Census) : Prop := ∃ s, Reachable P Q s ∧ census s = c

/-- The census in which `mutex` is free and every thread stands at the test of its `while`,
inside `sem_wait(empty)` resp. `sem_wait(full)`, or has returned. -/
def quiet (produced consumed empty full pLoop pWaitEmpty pDone cLoop cWaitFull cDone : Nat) :
    Census where
  produced_items := produced
  consumed_items := consumed
  mutex := 1
  empty := empty
  full := full
  pLoop := pLoop
  pWaitEmpty := pWaitEmpty
  pWaitMutex := 0
  pCrit := 0
  pPostMutex := 0
  pPostFull := 0
  pFinalPost := 0
  pDone := pDone
  cLoop := cLoop
  cWaitFull := cWaitFull
  cWaitMutex := 0
  cCrit := 0
  cPostMutex := 0
  cPostEmpty := 0
  cDone := cDone

end ProdCons
/-! ## Counting the threads that sit at a program counter -/

section Counting

variable {α : Type} [DecidableEq α]

theorem count_pos_of_getElem? (l : List α) (i : Nat) (a : α) (h : l[i]? = some a) :
    1 ≤ l.count a := by
  have hm : a ∈ l := by
    rw [List.getElem?_eq_some] at h
    obtain ⟨hi, rfl⟩ := h
    exact List.getElem_mem hi
  exact List.count_pos_iff.mpr hm

theorem count_set_eq (l : List α) (i : Nat) (a b c : α) (h : l[i]? = some a) :
    (l.set i b).count c = l.count c + (if b = c then 1 else 0) - (if a = c then 1 else 0) := by
  induction l generalizing i with
  | nil => simp at h
  | cons x xs ih =>
    cases i with
    | zero =>
      simp at h; subst h
      simp [List.count_cons]
      split_ifs <;> simp_all
    | succ n =>
      simp at h
      have := ih n h
      simp [List.count_cons, this]
      have hp : (if a = c then 1 else 0) ≤ xs.count c := by
        split_ifs with hac
        · subst hac
          exact count_pos_of_getElem? xs n a h
        · omega
      split_ifs at * <;> omega

theorem getD_set_eq (l : List Nat) (i k v : Nat) :
    (l.set i v).getD k 0 = if i = k ∧ i < l.length then v else l.getD k 0 := by
  simp only [List.getD_eq_getElem?_getD, List.getElem?_set]
  by_cases hik : i = k
  · subst hik
    by_cases hl : i < l.length
    · simp [hl]
    · have hn : l[i]? = none := List.getElem?_eq_none (by omega)
      simp [hl, hn]
  · simp [hik]

theorem getD_set_any {β : Type} (l : List β) (i k : Nat) (v d : β) :
    (l.set i v).getD k d = if i = k ∧ i < l.length then v else l.getD k d := by
  simp only [List.getD_eq_getElem?_getD, List.getElem?_set]
  by_cases hik : i = k
  · subst hik
    by_cases hl : i < l.length
    · simp [hl]
    · have hn : l[i]? = none := List.getElem?_eq_none (by omega)
      simp [hl, hn]
  · simp [hik]

end Counting


/-! ## Proofs about `prod_cons_sem_t.c` -/

namespace ProdCons

theorem tokens_producer {P Q : Nat} {s s' : State} {np nc i r : Nat}
    (h : producer s i r = some s') (T : Tokens P Q s np nc) :
    ∃ np' nc', Tokens P Q s' np' nc' := by
  obtain ⟨h1, h2, h3, h4, h5, h6, h7, h8, h9, h10, h11, h12, h13⟩ := T
  unfold producer at h
  simp only [items_to_produce] at h
  split at h
  · simp at h
  case h_9 => simp at h
  case h_5 hpc =>
    have hp := count_pos_of_getElem? _ _ _ hpc
    split at h <;> (simp at h; subst h)
    · refine ⟨np, nc, ?_⟩
      constructor <;>
        simp only [count_set_eq _ _ _ _ _ hpc, List.length_set, reduceIte, reduceCtorEq,
          Nat.add_zero, Nat.sub_zero] <;>
        first | assumption | omega
    · refine ⟨np + 1, nc, ?_⟩
      constructor <;>
        simp only [count_set_eq _ _ _ _ _ hpc, List.length_set, reduceIte, reduceCtorEq,
          Nat.add_zero, Nat.sub_zero] <;>
        first | assumption | omega
  all_goals
    rename_i hpc
    have hp := count_pos_of_getElem? _ _ _ hpc
    first
      | (simp at h; subst h; refine ⟨np, nc, ?_⟩)
      | (split at h <;> (simp at h; try subst h; try refine ⟨np, nc, ?_⟩))
    all_goals
      constructor <;>
        simp only [count_set_eq _ _ _ _ _ hpc, List.length_set, reduceIte, reduceCtorEq,
          Nat.add_zero, Nat.sub_zero] <;>
        first | assumption | omega

end ProdCons

namespace ProdCons

theorem tokens_consumer {P Q : Nat} {s s' : State} {np nc j : Nat}
    (h : consumer s j = some s') (T : Tokens P Q s np nc) :
    ∃ np' nc', Tokens P Q s' np' nc' := by
  obtain ⟨h1, h2, h3, h4, h5, h6, h7, h8, h9, h10, h11, h12, h13⟩ := T
  unfold consumer at h
  simp only [items_to_consume] at h
  split at h
  · simp at h
  case h_8 => simp at h
  case h_5 hpc =>
    have hp := count_pos_of_getElem? _ _ _ hpc
    split at h <;> (simp at h; subst h)
    · refine ⟨np, nc, ?_⟩
      constructor <;>
        simp only [count_set_eq _ _ _ _ _ hpc, List.length_set, reduceIte, reduceCtorEq,
          Nat.add_zero, Nat.sub_zero] <;>
        first | assumption | omega
    · refine ⟨np, nc + 1, ?_⟩
      constructor <;>
        simp only [count_set_eq _ _ _ _ _ hpc, List.length_set, reduceIte, reduceCtorEq,
          Nat.add_zero, Nat.sub_zero] <;>
        first | assumption | omega
  all_goals
    rename_i hpc
    have hp := count_pos_of_getElem? _ _ _ hpc
    first
      | (simp at h; subst h; refine ⟨np, nc, ?_⟩)
      | (split at h <;> (simp at h; try subst h; try refine ⟨np, nc, ?_⟩))
    all_goals
      constructor <;>
        simp only [count_set_eq _ _ _ _ _ hpc, List.length_set, reduceIte, reduceCtorEq,
          Nat.add_zero, Nat.sub_zero] <;>
        first | assumption | omega

theorem tokens_init (P Q : Nat) : Tokens P Q (init_shared P Q) 0 0 := by
  constructor <;> simp [init_shared, List.count_replicate, BUFFER_SIZE]

theorem tokens_reachable {P Q : Nat} {s : State}
    (hr : Reachable P Q s) : ∃ np nc, Tokens P Q s np nc := by
  induction hr with
  | init => exact ⟨0, 0, tokens_init P Q⟩
  | step a _ hs ih =>
    obtain ⟨np, nc, T⟩ := ih
    cases a with
    | producer i r => exact tokens_producer hs T
    | consumer j => exact tokens_consumer hs T

end ProdCons

namespace ProdCons

theorem queue_init (P Q : Nat) : Queue (init_shared P Q) := by
  constructor <;> simp [init_shared, writes, reads, BUFFER_SIZE, NEUTRAL_VALUE]
  · intro k hk
    interval_cases k <;> rfl
  · intro i
    simp [List.getElem?_replicate]

theorem writes_produced (s s' : State) (t k v : Nat) (b : List Nat)
    (h : s'.stdout = s.stdout ++ [Output.produced t k v, Output.cells b]) :
    writes s' = writes s ++ [v] := by
  simp [writes, h, List.filterMap_append]

theorem reads_produced (s s' : State) (t k v : Nat) (b : List Nat)
    (h : s'.stdout = s.stdout ++ [Output.produced t k v, Output.cells b]) :
    reads s' = reads s := by
  simp [reads, h, List.filterMap_append]

theorem writes_consumed (s s' : State) (t k v : Nat) (b : List Nat)
    (h : s'.stdout = s.stdout ++ [Output.consumed t k v, Output.cells b]) :
    writes s' = writes s := by
  simp [writes, h, List.filterMap_append]

theorem reads_consumed (s s' : State) (t k v : Nat) (b : List Nat)
    (h : s'.stdout = s.stdout ++ [Output.consumed t k v, Output.cells b]) :
    reads s' = reads s ++ [v] := by
  simp [reads, h, List.filterMap_append]

theorem queue_producer {P Q : Nat} {s s' : State} {np nc i r : Nat}
    (h : producer s i r = some s') (T : Tokens P Q s np nc) (V : Queue s) : Queue s' := by
  obtain ⟨h1, h2, h3, h4, h5, h6, h7, h8, h9, h10, h11, h12, h13⟩ := T
  obtain ⟨v1, v2, v3, v4, v5, v6, v7, v8, v9, v10⟩ := V
  unfold producer at h
  simp only [items_to_produce, BUFFER_SIZE] at h
  split at h
  · simp at h
  case h_9 => simp at h
  case h_5 hpc =>
    have hp := count_pos_of_getElem? _ _ _ hpc
    have hd := v10 i (Or.inr (Or.inr hpc))
    split at h <;> (simp only [Option.some.injEq, reduceCtorEq] at h; subst h)
    · rename_i hlt
      have hocc : s.produced_items < s.consumed_items + 10 := by omega
      constructor
      · simpa using v1
      · simpa using v2
      · show (s.in_ + 1) % 10 = (s.produced_items + 1) % 10
        omega
      · exact v4
      · rw [writes_produced _ _ _ _ _ _ rfl]; simp [v5]
      · rw [writes_produced _ _ _ _ _ _ rfl, reads_produced _ _ _ _ _ _ rfl, v6]
        show _ = List.take s.consumed_items _
        rw [List.take_append_of_le_length (by omega)]
      · intro j hj1 hj2
        dsimp only at hj1 hj2
        rw [writes_produced _ _ _ _ _ _ rfl]
        show (s.buffer.set s.in_ (s.pdata.getD i 0)).getD (j % 10) 0 = _
        rw [getD_set_eq]
        by_cases hjp : j = s.produced_items
        · subst hjp
          rw [if_pos ⟨v3, by omega⟩, List.getD_append_right _ _ _ _ (by omega)]
          simp [v5]
        · rw [if_neg (by omega), List.getD_append _ _ _ _ (by omega)]
          exact v7 j hj1 (by omega)
      · intro k hk hfree
        dsimp only at hfree
        show (s.buffer.set s.in_ (s.pdata.getD i 0)).getD k 0 = _
        rw [getD_set_eq]
        have hne := hfree s.produced_items (by omega) (Nat.lt_succ_self _)
        rw [if_neg (by omega)]
        exact v8 k hk (fun j a b => hfree j a (Nat.lt_succ_of_lt b))
      · intro v hv
        rw [writes_produced _ _ _ _ _ _ rfl] at hv
        rcases List.mem_append.mp hv with hv | hv
        · exact v9 v hv
        · rw [List.mem_singleton] at hv; subst hv; exact hd
      · intro k hk
        simp only [List.getElem?_set] at hk
        by_cases hik : i = k
        · subst hik
          exfalso; simp at hk
        · apply v10 k
          simpa [hik] using hk
    · constructor <;> simp only [writes, reads, List.length_set] <;> try assumption
      intro k hk
      simp only [List.getElem?_set] at hk
      by_cases hik : i = k
      · subst hik
        exfalso; simp at hk
      · apply v10 k
        simpa [hik] using hk
  case h_2 hpc =>
    have hil : i < s.ppc.length := by
      rw [List.getElem?_eq_some] at hpc
      exact hpc.1
    split at h <;> (simp at h; subst h)
    · constructor <;> simp only [writes, reads, List.length_set] <;> try assumption
      intro k hk
      simp only [List.getElem?_set] at hk
      show 1 ≤ (s.pdata.set i (r % 99 + 1)).getD k 0 ∧ (s.pdata.set i (r % 99 + 1)).getD k 0 ≤ 99
      rw [getD_set_eq]
      by_cases hik : i = k
      · subst hik
        rw [if_pos ⟨rfl, by omega⟩]
        omega
      · rw [if_neg (by omega)]
        apply v10 k
        simpa [hik] using hk
    · constructor <;> simp only [writes, reads, List.length_set] <;> try assumption
      intro k hk
      simp only [List.getElem?_set] at hk
      by_cases hik : i = k
      · subst hik
        exfalso; simp at hk
      · apply v10 k
        simpa [hik] using hk
  all_goals
    rename_i hpc
    first
      | (simp at h; subst h)
      | (split at h <;> (simp at h; try subst h))
    all_goals
      constructor <;> simp only [writes, reads, List.length_set] <;> try assumption
    all_goals
      intro k hk
      simp only [List.getElem?_set] at hk
      by_cases hik : i = k
      · subst hik
        first
          | (apply v10 i; simp [hpc]; done)
          | (exfalso; simp at hk)
      · apply v10 k
        simpa [hik] using hk

end ProdCons

namespace ProdCons

theorem queue_consumer {P Q : Nat} {s s' : State} {np nc j : Nat}
    (h : consumer s j = some s') (T : Tokens P Q s np nc) (V : Queue s) : Queue s' := by
  obtain ⟨h1, h2, h3, h4, h5, h6, h7, h8, h9, h10, h11, h12, h13⟩ := T
  obtain ⟨v1, v2, v3, v4, v5, v6, v7, v8, v9, v10⟩ := V
  unfold consumer at h
  simp only [items_to_consume, BUFFER_SIZE, NEUTRAL_VALUE] at h
  split at h
  · simp at h
  case h_8 => simp at h
  case h_5 hpc =>
    have hp := count_pos_of_getElem? _ _ _ hpc
    split at h <;> (simp only [Option.some.injEq, reduceCtorEq] at h; subst h)
    · rename_i hlt
      have hne : s.consumed_items < s.produced_items := by omega
      have hocc : s.produced_items ≤ s.consumed_items + 10 := by omega
      constructor
      · simpa using v1
      · exact v2
      · exact v3
      · show (s.out + 1) % 10 = (s.consumed_items + 1) % 10
        omega
      · rw [writes_consumed _ _ _ _ _ _ rfl]; exact v5
      · rw [writes_consumed _ _ _ _ _ _ rfl, reads_consumed _ _ _ _ _ _ rfl, v6]
        show _ = List.take (s.consumed_items + 1) _
        have hb : s.buffer.getD s.out 0 = (writes s).getD s.consumed_items 0 := by
          rw [v4]; exact v7 _ (Nat.le_refl _) hne
        have hl : s.consumed_items < (writes s).length := by omega
        rw [List.take_succ, hb, List.getD_eq_getElem?_getD, List.getElem?_eq_getElem hl]
        rfl
      · intro k hk1 hk2
        dsimp only at hk1 hk2
        rw [writes_consumed _ _ _ _ _ _ rfl]
        show (s.buffer.set s.out 0).getD (k % 10) 0 = _
        rw [getD_set_eq, if_neg (by omega)]
        exact v7 k (by omega) hk2
      · intro k hk hfree
        dsimp only at hfree
        show (s.buffer.set s.out 0).getD k 0 = _
        rw [getD_set_eq]
        by_cases hko : s.out = k
        · rw [if_pos ⟨hko, by omega⟩]
        · rw [if_neg (by omega)]
          apply v8 k hk
          intro i hi1 hi2
          by_cases hic : i = s.consumed_items
          · subst hic; omega
          · exact hfree i (by omega) hi2
      · rw [writes_consumed _ _ _ _ _ _ rfl]; exact v9
      · exact v10
    · constructor <;> simp only [writes, reads, List.length_set] <;> assumption
  all_goals
    rename_i hpc
    first
      | (simp only [Option.some.injEq, reduceCtorEq] at h; subst h)
      | (split at h <;> (simp only [Option.some.injEq, reduceCtorEq] at h; try subst h))
    all_goals
      constructor <;> simp only [writes, reads, List.length_set] <;> assumption

theorem queue_reachable {P Q : Nat} {s : State} (hr : Reachable P Q s) : Queue s := by
  induction hr with
  | init => exact queue_init P Q
  | step a hprev hs ih =>
    obtain ⟨np, nc, T⟩ := tokens_reachable hprev
    cases a with
    | producer i r => exact queue_producer hs T ih
    | consumer j => exact queue_consumer hs T ih

end ProdCons

namespace ProdCons

theorem reachable_run {P Q : Nat} {s : State} (hr : Reachable P Q s) (as : List Action) :
    Reachable P Q (run s as) := by
  induction as generalizing s with
  | nil => exact hr
  | cons a as ih =>
    simp only [run]
    cases hstep : step s a with
    | none => exact ih hr
    | some s' => exact ih (Reachable.step a hr hstep)

theorem run_append (s : State) (as bs : List Action) :
    run s (as ++ bs) = run (run s as) bs := by
  induction as generalizing s with
  | nil => rfl
  | cons a as ih =>
    show run ((step s a).getD s) (as ++ bs) = run (run ((step s a).getD s) as) bs
    exact ih _

theorem stuck_ppc {s : State} (hs : Stuck s) (c : PPc) (hc : c ∈ s.ppc) :
    (c = PPc.waitEmpty ∧ s.empty = 0) ∨ (c = PPc.waitMutex ∧ s.mutex = 0) ∨ c = PPc.done := by
  obtain ⟨i, hi⟩ := List.mem_iff_getElem?.mp hc
  have h := hs (Action.producer i 0)
  simp only [step, producer, hi] at h
  cases c <;> simp at h ⊢ <;> first | omega | (split at h <;> simp at h)

theorem stuck_cpc {s : State} (hs : Stuck s) (c : CPc) (hc : c ∈ s.cpc) :
    (c = CPc.waitFull ∧ s.full = 0) ∨ (c = CPc.waitMutex ∧ s.mutex = 0) ∨ c = CPc.done := by
  obtain ⟨j, hj⟩ := List.mem_iff_getElem?.mp hc
  have h := hs (Action.consumer j)
  simp only [step, consumer, hj] at h
  cases c <;> simp at h ⊢ <;> first | omega | (split at h <;> simp at h)

end ProdCons

namespace ProdCons

theorem count_zero_of_stuck_p {s : State} (hs : Stuck s) (c : PPc)
    (h1 : c ≠ PPc.waitEmpty) (h2 : c ≠ PPc.waitMutex) (h3 : c ≠ PPc.done) :
    s.ppc.count c = 0 := by
  rw [List.count_eq_zero]
  intro hc
  rcases stuck_ppc hs c hc with h | h | h
  · exact h1 h.1
  · exact h2 h.1
  · exact h3 h

theorem count_zero_of_stuck_c {s : State} (hs : Stuck s) (c : CPc)
    (h1 : c ≠ CPc.waitFull) (h2 : c ≠ CPc.waitMutex) (h3 : c ≠ CPc.done) :
    s.cpc.count c = 0 := by
  rw [List.count_eq_zero]
  intro hc
  rcases stuck_cpc hs c hc with h | h | h
  · exact h1 h.1
  · exact h2 h.1
  · exact h3 h

theorem count_blocked_p {s : State} (hs : Stuck s) :
    (s.ppc.count PPc.waitEmpty = 0 ∨ s.empty = 0)
      ∧ (s.ppc.count PPc.waitMutex = 0 ∨ s.mutex = 0) := by
  constructor
  · by_cases hc : PPc.waitEmpty ∈ s.ppc
    · rcases stuck_ppc hs _ hc with h | h | h
      · exact Or.inr h.2
      · exact absurd h.1 (by decide)
      · exact absurd h (by decide)
    · exact Or.inl (List.count_eq_zero.mpr hc)
  · by_cases hc : PPc.waitMutex ∈ s.ppc
    · rcases stuck_ppc hs _ hc with h | h | h
      · exact absurd h.1 (by decide)
      · exact Or.inr h.2
      · exact absurd h (by decide)
    · exact Or.inl (List.count_eq_zero.mpr hc)

theorem count_blocked_c {s : State} (hs : Stuck s) :
    (s.cpc.count CPc.waitFull = 0 ∨ s.full = 0)
      ∧ (s.cpc.count CPc.waitMutex = 0 ∨ s.mutex = 0) := by
  constructor
  · by_cases hc : CPc.waitFull ∈ s.cpc
    · rcases stuck_cpc hs _ hc with h | h | h
      · exact Or.inr h.2
      · exact absurd h.1 (by decide)
      · exact absurd h (by decide)
    · exact Or.inl (List.count_eq_zero.mpr hc)
  · by_cases hc : CPc.waitMutex ∈ s.cpc
    · rcases stuck_cpc hs _ hc with h | h | h
      · exact absurd h.1 (by decide)
      · exact Or.inr h.2
      · exact absurd h (by decide)
    · exact Or.inl (List.count_eq_zero.mpr hc)

/-- With at most 11 producers and at most one consumer more than producers, a state in which
nothing can move is a state in which every thread has returned and all items went through. -/
theorem stuck_all_exited {P Q : Nat} (hP : 1 ≤ P) (hQ : 1 ≤ Q) (hP11 : P ≤ 11)
    (hQP : Q ≤ P + 1) {s : State} (hr : Reachable P Q s) (hs : Stuck s) :
    AllExited s ∧ s.produced_items = 100 ∧ s.consumed_items = 100 := by
  obtain ⟨np, nc, h1, h2, h3, h4, h5, h6, h7, h8, h9, h10, h11, h12, h13⟩ := tokens_reachable hr
  have p1 := count_zero_of_stuck_p hs PPc.loop (by decide) (by decide) (by decide)
  have p2 := count_zero_of_stuck_p hs PPc.crit (by decide) (by decide) (by decide)
  have p3 := count_zero_of_stuck_p hs PPc.postMutex (by decide) (by decide) (by decide)
  have p4 := count_zero_of_stuck_p hs PPc.postFull (by decide) (by decide) (by decide)
  have p5 := count_zero_of_stuck_p hs PPc.finalPost (by decide) (by decide) (by decide)
  have c1 := count_zero_of_stuck_c hs CPc.loop (by decide) (by decide) (by decide)
  have c2 := count_zero_of_stuck_c hs CPc.crit (by decide) (by decide) (by decide)
  have c3 := count_zero_of_stuck_c hs CPc.postMutex (by decide) (by decide) (by decide)
  have c4 := count_zero_of_stuck_c hs CPc.postEmpty (by decide) (by decide) (by decide)
  obtain ⟨p6, p7⟩ := count_blocked_p hs
  obtain ⟨c6, c7⟩ := count_blocked_c hs
  have key : s.ppc.count PPc.waitEmpty = 0 ∧ s.ppc.count PPc.waitMutex = 0
      ∧ s.cpc.count CPc.waitFull = 0 ∧ s.cpc.count CPc.waitMutex = 0
      ∧ s.produced_items = 100 ∧ s.consumed_items = 100 := by
    omega
  obtain ⟨k1, k2, k3, k4, k5, k6⟩ := key
  refine ⟨⟨?_, ?_⟩, k5, k6⟩
  · intro c hc
    rcases stuck_ppc hs c hc with h | h | h
    · exact absurd (h.1 ▸ hc) (List.count_eq_zero.mp k1)
    · exact absurd (h.1 ▸ hc) (List.count_eq_zero.mp k2)
    · exact Or.inr h
  · intro c hc
    rcases stuck_cpc hs c hc with h | h | h
    · exact absurd (h.1 ▸ hc) (List.count_eq_zero.mp k3)
    · exact absurd (h.1 ▸ hc) (List.count_eq_zero.mp k4)
    · exact h

end ProdCons

namespace ProdCons

theorem idle_pass {ps : List PPc} {cs : List CPc} {k : Nat} {s : State}
    (h : Idle ps cs k s) (hk : k < 100) (r : Nat) :
    Idle ps cs (k + 1) (run s (producerPass 0 r ++ consumerPass 0)) := by
  obtain ⟨h1, h2, h3, h4, h5, h6, h7⟩ := h
  simp [producerPass, consumerPass, List.replicate, run, step, producer, consumer,
    h1, h2, h3, h4, h5, h6, h7, hk, items_to_produce, items_to_consume]
  constructor <;> simp [h1, h2, h3, h4, h5, h6, h7]

end ProdCons

namespace ProdCons

theorem idle_cycle {ps : List PPc} {cs : List CPc} (r n : Nat) {k : Nat} {s : State}
    (h : Idle ps cs k s) (hk : k + n ≤ 100) :
    Idle ps cs (k + n) (run s (cycle (producerPass 0 r ++ consumerPass 0) n)) := by
  induction n generalizing k s with
  | zero => exact h
  | succ n ih =>
    rw [cycle, run_append]
    have h' := idle_pass h (by omega) r
    have := ih h' (by omega)
    rwa [show k + (n + 1) = k + 1 + n by omega]

theorem idle_init (P Q : Nat) :
    Idle (List.replicate P PPc.loop) (List.replicate Q CPc.loop) 0 (init_shared (P + 1) (Q + 1)) := by
  constructor <;> simp [init_shared, List.replicate, BUFFER_SIZE]

theorem stuck_of_stuckB {s : State} (h : stuckB s = true) : Stuck s := by
  simp only [stuckB, Bool.and_eq_true, List.all_eq_true] at h
  intro a
  cases a with
  | producer i r =>
    simp only [step, producer]
    cases hi : s.ppc[i]? with
    | none => rfl
    | some c =>
      have hb := h.1 c (List.mem_iff_getElem?.mpr ⟨i, hi⟩)
      cases c <;> simp [blockedP] at hb ⊢ <;> omega
  | consumer j =>
    simp only [step, consumer]
    cases hj : s.cpc[j]? with
    | none => rfl
    | some c =>
      have hb := h.2 c (List.mem_iff_getElem?.mpr ⟨j, hj⟩)
      cases c <;> simp [blockedC] at hb ⊢ <;> omega

theorem starve_tail {s : State} (h : Idle [] [CPc.loop, CPc.loop] 99 s) :
    (run s starveTail).ppc = [PPc.done]
      ∧ (run s starveTail).cpc = [CPc.done, CPc.done, CPc.waitFull]
      ∧ (run s starveTail).full = 0 ∧ (run s starveTail).mutex = 1 := by
  obtain ⟨h1, h2, h3, h4, h5, h6, h7⟩ := h
  simp [starveTail, producerPass, consumerPass, List.replicate, run, step, producer, consumer,
    h1, h2, h3, h4, h5, h6, h7, items_to_produce, items_to_consume]

theorem idle_starve :
    Idle [] [CPc.loop, CPc.loop] 99
      (run (init_shared 1 3) (cycle (producerPass 0 6 ++ consumerPass 0) 99)) :=
  idle_cycle 6 99 (idle_init 0 2) (by omega)

theorem relay_tail {s : State}
    (h : Idle [PPc.loop, PPc.loop, PPc.loop] [CPc.loop, CPc.loop, CPc.loop] 100 s) :
    (run s relayTail).ppc = [PPc.done, PPc.done, PPc.done, PPc.done]
      ∧ (run s relayTail).cpc = [CPc.done, CPc.done, CPc.done, CPc.done] := by
  obtain ⟨h1, h2, h3, h4, h5, h6, h7⟩ := h
  simp [relayTail, List.replicate, run, step, producer, consumer,
    h1, h2, h3, h4, h5, h6, h7, items_to_produce, items_to_consume]

theorem idle_relay :
    Idle [PPc.loop, PPc.loop, PPc.loop] [CPc.loop, CPc.loop, CPc.loop] 100
      (run (init_shared 4 4) (cycle (producerPass 0 6 ++ consumerPass 0) 100)) :=
  idle_cycle 6 100 (idle_init 3 3) (by omega)

end ProdCons

namespace ProdCons

theorem counters_le {P Q : Nat} {s : State} (hr : Reachable P Q s) :
    s.consumed_items ≤ s.produced_items := by
  obtain ⟨np, nc, T⟩ := tokens_reachable hr
  have := T.pmax; have := T.cmax; have := T.full_eq; have := T.prun
  omega

/-- C1. In every reachable state of `prod_cons_sem_t` (any numbers `P`, `Q` of producers and
consumers) `consumed_items ≤ produced_items ≤ 100`; the producers have written exactly
`produced_items` values and the consumers have read exactly `consumed_items` values, so no
101st item is written and nothing is read that was not written. -/
theorem counters_within_target (P Q : Nat) (s : State) (hr : Reachable P Q s) :
    s.consumed_items ≤ s.produced_items ∧ s.produced_items ≤ items_to_produce
      ∧ (writes s).length = s.produced_items ∧ (reads s).length = s.consumed_items := by
  obtain ⟨np, nc, T⟩ := tokens_reachable hr
  have V := queue_reachable hr
  have h1 : s.consumed_items ≤ s.produced_items := by
    have := T.pmax; have := T.cmax; have := T.full_eq; have := T.prun
    omega
  refine ⟨h1, T.pmax, V.wlen, ?_⟩
  rw [V.rd, List.length_take, V.wlen]
  omega

theorem counters_within_target_witness :
    Reachable 2 3 (run (init_shared 2 3) warmup)
      ∧ (run (init_shared 2 3) warmup).consumed_items ≤ (run (init_shared 2 3) warmup).produced_items
      ∧ (run (init_shared 2 3) warmup).produced_items ≤ items_to_produce
      ∧ (writes (run (init_shared 2 3) warmup)).length = (run (init_shared 2 3) warmup).produced_items
      ∧ (reads (run (init_shared 2 3) warmup)).length = (run (init_shared 2 3) warmup).consumed_items :=
  ⟨reachable_run Reachable.init warmup,
    counters_within_target 2 3 _ (reachable_run Reachable.init warmup)⟩

/-- C2. In every reachable state of `prod_cons_sem_t` the occupancy
`produced_items - consumed_items` is at most `BUFFER_SIZE`; and whenever a producer is about
to write (it is in its critical section with `produced_items < 100`) the occupancy is below
`BUFFER_SIZE` and the slot `buffer[in]` it writes holds no unconsumed item (it is neutral). -/
theorem occupancy_within_capacity (P Q : Nat) (s : State) (hr : Reachable P Q s) :
    s.consumed_items ≤ s.produced_items
      ∧ s.produced_items - s.consumed_items ≤ BUFFER_SIZE
      ∧ ∀ i : Nat, s.ppc[i]? = some PPc.crit → s.produced_items < items_to_produce →
          s.produced_items - s.consumed_items < BUFFER_SIZE
            ∧ s.buffer.getD s.in_ 0 = NEUTRAL_VALUE := by
  obtain ⟨np, nc, T⟩ := tokens_reachable hr
  have V := queue_reachable hr
  have h1 : s.consumed_items ≤ s.produced_items := by
    have := T.pmax; have := T.cmax; have := T.full_eq; have := T.prun
    omega
  have h2 : s.produced_items - s.consumed_items ≤ 10 := by
    have := T.pmax; have := T.cmax; have := T.empty_eq; have := T.crun
    omega
  refine ⟨h1, h2, ?_⟩
  intro i hi hlt
  have hp := count_pos_of_getElem? _ _ _ hi
  have h3 : s.produced_items - s.consumed_items < 10 := by
    have := T.pmax; have := T.cmax; have := T.empty_eq; have := T.crun
    simp only [items_to_produce] at hlt
    omega
  refine ⟨h3, ?_⟩
  rw [V.in_eq]
  apply V.free _ (Nat.mod_lt _ (by decide))
  intro j hj1 hj2
  omega

theorem occupancy_within_capacity_witness :
    Reachable 2 3 (run (init_shared 2 3) warmup)
      ∧ (run (init_shared 2 3) warmup).consumed_items ≤ (run (init_shared 2 3) warmup).produced_items
      ∧ (run (init_shared 2 3) warmup).produced_items
          - (run (init_shared 2 3) warmup).consumed_items ≤ BUFFER_SIZE :=
  ⟨reachable_run Reachable.init warmup,
    (occupancy_within_capacity 2 3 _ (reachable_run Reachable.init warmup)).1,
    (occupancy_within_capacity 2 3 _ (reachable_run Reachable.init warmup)).2.1⟩

/-- C3. In every reachable state of `prod_cons_sem_t` the sequence of values read by the
consumer critical sections is a prefix of the sequence of values written by the producer
critical sections (both in the order in which the critical sections ran): it is exactly the
first `consumed_items` written values. -/
theorem reads_prefix_of_writes (P Q : Nat) (s : State) (hr : Reachable P Q s) :
    reads s <+: writes s ∧ reads s = (writes s).take s.consumed_items := by
  have V := queue_reachable hr
  refine ⟨?_, V.rd⟩
  rw [V.rd]
  exact List.take_prefix _ _

theorem reads_prefix_of_writes_witness :
    Reachable 2 3 (run (init_shared 2 3) warmup)
      ∧ reads (run (init_shared 2 3) warmup) <+: writes (run (init_shared 2 3) warmup) :=
  ⟨reachable_run Reachable.init warmup,
    (reads_prefix_of_writes 2 3 _ (reachable_run Reachable.init warmup)).1⟩

/-- C4 (the code at a failing input). With one producer and three consumers the schedule
`starve` reaches a state in which no thread can take a step although consumer 2 is still
inside its loop, blocked in `sem_wait(full)` with `full = 0`. -/
theorem starved_consumer :
    Reachable 1 3 (run (init_shared 1 3) starve)
      ∧ Stuck (run (init_shared 1 3) starve)
      ∧ ¬ AllExited (run (init_shared 1 3) starve)
      ∧ (run (init_shared 1 3) starve).cpc = [CPc.done, CPc.done, CPc.waitFull]
      ∧ (run (init_shared 1 3) starve).full = 0 := by
  have h := starve_tail idle_starve
  rw [← run_append] at h
  obtain ⟨h1, h2, h3, h4⟩ := h
  refine ⟨reachable_run Reachable.init starve, ?_, ?_, h2, h3⟩
  · apply stuck_of_stuckB
    simp [stuckB, starve, h1, h2, h3, h4, blockedP, blockedC]
  · intro he
    have := he.2 CPc.waitFull (by simp [starve, h2])
    exact absurd this (by decide)

/-- C5. With 4 producers and 4 consumers, every reachable state of `prod_cons_sem_t` in which
no thread can take a step has all 8 threads returned, `produced_items = consumed_items = 100`
and occupancy 0. -/
theorem four_by_four_completes (s : State) (hr : Reachable 4 4 s) (hs : Stuck s) :
    AllExited s ∧ s.ppc.length = 4 ∧ s.cpc.length = 4
      ∧ s.produced_items = 100 ∧ s.consumed_items = 100
      ∧ s.produced_items - s.consumed_items = 0 := by
  obtain ⟨h1, h2, h3⟩ :=
    stuck_all_exited (by decide) (by decide) (by decide) (by decide) hr hs
  obtain ⟨np, nc, T⟩ := tokens_reachable hr
  exact ⟨h1, T.plen, T.clen, h2, h3, by omega⟩

theorem four_by_four_completes_witness :
    Reachable 4 4 (run (init_shared 4 4) relay) ∧ Stuck (run (init_shared 4 4) relay)
      ∧ AllExited (run (init_shared 4 4) relay)
      ∧ (run (init_shared 4 4) relay).produced_items = 100
      ∧ (run (init_shared 4 4) relay).consumed_items = 100 := by
  have h := relay_tail idle_relay
  rw [← run_append] at h
  have hstuck : Stuck (run (init_shared 4 4) relay) := by
    apply stuck_of_stuckB
    simp [stuckB, relay, h.1, h.2, blockedP, blockedC]
  have hc := four_by_four_completes _ (reachable_run Reachable.init relay) hstuck
  exact ⟨reachable_run Reachable.init relay, hstuck, hc.1, hc.2.2.2.1, hc.2.2.2.2.1⟩

end ProdCons

namespace ProdCons

/-- C6. For `P ≥ 1` producers and `Q ≥ 1` consumers, in every reachable state of
`prod_cons_sem_t` in which all threads have left their loops, `produced_items = 100` and
`consumed_items = 100`, exactly 100 writes and exactly 100 reads were performed, and the
sequence of values read is the sequence of values written (the k-th read returns the k-th
written value, so each written value is read once). -/
theorem conservation (P Q : Nat) (hP : 1 ≤ P) (hQ : 1 ≤ Q) (s : State)
    (hr : Reachable P Q s) (he : AllExited s) :
    s.produced_items = 100 ∧ s.consumed_items = 100
      ∧ (writes s).length = 100 ∧ (reads s).length = 100 ∧ reads s = writes s := by
  obtain ⟨np, nc, T⟩ := tokens_reachable hr
  have V := queue_reachable hr
  have hp : s.produced_items = 100 := by
    have hne : s.ppc ≠ [] := by
      intro h0
      have := T.plen
      rw [h0] at this
      simp at this
      omega
    obtain ⟨c, hc⟩ := List.exists_mem_of_ne_nil _ hne
    have h1 := T.pmax
    have h2 := T.prun
    rcases he.1 c hc with h | h
    · have := List.count_pos_iff.mpr (h ▸ hc)
      omega
    · have := List.count_pos_iff.mpr (h ▸ hc)
      omega
  have hc : s.consumed_items = 100 := by
    have hne : s.cpc ≠ [] := by
      intro h0
      have := T.clen
      rw [h0] at this
      simp at this
      omega
    obtain ⟨c, hc⟩ := List.exists_mem_of_ne_nil _ hne
    have h1 := T.cmax
    have h2 := T.crun
    have h := he.2 c hc
    have := List.count_pos_iff.mpr (h ▸ hc)
    omega
  have hw : (writes s).length = 100 := by rw [V.wlen, hp]
  have hrw : reads s = writes s := by
    rw [V.rd, hc]
    exact List.take_of_length_le (by omega)
  exact ⟨hp, hc, hw, by rw [hrw, hw], hrw⟩

theorem conservation_witness :
    Reachable 4 4 (run (init_shared 4 4) relay) ∧ AllExited (run (init_shared 4 4) relay)
      ∧ (writes (run (init_shared 4 4) relay)).length = 100
      ∧ reads (run (init_shared 4 4) relay) = writes (run (init_shared 4 4) relay) := by
  have h := relay_tail idle_relay
  rw [← run_append] at h
  have hex : AllExited (run (init_shared 4 4) relay) := by
    constructor
    · intro c hc
      simp only [relay, h.1] at hc
      simp at hc
      exact Or.inr hc
    · intro c hc
      simp only [relay, h.2] at hc
      simp at hc
      exact hc
  have hc := conservation 4 4 (by decide) (by decide) _ (reachable_run Reachable.init relay) hex
  exact ⟨reachable_run Reachable.init relay, hex, hc.2.2.1, hc.2.2.2.2⟩

/-- C7. In every reachable state of `prod_cons_sem_t`, the `produced_items - consumed_items`
slots starting at index `out` hold the written and not yet read values, each in `1..99`, and
every other slot holds `NEUTRAL_VALUE`; hence in every reachable state with
`consumed_items = 100` all 10 slots of the buffer are 0. -/
theorem buffer_contents (P Q : Nat) (s : State) (hr : Reachable P Q s) :
    (∀ k, k < BUFFER_SIZE →
      (k < s.produced_items - s.consumed_items →
        s.buffer.getD ((s.out + k) % BUFFER_SIZE) 0 = (writes s).getD (s.consumed_items + k) 0
          ∧ 1 ≤ s.buffer.getD ((s.out + k) % BUFFER_SIZE) 0
          ∧ s.buffer.getD ((s.out + k) % BUFFER_SIZE) 0 ≤ 99)
      ∧ (s.produced_items - s.consumed_items ≤ k →
        s.buffer.getD ((s.out + k) % BUFFER_SIZE) 0 = NEUTRAL_VALUE))
    ∧ (s.consumed_items = 100 → s.buffer = List.replicate BUFFER_SIZE NEUTRAL_VALUE) := by
  obtain ⟨np, nc, T⟩ := tokens_reachable hr
  have V := queue_reachable hr
  have hle : s.consumed_items ≤ s.produced_items := (counters_le hr)
  have hocc : s.produced_items ≤ s.consumed_items + 10 := by
    have := T.pmax; have := T.cmax; have := T.empty_eq; have := T.crun
    omega
  have hslot : ∀ k, (s.out + k) % 10 = (s.consumed_items + k) % 10 := by
    intro k; rw [V.out_eq]; omega
  constructor
  · intro k hk
    simp only [BUFFER_SIZE, NEUTRAL_VALUE] at hk ⊢
    constructor
    · intro hlive
      have hv := V.live (s.consumed_items + k) (by omega) (by omega)
      rw [hslot, hv]
      have hmem : (writes s).getD (s.consumed_items + k) 0 ∈ writes s := by
        have hl : s.consumed_items + k < (writes s).length := by rw [V.wlen]; omega
        rw [List.getD_eq_getElem _ _ hl]
        exact List.getElem_mem hl
      exact ⟨rfl, V.wrange _ hmem⟩
    · intro hfree
      rw [hslot]
      apply V.free _ (Nat.mod_lt _ (by decide))
      intro j hj1 hj2
      omega
  · intro hdone
    simp only [BUFFER_SIZE, NEUTRAL_VALUE]
    rw [List.eq_replicate_iff]
    refine ⟨V.blen, ?_⟩
    intro b hb
    obtain ⟨k, hk, rfl⟩ := List.getElem_of_mem hb
    have hk10 : k < 10 := by rw [← V.blen]; exact hk
    have h0 := V.free k hk10 (by
      intro j hj1 hj2
      have := T.pmax
      omega)
    rw [List.getD_eq_getElem _ _ hk] at h0
    exact h0

theorem buffer_contents_witness :
    Reachable 4 4 (run (init_shared 4 4) relay)
      ∧ ((run (init_shared 4 4) relay).consumed_items = 100 →
          (run (init_shared 4 4) relay).buffer = List.replicate BUFFER_SIZE NEUTRAL_VALUE) :=
  ⟨reachable_run Reachable.init relay,
    (buffer_contents 4 4 _ (reachable_run Reachable.init relay)).2⟩

end ProdCons

namespace ProdCons

theorem lagging_tail {s : State} (h : Idle [PPc.loop] [] 99 s) :
    (run s (Action.producer 1 3 :: producerPass 0 6)).ppc = [PPc.loop, PPc.waitEmpty]
      ∧ (run s (Action.producer 1 3 :: producerPass 0 6)).produced_items = 100
      ∧ (run s (Action.producer 1 3 :: producerPass 0 6)).empty = 9
      ∧ (run s (Action.producer 1 3 :: producerPass 0 6)).mutex = 1
      ∧ (run s (Action.producer 1 3 :: producerPass 0 6)).full = 1 := by
  obtain ⟨h1, h2, h3, h4, h5, h6, h7⟩ := h
  simp [producerPass, List.replicate, run, step, producer, consumer,
    h1, h2, h3, h4, h5, h6, h7, items_to_produce, items_to_consume]

theorem idle_lagging :
    Idle [PPc.loop] [] 99
      (run (init_shared 2 1) (cycle (producerPass 0 6 ++ consumerPass 0) 99)) :=
  idle_cycle 6 99 (idle_init 1 0) (by omega)

theorem lagging_end :
    (run (init_shared 2 1) lagging).ppc = [PPc.loop, PPc.waitEmpty]
      ∧ (run (init_shared 2 1) lagging).produced_items = 100
      ∧ (run (init_shared 2 1) lagging).empty = 9
      ∧ (run (init_shared 2 1) lagging).mutex = 1
      ∧ (run (init_shared 2 1) lagging).full = 1 := by
  have h := lagging_tail idle_lagging
  rw [← run_append] at h
  exact h

theorem body_pass_skipped (s : State) (i r : Nat) (hpc : s.ppc[i]? = some PPc.waitEmpty)
    (hfull : ¬ s.produced_items < items_to_produce) (he : 0 < s.empty) (hm : 0 < s.mutex) :
    (run s (bodyPass i r)).ppc = s.ppc.set i PPc.loop
      ∧ (run s (bodyPass i r)).empty + 1 = s.empty
      ∧ (run s (bodyPass i r)).full = s.full + 1
      ∧ (run s (bodyPass i r)).mutex = s.mutex
      ∧ (run s (bodyPass i r)).buffer = s.buffer
      ∧ (run s (bodyPass i r)).in_ = s.in_
      ∧ (run s (bodyPass i r)).out = s.out
      ∧ (run s (bodyPass i r)).produced_items = s.produced_items
      ∧ (run s (bodyPass i r)).consumed_items = s.consumed_items := by
  have hil : i < s.ppc.length := by
    rw [List.getElem?_eq_some] at hpc
    exact hpc.1
  simp [bodyPass, List.replicate, run, step, producer, hpc, hfull, he, hm, hil]
  omega

end ProdCons

namespace ProdCons

/-- C18 (counterexample). With two producers and one consumer the schedule `lagging` reaches a
state in which producer 1 is about to call `sem_wait(empty)` while `produced_items = 100`;
after its pass through the loop body, whose recheck fails, `empty` is 8 and not the 9 it was
before the `sem_wait(empty)`. -/
theorem skipped_pass_loses_empty :
    Reachable 2 1 (run (init_shared 2 1) lagging)
      ∧ (run (init_shared 2 1) lagging).ppc[1]? = some PPc.waitEmpty
      ∧ ¬ (run (init_shared 2 1) lagging).produced_items < items_to_produce
      ∧ (run (init_shared 2 1) lagging).empty = 9
      ∧ (run (run (init_shared 2 1) lagging) (bodyPass 1 0)).ppc[1]? = some PPc.loop
      ∧ (run (run (init_shared 2 1) lagging) (bodyPass 1 0)).empty = 8
      ∧ (run (run (init_shared 2 1) lagging) (bodyPass 1 0)).empty
          ≠ (run (init_shared 2 1) lagging).empty := by
  obtain ⟨h1, h2, h3, h4, h5⟩ := lagging_end
  have hpc : (run (init_shared 2 1) lagging).ppc[1]? = some PPc.waitEmpty := by rw [h1]; rfl
  have hfull : ¬ (run (init_shared 2 1) lagging).produced_items < items_to_produce := by
    rw [h2]; decide
  obtain ⟨b1, b2, _⟩ := body_pass_skipped _ 1 0 hpc hfull (by omega) (by omega)
  refine ⟨reachable_run Reachable.init lagging, hpc, hfull, h3, ?_, by omega, by omega⟩
  rw [b1, h1]
  rfl

/-- C18 (amended). A pass of a producer through its loop body whose recheck
`produced_items < 100` fails, run without another thread in between, does not give back the
token of `empty` it took: afterwards `empty` is one lower and `full` one higher than before
the `sem_wait(empty)`, `mutex` has its old value, and `buffer`, `in`, `out` and both
counters are unchanged. -/
theorem skipped_pass_effect (s : State) (i r : Nat) (hpc : s.ppc[i]? = some PPc.waitEmpty)
    (hfull : ¬ s.produced_items < items_to_produce) (he : 0 < s.empty) (hm : 0 < s.mutex) :
    (run s (bodyPass i r)).ppc = s.ppc.set i PPc.loop
      ∧ (run s (bodyPass i r)).empty + 1 = s.empty
      ∧ (run s (bodyPass i r)).full = s.full + 1
      ∧ (run s (bodyPass i r)).mutex = s.mutex
      ∧ (run s (bodyPass i r)).buffer = s.buffer
      ∧ (run s (bodyPass i r)).in_ = s.in_
      ∧ (run s (bodyPass i r)).out = s.out
      ∧ (run s (bodyPass i r)).produced_items = s.produced_items
      ∧ (run s (bodyPass i r)).consumed_items = s.consumed_items :=
  body_pass_skipped s i r hpc hfull he hm

theorem skipped_pass_effect_witness :
    (run (init_shared 2 1) lagging).ppc[1]? = some PPc.waitEmpty
      ∧ ¬ (run (init_shared 2 1) lagging).produced_items < items_to_produce
      ∧ 0 < (run (init_shared 2 1) lagging).empty
      ∧ 0 < (run (init_shared 2 1) lagging).mutex
      ∧ (run (run (init_shared 2 1) lagging) (bodyPass 1 0)).empty + 1
          = (run (init_shared 2 1) lagging).empty
      ∧ (run (run (init_shared 2 1) lagging) (bodyPass 1 0)).full
          = (run (init_shared 2 1) lagging).full + 1 := by
  obtain ⟨h1, h2, h3, h4, h5⟩ := lagging_end
  have hpc : (run (init_shared 2 1) lagging).ppc[1]? = some PPc.waitEmpty := by rw [h1]; rfl
  have hfull : ¬ (run (init_shared 2 1) lagging).produced_items < items_to_produce := by
    rw [h2]; decide
  have he : 0 < (run (init_shared 2 1) lagging).empty := by omega
  have hm : 0 < (run (init_shared 2 1) lagging).mutex := by omega
  have h := skipped_pass_effect _ 1 0 hpc hfull he hm
  exact ⟨hpc, hfull, he, hm, h.2.1, h.2.2.1⟩

/-- C19. In every reachable state of `prod_cons_sem_t`: a producer critical section entered
with `produced_items = 100` leaves `buffer`, `in`, `out` and both counters unchanged, and so
does a consumer critical section entered with `consumed_items = 100`; a producer critical
section entered with `produced_items < 100` changes exactly the slot `buffer[in]`, advances
`in` by 1 modulo 10 and raises `produced_items` by 1, and a consumer critical section entered
with `consumed_items < 100` changes exactly the slot `buffer[out]`, advances `out` by 1
modulo 10 and raises `consumed_items` by 1. -/
theorem critical_section_frame (P Q : Nat) (s s' : State) (hr : Reachable P Q s) :
    (∀ i r : Nat, s.ppc[i]? = some PPc.crit → producer s i r = some s' →
      (s.produced_items = 100 →
        s'.buffer = s.buffer ∧ s'.in_ = s.in_ ∧ s'.out = s.out
          ∧ s'.produced_items = s.produced_items ∧ s'.consumed_items = s.consumed_items)
      ∧ (s.produced_items < 100 →
        s.in_ < BUFFER_SIZE ∧ s'.buffer = s.buffer.set s.in_ (s.pdata.getD i 0)
          ∧ s'.buffer.getD s.in_ 0 ≠ s.buffer.getD s.in_ 0
          ∧ (∀ k, k ≠ s.in_ → s'.buffer.getD k 0 = s.buffer.getD k 0)
          ∧ s'.in_ = (s.in_ + 1) % BUFFER_SIZE ∧ s'.out = s.out
          ∧ s'.produced_items = s.produced_items + 1
          ∧ s'.consumed_items = s.consumed_items))
    ∧ (∀ j : Nat, s.cpc[j]? = some CPc.crit → consumer s j = some s' →
      (s.consumed_items = 100 →
        s'.buffer = s.buffer ∧ s'.in_ = s.in_ ∧ s'.out = s.out
          ∧ s'.produced_items = s.produced_items ∧ s'.consumed_items = s.consumed_items)
      ∧ (s.consumed_items < 100 →
        s.out < BUFFER_SIZE ∧ s'.buffer = s.buffer.set s.out NEUTRAL_VALUE
          ∧ s'.buffer.getD s.out 0 ≠ s.buffer.getD s.out 0
          ∧ (∀ k, k ≠ s.out → s'.buffer.getD k 0 = s.buffer.getD k 0)
          ∧ s'.out = (s.out + 1) % BUFFER_SIZE ∧ s'.in_ = s.in_
          ∧ s'.consumed_items = s.consumed_items + 1
          ∧ s'.produced_items = s.produced_items)) := by
  obtain ⟨np, nc, T⟩ := tokens_reachable hr
  have V := queue_reachable hr
  have hle := counters_le hr
  constructor
  · intro i r hpc hstep
    have hp := count_pos_of_getElem? _ _ _ hpc
    have hd := V.drange i (Or.inr (Or.inr hpc))
    simp only [producer, hpc, items_to_produce, BUFFER_SIZE] at hstep
    constructor
    · intro h100
      rw [if_neg (by omega)] at hstep
      simp only [Option.some.injEq] at hstep
      subst hstep
      exact ⟨rfl, rfl, rfl, rfl, rfl⟩
    · intro hlt
      rw [if_pos hlt] at hstep
      simp only [Option.some.injEq] at hstep
      subst hstep
      have hin : s.in_ < 10 := by rw [V.in_eq]; omega
      have hocc : s.produced_items < s.consumed_items + 10 := by
        have := T.empty_eq; have := T.crun; have := T.cmax
        omega
      have hfree : s.buffer.getD s.in_ 0 = 0 := by
        rw [V.in_eq]
        apply V.free _ (Nat.mod_lt _ (by decide))
        intro j hj1 hj2
        omega
      refine ⟨hin, rfl, ?_, ?_, rfl, rfl, rfl, rfl⟩
      · show (s.buffer.set s.in_ (s.pdata.getD i 0)).getD s.in_ 0 ≠ _
        rw [getD_set_eq, if_pos ⟨rfl, by rw [V.blen]; exact hin⟩, hfree]
        omega
      · intro k hk
        show (s.buffer.set s.in_ (s.pdata.getD i 0)).getD k 0 = _
        rw [getD_set_eq, if_neg (by omega)]
  · intro j hpc hstep
    have hp := count_pos_of_getElem? _ _ _ hpc
    simp only [consumer, hpc, items_to_consume, BUFFER_SIZE, NEUTRAL_VALUE] at hstep
    constructor
    · intro h100
      rw [if_neg (by omega)] at hstep
      simp only [Option.some.injEq] at hstep
      subst hstep
      exact ⟨rfl, rfl, rfl, rfl, rfl⟩
    · intro hlt
      rw [if_pos hlt] at hstep
      simp only [Option.some.injEq] at hstep
      subst hstep
      have hout : s.out < 10 := by rw [V.out_eq]; omega
      have hne : s.consumed_items < s.produced_items := by
        have := T.full_eq; have := T.prun; have := T.pmax
        omega
      have hlive : 1 ≤ s.buffer.getD s.out 0 := by
        rw [V.out_eq, V.live _ (Nat.le_refl _) hne]
        have hl : s.consumed_items < (writes s).length := by rw [V.wlen]; exact hne
        rw [List.getD_eq_getElem _ _ hl]
        exact (V.wrange _ (List.getElem_mem hl)).1
      refine ⟨hout, rfl, ?_, ?_, rfl, rfl, rfl, rfl⟩
      · show (s.buffer.set s.out 0).getD s.out 0 ≠ _
        rw [getD_set_eq, if_pos ⟨rfl, by rw [V.blen]; exact hout⟩]
        omega
      · intro k hk
        show (s.buffer.set s.out 0).getD k 0 = _
        rw [getD_set_eq, if_neg (by omega)]

end ProdCons

namespace ProdCons

theorem critical_section_frame_witness :
    Reachable 1 1 (run (init_shared 1 1) (List.replicate 3 (Action.producer 0 5)))
      ∧ (run (init_shared 1 1) (List.replicate 3 (Action.producer 0 5))).ppc[0]?
          = some PPc.crit
      ∧ producer (run (init_shared 1 1) (List.replicate 3 (Action.producer 0 5))) 0 5
          = some (run (init_shared 1 1) (List.replicate 4 (Action.producer 0 5)))
      ∧ (run (init_shared 1 1) (List.replicate 4 (Action.producer 0 5))).produced_items
          = (run (init_shared 1 1) (List.replicate 3 (Action.producer 0 5))).produced_items + 1 := by
  have hpc : (run (init_shared 1 1) (List.replicate 3 (Action.producer 0 5))).ppc[0]?
      = some PPc.crit := by decide
  have hstep : producer (run (init_shared 1 1) (List.replicate 3 (Action.producer 0 5))) 0 5
      = some (run (init_shared 1 1) (List.replicate 4 (Action.producer 0 5))) := by decide
  have h := (critical_section_frame 1 1 _ _
    (reachable_run Reachable.init (List.replicate 3 (Action.producer 0 5)))).1 0 5 hpc hstep
  exact ⟨reachable_run Reachable.init _, hpc, hstep, (h.2 (by decide)).2.2.2.2.2.2.1⟩

theorem step_counters {s s' : State} {a : Action} (hs : step s a = some s') :
    (s'.produced_items = s.produced_items ∧ s'.consumed_items = s.consumed_items
        ∧ s'.buffer = s.buffer ∧ s'.in_ = s.in_ ∧ s'.out = s.out)
      ∨ (s.produced_items < 100 ∧ s'.produced_items = s.produced_items + 1
        ∧ s'.consumed_items = s.consumed_items)
      ∨ (s.consumed_items < 100 ∧ s'.produced_items = s.produced_items
        ∧ s'.consumed_items = s.consumed_items + 1) := by
  cases a with
  | producer i r =>
    simp only [step, producer, items_to_produce] at hs
    split at hs
    all_goals
      first
        | (simp at hs; done)
        | (split at hs <;>
            first
              | (simp at hs; done)
              | (simp only [Option.some.injEq] at hs; subst hs; simp; try omega))
        | (simp only [Option.some.injEq] at hs; subst hs; simp)
  | consumer j =>
    simp only [step, consumer, items_to_consume] at hs
    split at hs
    all_goals
      first
        | (simp at hs; done)
        | (split at hs <;>
            first
              | (simp at hs; done)
              | (simp only [Option.some.injEq] at hs; subst hs; simp; try omega))
        | (simp only [Option.some.injEq] at hs; subst hs; simp)

theorem done_stable {P Q : Nat} {s : State} (hr : Reachable P Q s)
    (hd : s.consumed_items = 100) (as : List Action) :
    (run s as).buffer = s.buffer ∧ (run s as).in_ = s.in_ ∧ (run s as).out = s.out
      ∧ (run s as).produced_items = s.produced_items
      ∧ (run s as).consumed_items = s.consumed_items := by
  induction as generalizing s with
  | nil => exact ⟨rfl, rfl, rfl, rfl, rfl⟩
  | cons a as ih =>
    simp only [run]
    cases hstep : step s a with
    | none => exact ih hr hd
    | some s' =>
      have hr' := Reachable.step a hr hstep
      have hle := counters_le hr
      obtain ⟨np, nc, T⟩ := tokens_reachable hr
      have hp := T.pmax
      rcases step_counters hstep with h | h | h
      · obtain ⟨h1, h2, h3, h4, h5⟩ := h
        have key := ih hr' (by omega)
        rw [h1, h2, h3, h4, h5] at key
        exact key
      · omega
      · omega

/-- C20. In `prod_cons_sem_t` both counters start at 0, and every step from a reachable state
leaves both unchanged or raises exactly one of them by 1; once `produced_items = 100` it
stays 100, and once `consumed_items = 100` no step, and no sequence of steps, changes
`buffer`, `in`, `out` or either counter. -/
theorem counters_only_grow (P Q : Nat) (s s' : State) (a : Action)
    (hr : Reachable P Q s) (hs : step s a = some s') :
    (init_shared P Q).produced_items = 0 ∧ (init_shared P Q).consumed_items = 0
      ∧ ((s'.produced_items = s.produced_items ∧ s'.consumed_items = s.consumed_items)
        ∨ (s'.produced_items = s.produced_items + 1 ∧ s'.consumed_items = s.consumed_items)
        ∨ (s'.produced_items = s.produced_items ∧ s'.consumed_items = s.consumed_items + 1))
      ∧ (s.produced_items = 100 → s'.produced_items = 100)
      ∧ (s.consumed_items = 100 →
          s'.buffer = s.buffer ∧ s'.in_ = s.in_ ∧ s'.out = s.out
            ∧ s'.produced_items = s.produced_items ∧ s'.consumed_items = s.consumed_items)
      ∧ (s.consumed_items = 100 → ∀ as : List Action,
          (run s as).buffer = s.buffer ∧ (run s as).in_ = s.in_ ∧ (run s as).out = s.out
            ∧ (run s as).produced_items = s.produced_items
            ∧ (run s as).consumed_items = s.consumed_items) := by
  have hle := counters_le hr
  have hle' := counters_le (Reachable.step a hr hs)
  obtain ⟨np, nc, T⟩ := tokens_reachable hr
  have hp := T.pmax
  refine ⟨rfl, rfl, ?_, ?_, ?_, fun hd as => done_stable hr hd as⟩
  · rcases step_counters hs with h | h | h
    · exact Or.inl ⟨h.1, h.2.1⟩
    · exact Or.inr (Or.inl h.2)
    · exact Or.inr (Or.inr h.2)
  · intro h100
    rcases step_counters hs with h | h | h <;> omega
  · intro h100
    rcases step_counters hs with h | h | h
    · exact ⟨h.2.2.1, h.2.2.2.1, h.2.2.2.2, h.1, h.2.1⟩
    · omega
    · omega

theorem counters_only_grow_witness :
    Reachable 1 1 (run (init_shared 1 1) (List.replicate 3 (Action.producer 0 5)))
      ∧ step (run (init_shared 1 1) (List.replicate 3 (Action.producer 0 5)))
          (Action.producer 0 5)
          = some (run (init_shared 1 1) (List.replicate 4 (Action.producer 0 5)))
      ∧ (((run (init_shared 1 1) (List.replicate 4 (Action.producer 0 5))).produced_items
            = (run (init_shared 1 1) (List.replicate 3 (Action.producer 0 5))).produced_items
          ∧ (run (init_shared 1 1) (List.replicate 4 (Action.producer 0 5))).consumed_items
            = (run (init_shared 1 1) (List.replicate 3 (Action.producer 0 5))).consumed_items)
        ∨ ((run (init_shared 1 1) (List.replicate 4 (Action.producer 0 5))).produced_items
            = (run (init_shared 1 1) (List.replicate 3 (Action.producer 0 5))).produced_items + 1
          ∧ (run (init_shared 1 1) (List.replicate 4 (Action.producer 0 5))).consumed_items
            = (run (init_shared 1 1) (List.replicate 3 (Action.producer 0 5))).consumed_items)
        ∨ ((run (init_shared 1 1) (List.replicate 4 (Action.producer 0 5))).produced_items
            = (run (init_shared 1 1) (List.replicate 3 (Action.producer 0 5))).produced_items
          ∧ (run (init_shared 1 1) (List.replicate 4 (Action.producer 0 5))).consumed_items
            = (run (init_shared 1 1) (List.replicate 3 (Action.producer 0 5))).consumed_items
              + 1)) := by
  have hstep : step (run (init_shared 1 1) (List.replicate 3 (Action.producer 0 5)))
      (Action.producer 0 5)
      = some (run (init_shared 1 1) (List.replicate 4 (Action.producer 0 5))) := by decide
  exact ⟨reachable_run Reachable.init _, hstep,
    (counters_only_grow 1 1 _ _ _ (reachable_run Reachable.init _) hstep).2.2.1⟩

end ProdCons

/-! ## Proofs about `reverse_map_cond_t.c` -/

namespace RevCond

open ReverseMap

theorem counters_init (args junk : List Path) :
    Counters args.length (init_shared args junk) := by
  constructor <;> simp [init_shared, List.count_replicate, QPc.holds, QPc.atPast]

theorem counters_reverse {n : Nat} {s s' : State} {i : Nat} {ok : Bool}
    (h : reverse_file s i ok = some s') (T : Counters n s) : Counters n s' := by
  obtain ⟨h1, h2, h3, h4, h5, h6, h7, h8, h9, h10, h11⟩ := T
  unfold reverse_file at h
  simp only [BUFFER_SIZE] at h
  cases hm : s.mutex <;> simp only [hm, Bool.false_eq_true, reduceIte] at h4 h
  all_goals
    split at h
    all_goals
      first
        | (simp at h; done)
        | (rename_i hpc
           have hp := count_pos_of_getElem? _ _ _ hpc
           first
             | (simp only [Option.some.injEq, reduceCtorEq] at h; subst h)
             | (split at h <;> (simp only [Option.some.injEq, reduceCtorEq] at h; try subst h))
           all_goals
             constructor <;>
               simp only [count_set_eq _ _ _ _ _ hpc, List.length_set, reduceIte, reduceCtorEq,
                 Nat.add_zero, Nat.sub_zero, Bool.false_eq_true] <;>
               first | assumption | omega)

theorem counters_print {n : Nat} {s s' : State}
    (h : print_file s = some s') (T : Counters n s) : Counters n s' := by
  obtain ⟨h1, h2, h3, h4, h5, h6, h7, h8, h9, h10, h11⟩ := T
  unfold print_file at h
  simp only [BUFFER_SIZE] at h
  cases hm : s.mutex <;> cases hq : s.qpc <;>
    simp only [hm, hq, Bool.false_eq_true, reduceIte, QPc.holds, QPc.atPast, true_implies]
      at h4 h5 h11 h
  all_goals
    first
      | (simp at h; done)
      | omega
      | (first
           | (simp only [Option.some.injEq, reduceCtorEq] at h; subst h)
           | (split at h <;> (simp only [Option.some.injEq, reduceCtorEq] at h; try subst h))
         all_goals
           constructor <;>
             simp only [QPc.holds, QPc.atPast, reduceIte, reduceCtorEq,
               Nat.add_zero, Nat.sub_zero, Bool.false_eq_true] <;>
             first | assumption | omega | (intro hf; exact absurd hf (by decide)))

theorem counters_reachable {args junk : List Path} {s : State}
    (hr : Reachable args junk s) : Counters args.length s := by
  induction hr with
  | init => exact counters_init args junk
  | step a _ hs ih =>
    cases a with
    | reverse i ok => exact counters_reverse hs ih
    | print => exact counters_print hs ih

end RevCond

namespace RevCond

open ReverseMap

theorem cond_reachable_run {args junk : List Path} {s : State} (hr : Reachable args junk s)
    (as : List Action) : Reachable args junk (run s as) := by
  induction as generalizing s with
  | nil => exact hr
  | cons a as ih =>
    simp only [run]
    cases hstep : step s a with
    | none => exact ih hr
    | some s' => exact ih (Reachable.step a hr hstep)

/-- C8. In every reachable state of `reverse_map_cond_t` (any command line),
`0 ≤ current_paths_num ≤ BUFFER_SIZE`, `current_paths_num = paths_to_produce - paths_to_consume`
and `paths_to_consume ≤ paths_to_produce ≤ paths_num`; a `reverse_file` thread about to insert
sees `current_paths_num < BUFFER_SIZE`, and `print_file` about to dequeue sees
`current_paths_num ≥ 1`, so the counter never leaves `0..4`. -/
theorem relay_counters (args junk : List Path) (s : State) (hr : Reachable args junk s) :
    0 ≤ s.current_paths_num ∧ s.current_paths_num ≤ BUFFER_SIZE
      ∧ s.current_paths_num = (s.paths_to_produce : Int) - (s.paths_to_consume : Int)
      ∧ s.paths_to_consume ≤ s.paths_to_produce ∧ s.paths_to_produce ≤ s.paths_num
      ∧ (∀ i : Nat, s.rpc[i]? = some RPc.insert → s.current_paths_num < BUFFER_SIZE)
      ∧ (s.qpc = QPc.past → s.paths_to_consume ≠ s.paths_num → 1 ≤ s.current_paths_num) := by
  obtain ⟨h1, h2, h3, h4, h5, h6, h7, h8, h9, h10, h11⟩ := counters_reachable hr
  simp only [BUFFER_SIZE]
  refine ⟨h8, by exact_mod_cast h9, by omega, by omega, by omega, ?_, ?_⟩
  · intro i hi
    have := count_pos_of_getElem? _ _ _ hi
    have := h10 this
    exact_mod_cast this
  · intro hq hne
    have hp : s.qpc.atPast = 1 := by rw [hq]; rfl
    have := h11 hp
    omega

theorem relay_counters_witness :
    Reachable twoPaths [] (run (init_shared twoPaths []) firstPath)
      ∧ 0 ≤ (run (init_shared twoPaths []) firstPath).current_paths_num
      ∧ (run (init_shared twoPaths []) firstPath).current_paths_num ≤ BUFFER_SIZE :=
  ⟨cond_reachable_run Reachable.init firstPath,
    (relay_counters twoPaths [] _ (cond_reachable_run Reachable.init firstPath)).1,
    (relay_counters twoPaths [] _ (cond_reachable_run Reachable.init firstPath)).2.1⟩

/-- C9. Each time `print_file` of `reverse_map_cond_t` is past its wait loop, exactly one of
two cases holds: (a) `paths_to_consume = paths_num`, and then `current_paths_num = 0` and
`paths_to_produce = paths_num`, and its step unlocks and leaves the loop without touching
`out`, `filepath` or a counter; or (b) `paths_to_consume ≠ paths_num`, and then
`current_paths_num ≥ 1` and its step takes slot `out`. -/
theorem print_file_past (args junk : List Path) (s : State) (hr : Reachable args junk s)
    (hq : s.qpc = QPc.past) :
    (s.paths_to_consume = s.paths_num ∧ s.current_paths_num = 0
        ∧ s.paths_to_produce = s.paths_num
        ∧ print_file s = some { s with mutex := false, qpc := QPc.done })
      ∨ (s.paths_to_consume ≠ s.paths_num ∧ 1 ≤ s.current_paths_num
        ∧ print_file s = some { s with
            filepath := some s.out
            out := (s.out + 1) % BUFFER_SIZE
            paths_to_consume := s.paths_to_consume + 1
            current_paths_num := s.current_paths_num - 1
            trace := s.trace ++ [QEvent.deq s.out]
            qpc := QPc.unlock }) := by
  obtain ⟨h1, h2, h3, h4, h5, h6, h7, h8, h9, h10, h11⟩ := counters_reachable hr
  have hp : s.qpc.atPast = 1 := by rw [hq]; rfl
  have hready := h11 hp
  by_cases hc : s.paths_to_consume = s.paths_num
  · left
    refine ⟨hc, by omega, by omega, ?_⟩
    simp only [print_file, hq, hc, reduceIte]
  · right
    refine ⟨hc, by omega, ?_⟩
    simp only [print_file, hq, hc, reduceIte]

theorem print_file_past_witness :
    Reachable twoPaths [] (run (init_shared twoPaths []) bothPaths)
      ∧ (run (init_shared twoPaths []) bothPaths).qpc = QPc.past
      ∧ (run (init_shared twoPaths []) bothPaths).paths_to_consume = 2
      ∧ (run (init_shared twoPaths []) bothPaths).current_paths_num = 0 := by
  have hq : (run (init_shared twoPaths []) bothPaths).qpc = QPc.past := by decide
  have hc : (run (init_shared twoPaths []) bothPaths).paths_to_consume = 2 := by decide
  refine ⟨cond_reachable_run Reachable.init bothPaths, hq, hc, ?_⟩
  rcases print_file_past twoPaths [] _ (cond_reachable_run Reachable.init bothPaths) hq with h | h
  · exact h.2.1
  · exact absurd hc (fun e => h.1 (e.trans (by decide)))

end RevCond

namespace RevCond

open ReverseMap

set_option maxRecDepth 100000

/-- C12 (the code at a failing input). On five paths `a` to `e` the schedule `taken` ends
with `print_file` having just taken slot 0, which holds `a`; thread 4 then overwrites slot 0
with `e` before `print_file` opens its path, so `print_file` prints `e`; at the end of the
run `e` has been printed twice and `a` never. -/
theorem printed_path_overwritten :
    Reachable fivePaths [[], [], [], []] (run (init_shared fivePaths [[], [], [], []]) taken)
      ∧ (run (init_shared fivePaths [[], [], [], []]) taken).filepath = some 0
      ∧ (run (init_shared fivePaths [[], [], [], []]) taken).trace.getLast? = some (QEvent.deq 0)
      ∧ (run (init_shared fivePaths [[], [], [], []]) taken).buffer.getD 0 [] = [97]
      ∧ (run (init_shared fivePaths [[], [], [], []]) taken).shown = []
      ∧ Reachable fivePaths [[], [], [], []]
          (run (init_shared fivePaths [[], [], [], []]) overwritten)
      ∧ (run (init_shared fivePaths [[], [], [], []]) overwritten).shown = [[101]]
      ∧ Reachable fivePaths [[], [], [], []]
          (run (init_shared fivePaths [[], [], [], []]) overwrittenAll)
      ∧ (run (init_shared fivePaths [[], [], [], []]) overwrittenAll).qpc = QPc.done
      ∧ (run (init_shared fivePaths [[], [], [], []]) overwrittenAll).shown
          = [[101], [98], [99], [100], [101]] :=
  ⟨cond_reachable_run Reachable.init taken, by decide, by decide, by decide, by decide,
    cond_reachable_run Reachable.init overwritten, by decide,
    cond_reachable_run Reachable.init overwrittenAll, by decide, by decide⟩

end RevCond

/-! ## Proofs about `reverse_map_sem_t.c` -/

namespace RevSem

open ReverseMap

theorem enqueued_enq (s s' : State) (i k : Nat) (p : Path)
    (h : s'.trace = s.trace ++ [QEvent.enq i p k]) : enqueued s' = enqueued s ++ [p] := by
  simp [enqueued, h, List.filterMap_append]

theorem dequeued_enq (s s' : State) (i k : Nat) (p : Path)
    (h : s'.trace = s.trace ++ [QEvent.enq i p k]) : dequeued s' = dequeued s := by
  simp [dequeued, h, List.filterMap_append]

theorem enqueued_deq (s s' : State) (k : Nat)
    (h : s'.trace = s.trace ++ [QEvent.deq k]) : enqueued s' = enqueued s := by
  simp [enqueued, h, List.filterMap_append]

theorem dequeued_deq (s s' : State) (k : Nat)
    (h : s'.trace = s.trace ++ [QEvent.deq k]) : dequeued s' = dequeued s ++ [k] := by
  simp [dequeued, h, List.filterMap_append]

theorem enqueued_same (s s' : State) (h : s'.trace = s.trace) : enqueued s' = enqueued s := by
  simp [enqueued, h]

theorem dequeued_same (s s' : State) (h : s'.trace = s.trace) : dequeued s' = dequeued s := by
  simp [dequeued, h]

theorem sem_tokens_init (args junk : List Path) : Tokens args.length (init_shared args junk) := by
  constructor <;>
    simp [init_shared, List.count_replicate, QPc.hasFull, QPc.inMutex, QPc.owesEmpty,
      QPc.committed, enqueued, dequeued, BUFFER_SIZE]

theorem tokens_reverse {n : Nat} {s s' : State} {i : Nat} {ok : Bool}
    (h : reverse_file s i ok = some s') (T : Tokens n s) : Tokens n s' := by
  obtain ⟨h1, h2, h3, h4, h5, h6, h7, h8, h9, h10⟩ := T
  unfold reverse_file at h
  simp only [BUFFER_SIZE] at h
  simp only [enqueued, dequeued] at h5 h6 h7 h8
  split at h
  all_goals
    first
      | (simp at h; done)
      | (rename_i hpc
         have hp := count_pos_of_getElem? _ _ _ hpc
         first
           | (simp only [Option.some.injEq, reduceCtorEq] at h; subst h)
           | (split at h <;> (simp only [Option.some.injEq, reduceCtorEq] at h; try subst h))
         all_goals
           constructor <;>
             simp only [count_set_eq _ _ _ _ _ hpc, List.length_set, reduceIte, reduceCtorEq,
               Nat.add_zero, Nat.sub_zero, enqueued, dequeued, List.filterMap_append,
               List.filterMap_cons, List.filterMap_nil, List.append_nil,
               List.length_append, List.length_singleton] <;>
             first | assumption | omega)

theorem tokens_print {n : Nat} {s s' : State}
    (h : print_file s = some s') (T : Tokens n s) : Tokens n s' := by
  obtain ⟨h1, h2, h3, h4, h5, h6, h7, h8, h9, h10⟩ := T
  unfold print_file at h
  simp only [BUFFER_SIZE] at h
  simp only [enqueued, dequeued] at h5 h6 h7 h8
  cases hq : s.qpc <;>
    simp only [hq, QPc.hasFull, QPc.inMutex, QPc.owesEmpty, QPc.committed, true_implies]
      at h4 h7 h8 h10 h
  all_goals
    first
      | (simp at h; done)
      | (first
           | (simp only [Option.some.injEq, reduceCtorEq] at h; subst h)
           | (split at h <;> (simp only [Option.some.injEq, reduceCtorEq] at h; try subst h))
         all_goals
           constructor <;>
             simp only [QPc.hasFull, QPc.inMutex, QPc.owesEmpty, QPc.committed, reduceIte,
               reduceCtorEq, Nat.add_zero, Nat.sub_zero, enqueued, dequeued,
               List.filterMap_append, List.filterMap_cons, List.filterMap_nil, List.append_nil,
               List.length_append, List.length_singleton] <;>
             first | assumption | omega | (intro hf; exact absurd hf (by decide)))

theorem sem_tokens_reachable {args junk : List Path} {s : State}
    (hr : Reachable args junk s) : Tokens args.length s := by
  induction hr with
  | init => exact sem_tokens_init args junk
  | step a _ hs ih =>
    cases a with
    | reverse i ok => exact tokens_reverse hs ih
    | print => exact tokens_print hs ih

end RevSem

namespace RevSem

open ReverseMap

theorem sem_reachable_run {args junk : List Path} {s : State} (hr : Reachable args junk s)
    (as : List Action) : Reachable args junk (run s as) := by
  induction as generalizing s with
  | nil => exact hr
  | cons a as ih =>
    simp only [run]
    cases hstep : step s a with
    | none => exact ih hr
    | some s' => exact ih (Reachable.step a hr hstep)

theorem sem_queue_init (args junk : List Path) (hj : junk.length = BUFFER_SIZE) :
    Queue (init_shared args junk) := by
  constructor
  · exact hj
  · rfl
  · rfl
  · intro j _ hj2
    simp [init_shared, enqueued] at hj2

theorem queue_reverse {n : Nat} {s s' : State} {i : Nat} {ok : Bool}
    (h : reverse_file s i ok = some s') (T : Tokens n s) (V : Queue s) : Queue s' := by
  obtain ⟨h1, h2, h3, h4, h5, h6, h7, h8, h9, h10⟩ := T
  obtain ⟨v1, v2, v3, v4⟩ := V
  unfold reverse_file at h
  simp only [BUFFER_SIZE] at h
  split at h
  case h_5 hpc =>
    have hp := count_pos_of_getElem? _ _ _ hpc
    simp only [Option.some.injEq] at h
    subst h
    constructor
    · simpa using v1
    · rw [enqueued_enq _ _ _ _ _ rfl]
      show (s.in_ + 1) % 4 = _
      simp only [List.length_append, List.length_singleton]
      omega
    · exact v3
    · intro j hj1 hj2
      rw [enqueued_enq _ _ _ _ _ rfl] at hj2 ⊢
      simp only [List.length_append, List.length_singleton] at hj2
      dsimp only at hj1
      show (s.buffer.set s.in_ (strncpy (s.args.getD i []) PATH_MAX)).getD (j % 4) [] = _
      rw [getD_set_any]
      by_cases hjn : j = (enqueued s).length
      · subst hjn
        rw [if_pos ⟨v2, by omega⟩, List.getD_append_right _ _ _ _ (Nat.le_refl _)]
        simp
      · rw [if_neg (by omega), List.getD_append _ _ _ _ (by omega)]
        exact v4 j hj1 (by omega)
  all_goals
    first
      | (simp at h; done)
      | (first
           | (simp only [Option.some.injEq, reduceCtorEq] at h; subst h)
           | (split at h <;> (simp only [Option.some.injEq, reduceCtorEq] at h; try subst h))
         all_goals
           exact ⟨v1, v2, v3, v4⟩)

theorem queue_print {n : Nat} {s s' : State}
    (h : print_file s = some s') (T : Tokens n s) (V : Queue s) : Queue s' := by
  obtain ⟨h1, h2, h3, h4, h5, h6, h7, h8, h9, h10⟩ := T
  obtain ⟨v1, v2, v3, v4⟩ := V
  unfold print_file at h
  simp only [BUFFER_SIZE] at h
  cases hq : s.qpc <;> simp only [hq] at h
  case crit =>
    simp only [Option.some.injEq] at h
    subst h
    constructor
    · exact v1
    · rw [enqueued_deq _ _ _ rfl]; exact v2
    · show (s.out + 1) % 4 = (s.paths_to_consume + 1) % 4
      omega
    · intro j hj1 hj2
      rw [enqueued_deq _ _ _ rfl] at hj2 ⊢
      dsimp only at hj1
      exact v4 j (by omega) hj2
  all_goals
    first
      | (simp at h; done)
      | (first
           | (simp only [Option.some.injEq, reduceCtorEq] at h; subst h)
           | (split at h <;> (simp only [Option.some.injEq, reduceCtorEq] at h; try subst h))
         all_goals
           exact ⟨v1, v2, v3, v4⟩)

theorem sem_queue_reachable {args junk : List Path} (hj : junk.length = BUFFER_SIZE) {s : State}
    (hr : Reachable args junk s) : Queue s := by
  induction hr with
  | init => exact sem_queue_init args junk hj
  | step a hprev hs ih =>
    have T := sem_tokens_reachable hprev
    cases a with
    | reverse i ok => exact queue_reverse hs T ih
    | print => exact queue_print hs T ih

/-- C10. In `reverse_map_sem_t` (any command line, any schedule): whenever `print_file` is in
its critical section, more paths have been inserted than `paths_to_consume`, and the slot at
`out` holds the oldest inserted path not yet taken; whenever a `reverse_file` thread is in its
critical section, fewer than `BUFFER_SIZE` inserted paths are still untaken. -/
theorem semaphores_guard_slots (args junk : List Path) (hj : junk.length = BUFFER_SIZE)
    (s : State) (hr : Reachable args junk s) :
    (s.qpc = QPc.crit →
        s.paths_to_consume < (enqueued s).length
          ∧ s.buffer.getD s.out []
              = strncpy ((enqueued s).getD s.paths_to_consume []) PATH_MAX)
      ∧ (∀ i : Nat, s.rpc[i]? = some RPc.crit →
          s.paths_to_consume ≤ (enqueued s).length
            ∧ (enqueued s).length - s.paths_to_consume < BUFFER_SIZE) := by
  obtain ⟨h1, h2, h3, h4, h5, h6, h7, h8, h9, h10⟩ := sem_tokens_reachable hr
  have V := sem_queue_reachable hj hr
  constructor
  · intro hq
    simp only [hq, QPc.hasFull] at h8
    have hlt : s.paths_to_consume < (enqueued s).length := by omega
    refine ⟨hlt, ?_⟩
    rw [V.out_eq]
    exact V.live _ (Nat.le_refl _) hlt
  · intro i hi
    have hp := count_pos_of_getElem? _ _ _ hi
    simp only [BUFFER_SIZE]
    constructor <;> omega

theorem semaphores_guard_slots_witness :
    Reachable twoPaths [[], [], [], []] (run (init_shared twoPaths [[], [], [], []]) handOver)
      ∧ (run (init_shared twoPaths [[], [], [], []]) handOver).qpc = QPc.crit
      ∧ (run (init_shared twoPaths [[], [], [], []]) handOver).paths_to_consume
          < (enqueued (run (init_shared twoPaths [[], [], [], []]) handOver)).length :=
  ⟨sem_reachable_run Reachable.init handOver, by decide,
    ((semaphores_guard_slots twoPaths [[], [], [], []] rfl _
      (sem_reachable_run Reachable.init handOver)).1 (by decide)).1⟩

end RevSem

/-! ## Proofs about the reversing loop -/

namespace ReverseMap

theorem swap_loop_spec (orig : List Nat) (n : Nat) (hn : orig.length = n) :
    ∀ (k i : Nat) (m : List Nat), n / 2 - i = k → i ≤ n / 2 → m.length = n →
      (∀ j, j < n → m.getD j 0
        = if j < i ∨ n - i ≤ j then orig.getD (n - 1 - j) 0 else orig.getD j 0) →
      (swap_loop n m i).length = n
        ∧ ∀ j, j < n → (swap_loop n m i).getD j 0 = orig.getD (n - 1 - j) 0 := by
  intro k
  induction k with
  | zero =>
    intro i m hk hi hm hI
    have hi2 : i = n / 2 := by omega
    rw [swap_loop, if_neg (by omega)]
    refine ⟨hm, ?_⟩
    intro j hj
    rw [hI j hj]
    split_ifs with h
    · rfl
    · have : n - 1 - j = j := by omega
      rw [this]
  | succ k ih =>
    intro i m hk hi hm hI
    have hlt : i < n / 2 := by omega
    rw [swap_loop, if_pos hlt]
    apply ih (i + 1) _ (by omega) (by omega) (by simp [hm])
    intro j hj
    rw [getD_set_eq, getD_set_eq]
    simp only [List.length_set, hm]
    by_cases h1 : i = j
    · subst h1
      rw [if_pos ⟨rfl, by omega⟩, if_pos (Or.inl (Nat.lt_succ_self _))]
      rw [hI (n - i - 1) (by omega), if_neg (by omega)]
      congr 1
      omega
    · rw [if_neg (by omega)]
      by_cases h2 : n - i - 1 = j
      · subst h2
        rw [if_pos ⟨rfl, by omega⟩, if_pos (Or.inr (by omega))]
        rw [hI i (by omega), if_neg (by omega)]
        congr 1
        omega
      · rw [if_neg (by omega), hI j hj]
        by_cases h3 : j < i ∨ n - i ≤ j
        · rw [if_pos h3, if_pos (by omega)]
        · rw [if_neg h3, if_neg (by omega)]

theorem reverse_content_spec (map : List Nat) :
    (reverse_content map).length = map.length
      ∧ ∀ j, j < map.length →
          (reverse_content map).getD j 0 = map.getD (map.length - 1 - j) 0 := by
  apply swap_loop_spec map map.length rfl (map.length / 2 - 0) 0 map rfl (Nat.zero_le _) rfl
  intro j hj
  rw [if_neg (by omega)]

end ReverseMap

namespace ReverseMap

theorem reverse_content_eq_reverse (map : List Nat) : reverse_content map = map.reverse := by
  obtain ⟨hl, hg⟩ := reverse_content_spec map
  apply List.ext_getElem (by simp [hl])
  intro j h1 h2
  have hj : j < map.length := by rw [← hl]; exact h1
  have := hg j hj
  rw [List.getD_eq_getElem _ _ h1, List.getD_eq_getElem _ _ (by omega)] at this
  rw [this, List.getElem_reverse]

/-- C13. The swap loop of `reverse_file` reverses the mapped content: for every byte array of
length `n < 2 ^ 31`, after the loop the array has the same length and its byte at index `i`
is the original byte at index `n - 1 - i`, for every `i < n`; so the result is the reversed
array, for odd `n` the middle byte is unchanged, and for `n ≤ 1` the array is unchanged. -/
theorem swap_loop_reverses (map : List Nat) (hn : map.length < 2 ^ 31) :
    (reverse_content map).length = map.length
      ∧ (∀ i, i < map.length →
          (reverse_content map).getD i 0 = map.getD (map.length - 1 - i) 0)
      ∧ reverse_content map = map.reverse
      ∧ (map.length % 2 = 1 →
          (reverse_content map).getD (map.length / 2) 0 = map.getD (map.length / 2) 0)
      ∧ (map.length ≤ 1 → reverse_content map = map) := by
  obtain ⟨hl, hg⟩ := reverse_content_spec map
  refine ⟨hl, hg, reverse_content_eq_reverse map, ?_, ?_⟩
  · intro hodd
    rw [hg _ (by omega)]
    congr 1
    omega
  · intro hle
    rw [reverse_content_eq_reverse]
    match map, hle with
    | [], _ => rfl
    | [_], _ => rfl

theorem swap_loop_reverses_witness :
    [104, 101, 108, 108, 111].length < 2 ^ 31
      ∧ reverse_content [104, 101, 108, 108, 111] = [104, 101, 108, 108, 111].reverse :=
  ⟨by decide, (swap_loop_reverses [104, 101, 108, 108, 111] (by decide)).2.2.1⟩

end ReverseMap

/-! ## Proofs about `is_palindrome` -/

namespace PalindromeFilter

theorem is_palindrome_loop_spec (str : List Nat) :
    ∀ (k i : Nat), str.length / 2 - i = k → i ≤ str.length / 2 →
      (is_palindrome_loop str i = true ↔
        ∀ j, i ≤ j → j < str.length / 2 → str.getD j 0 = str.getD (str.length - j - 1) 0) := by
  intro k
  induction k with
  | zero =>
    intro i hk hi
    rw [is_palindrome_loop, if_neg (by omega)]
    simp only [true_iff]
    intro j h1 h2
    omega
  | succ k ih =>
    intro i hk hi
    have hlt : i < str.length / 2 := by omega
    rw [is_palindrome_loop, if_pos hlt]
    by_cases hne : str.getD i 0 ≠ str.getD (str.length - i - 1) 0
    · rw [if_pos hne]
      constructor
      · intro h; exact absurd h (by decide)
      · intro h; exact absurd (h i (Nat.le_refl _) hlt) hne
    · rw [if_neg hne, ih (i + 1) (by omega) (by omega)]
      have heq : str.getD i 0 = str.getD (str.length - i - 1) 0 := by
        by_contra hc; exact hne hc
      constructor
      · intro h j h1 h2
        by_cases hji : j = i
        · subst hji; exact heq
        · exact h j (by omega) h2
      · intro h j h1 h2
        exact h j (by omega) h2

theorem is_palindrome_iff (str : List Nat) :
    is_palindrome str = true ↔
      ∀ i, i < str.length → str.getD i 0 = str.getD (str.length - 1 - i) 0 := by
  rw [is_palindrome, is_palindrome_loop_spec str _ 0 rfl (Nat.zero_le _)]
  constructor
  · intro h i hi
    by_cases h1 : i < str.length / 2
    · rw [h i (Nat.zero_le _) h1]
      congr 1
      omega
    · by_cases h2 : str.length - 1 - i < str.length / 2
      · have := h (str.length - 1 - i) (Nat.zero_le _) h2
        rw [this]
        congr 1
        omega
      · congr 1
        omega
  · intro h j _ hj
    rw [h j (by omega)]
    congr 1
    omega

/-- C14. `is_palindrome` returns true exactly for the strings that read the same in both
directions: for every string `s` of length `L`, `is_palindrome s` is true if and only if
`s[i] = s[L - 1 - i]` for every `i < L`, byte by byte; it is true for the empty string and
for every string of one character. -/
theorem is_palindrome_correct (str : List Nat) :
    (is_palindrome str = true ↔
        ∀ i, i < str.length → str.getD i 0 = str.getD (str.length - 1 - i) 0)
      ∧ (is_palindrome str = true ↔ str = str.reverse)
      ∧ is_palindrome [] = true ∧ ∀ c, is_palindrome [c] = true := by
  refine ⟨is_palindrome_iff str, ?_, ?_, ?_⟩
  · rw [is_palindrome_iff]
    constructor
    · intro h
      apply List.ext_getElem (by simp)
      intro j h1 h2
      have := h j h1
      rw [List.getD_eq_getElem _ _ h1, List.getD_eq_getElem _ _ (by omega)] at this
      rw [this, List.getElem_reverse]
    · intro h i hi
      rw [List.getD_eq_getElem _ _ hi, List.getD_eq_getElem _ _ (by omega)]
      have h2 : i < str.reverse.length := by simp [hi]
      have : str[i] = str.reverse[i] := by
        congr 1
      rw [this, List.getElem_reverse]
  · rw [is_palindrome_iff]
    intro i hi
    simp at hi
  · intro c
    rw [is_palindrome_iff]
    intro i hi
    have : i = 0 := by simpa using hi
    subst this
    rfl

end PalindromeFilter

/-! ## Proofs about `checkWinner` -/

namespace ChineseMorra

/-- C16. `checkWinner` implements the rules: for all moves `a`, `b` among rock, paper and
scissors, it returns -1 exactly when `a = b`, 0 exactly when `a` beats `b`, and 1 exactly
when `b` beats `a`; hence for `a ≠ b` it returns 0 on `(a, b)` exactly when it returns 1 on
`(b, a)`. -/
theorem checkWinner_rules (a b : String) (ha : a ∈ moves_type) (hb : b ∈ moves_type) :
    (checkWinner a b = -1 ↔ a = b) ∧ (checkWinner a b = 0 ↔ beats a b)
      ∧ (checkWinner a b = 1 ↔ beats b a)
      ∧ (a ≠ b → (checkWinner a b = 0 ↔ checkWinner b a = 1)) := by
  simp only [moves_type, List.mem_cons, List.mem_singleton, List.not_mem_nil, or_false] at ha hb
  rcases ha with rfl | rfl | rfl <;> rcases hb with rfl | rfl | rfl <;>
    simp [checkWinner, beats, moves_type]

theorem checkWinner_rules_witness :
    "rock" ∈ moves_type ∧ "scissors" ∈ moves_type
      ∧ (checkWinner "rock" "scissors" = 0 ↔ beats "rock" "scissors") :=
  ⟨by decide, by decide,
    (checkWinner_rules "rock" "scissors" (by decide) (by decide)).2.1⟩

end ChineseMorra

/-! ## Proofs about the threads of `palindrome_filter.c` -/

namespace PalindromeFilter

theorem filter_reachable_run {file junk : List Nat} {s : State} (hr : Reachable file junk s)
    (as : List Action) : Reachable file junk (run s as) := by
  induction as generalizing s with
  | nil => exact hr
  | cons a as ih =>
    simp only [run]
    cases hstep : step s a with
    | none => exact ih hr
    | some s' => exact ih (Reachable.step a hr hstep)

theorem ab_not_palindrome : is_palindrome [97, 98] = false := by
  rw [Bool.eq_false_iff]
  intro h
  have := (is_palindrome_iff [97, 98]).mp h 0 (by decide)
  revert this
  decide

theorem aa_palindrome : is_palindrome [97, 97] = true := by
  rw [is_palindrome_iff]
  intro i hi
  have : i = 0 ∨ i = 1 := by simp at hi; omega
  rcases this with rfl | rfl <;> rfl

theorem lateWake_end :
    run (init_shared [97, 98, 10] []) lateWake
      = { buffer := [97, 98], ended_work := true, semR := 2, semP := 1, semW := 0, file := [],
          readerbuff := [97, 98], rpc := ReaderPc.done, ppc := CheckerPc.done,
          wpc := WriterPc.done, stdout := [[97, 98]] } := by
  simp [lateWake, run, step, init_shared, reader_thread, palindrome_thread, writer_thread,
    fgets, takeLine, cstr, chomp, BUFFER_SIZE, ab_not_palindrome]

theorem earlyEnd_end :
    run (init_shared [97, 97, 10] []) earlyEnd
      = { buffer := [97, 97], ended_work := true, semR := 0, semP := 2, semW := 1, file := [],
          readerbuff := [97, 97], rpc := ReaderPc.done, ppc := CheckerPc.done,
          wpc := WriterPc.done, stdout := [] } := by
  simp [earlyEnd, run, step, init_shared, reader_thread, palindrome_thread, writer_thread,
    fgets, takeLine, cstr, chomp, BUFFER_SIZE, List.replicate]

/-- C15 (the code at two failing inputs). On the file `ab\n` the schedule `lateWake` ends
with all three threads returned and the line `ab`, which is not a palindrome, printed; on
the file `aa\n` the schedule `earlyEnd` ends with all three threads returned and nothing
printed, although `aa` is a palindrome. -/
theorem filter_prints_wrong_lines :
    Reachable [97, 98, 10] [] (run (init_shared [97, 98, 10] []) lateWake)
      ∧ (run (init_shared [97, 98, 10] []) lateWake).rpc = ReaderPc.done
      ∧ (run (init_shared [97, 98, 10] []) lateWake).ppc = CheckerPc.done
      ∧ (run (init_shared [97, 98, 10] []) lateWake).wpc = WriterPc.done
      ∧ (run (init_shared [97, 98, 10] []) lateWake).stdout = [[97, 98]]
      ∧ is_palindrome [97, 98] = false
      ∧ Reachable [97, 97, 10] [] (run (init_shared [97, 97, 10] []) earlyEnd)
      ∧ (run (init_shared [97, 97, 10] []) earlyEnd).rpc = ReaderPc.done
      ∧ (run (init_shared [97, 97, 10] []) earlyEnd).ppc = CheckerPc.done
      ∧ (run (init_shared [97, 97, 10] []) earlyEnd).wpc = WriterPc.done
      ∧ (run (init_shared [97, 97, 10] []) earlyEnd).stdout = []
      ∧ is_palindrome [97, 97] = true := by
  refine ⟨filter_reachable_run Reachable.init lateWake, ?_, ?_, ?_, ?_, ab_not_palindrome,
    filter_reachable_run Reachable.init earlyEnd, ?_, ?_, ?_, ?_, aa_palindrome⟩
  all_goals first | (rw [lateWake_end]) | (rw [earlyEnd_end])

end PalindromeFilter

/-! ## Proofs about the threads of `chinese_morra_sem_t.c` -/

namespace ChineseMorra

theorem morra_reachable_run {n : Nat} {junk : List String} {s : State}
    (hr : Reachable n junk s) (as : List Action) : Reachable n junk (run s as) := by
  induction as generalizing s with
  | nil => exact hr
  | cons a as ih =>
    simp only [run]
    cases hstep : step s a with
    | none => exact ih hr
    | some s' => exact ih (Reachable.step a hr hstep)

theorem lateBoard_end :
    run (init_shared 1 ["", ""]) lateBoard
      = { moves := ["rock", "scissors"], winner := 0, games_num := 1, ended_games := 1,
          sem := [0, 0, 0, 1], players := [PlayerPc.wait, PlayerPc.wait],
          judge := JudgePc.waitBoard, board := BoardPc.done, score := [0, 0],
          stdout := [Output.game 1, Output.moved 1 "rock", Output.moved 2 "scissors",
            Output.total 0 0 0] } := by
  simp [lateBoard, List.replicate, run, step, init_shared, player, judge, scoreboard,
    sem_wait, sem_post, checkWinner, moves_type, verdict, PLAYER1, PLAYER2, JUDGE, SCOREBOARD]

/-- C17 (the code at a failing input). For one game the schedule `lateBoard` ends with the
scoreboard returned after printing the final score 0 to 0 and `Draw game`, although the
game ended with P1 the winner (`ended_games = games_num = 1`): the scoreboard found the test
of its `while` false before it had counted the game, and the judge stays blocked in its
`sem_wait(sem[JUDGE])`. -/
theorem scoreboard_misses_game :
    Reachable 1 ["", ""] (run (init_shared 1 ["", ""]) lateBoard)
      ∧ (run (init_shared 1 ["", ""]) lateBoard).board = BoardPc.done
      ∧ (run (init_shared 1 ["", ""]) lateBoard).games_num = 1
      ∧ (run (init_shared 1 ["", ""]) lateBoard).ended_games = 1
      ∧ (run (init_shared 1 ["", ""]) lateBoard).winner = 0
      ∧ (run (init_shared 1 ["", ""]) lateBoard).score = [0, 0]
      ∧ (run (init_shared 1 ["", ""]) lateBoard).stdout.getLast? = some (Output.total 0 0 0)
      ∧ (run (init_shared 1 ["", ""]) lateBoard).judge = JudgePc.waitBoard
      ∧ step (run (init_shared 1 ["", ""]) lateBoard) Action.judge = none := by
  refine ⟨morra_reachable_run Reachable.init lateBoard, ?_, ?_, ?_, ?_, ?_, ?_, ?_, ?_⟩
  all_goals rw [lateBoard_end]
  all_goals rfl

end ChineseMorra

/-! ## Proofs: the two `reverse_map` programs produce the same queue events -/

namespace RevSem

open ReverseMap

theorem produces_reachable {faults : Bool} {args junk : List Path} {tr : List Ev} {s : State}
    (h : Produces faults args junk tr s) : Reachable args junk s := by
  induction h with
  | init => exact Reachable.init
  | step a _ _ hs ih => exact Reachable.step a ih hs

theorem produces_silent {faults : Bool} {args junk : List Path} {tr : List Ev} {s t : State}
    (a : Action) (h : Produces faults args junk tr s) (ha : faults = true ∨ a.succeeds = true)
    (hs : step s a = some t) (he : emit s a = none) : Produces faults args junk tr t := by
  have := Produces.step a h ha hs
  rw [he] at this
  simpa using this

theorem produces_loud {faults : Bool} {args junk : List Path} {tr : List Ev} {s t : State}
    (a : Action) (e : Ev) (h : Produces faults args junk tr s)
    (ha : faults = true ∨ a.succeeds = true)
    (hs : step s a = some t) (he : emit s a = some e) :
    Produces faults args junk (tr ++ [e]) t := by
  have := Produces.step a h ha hs
  rw [he] at this
  simpa using this

end RevSem

namespace RevCond

open ReverseMap

theorem cond_produces_reachable {faults : Bool} {args junk : List Path} {tr : List Ev}
    {s : State} (h : Produces faults args junk tr s) : Reachable args junk s := by
  induction h with
  | init => exact Reachable.init
  | step a _ _ hs ih => exact Reachable.step a ih hs

theorem cond_produces_silent {faults : Bool} {args junk : List Path} {tr : List Ev}
    {s t : State} (a : Action) (h : Produces faults args junk tr s)
    (ha : faults = true ∨ a.succeeds = true)
    (hs : step s a = some t) (he : emit s a = none) : Produces faults args junk tr t := by
  have := Produces.step a h ha hs
  rw [he] at this
  simpa using this

theorem cond_produces_loud {faults : Bool} {args junk : List Path} {tr : List Ev}
    {s t : State} (a : Action) (e : Ev) (h : Produces faults args junk tr s)
    (ha : faults = true ∨ a.succeeds = true)
    (hs : step s a = some t) (he : emit s a = some e) :
    Produces faults args junk (tr ++ [e]) t := by
  have := Produces.step a h ha hs
  rw [he] at this
  simpa using this

/-- The condition-variable program performs one insertion by thread `i`, from a state
between two queue operations in which the buffer is not full. -/
theorem cond_insert {faults : Bool} {args junk : List Path} {tr : List Ev} {c : State}
    (h : Produces faults args junk tr c) (i : Nat) (hpc : c.rpc[i]? = some RPc.start)
    (hm : c.mutex = false) (hcur : c.current_paths_num ≠ 4) :
    Produces faults args junk (tr ++ [Ev.enq (strncpy (c.args.getD i []) PATH_MAX) c.in_])
      { c with
        buffer := c.buffer.set c.in_ (strncpy (c.args.getD i []) PATH_MAX)
        in_ := (c.in_ + 1) % BUFFER_SIZE
        paths_to_produce := c.paths_to_produce + 1
        current_paths_num := c.current_paths_num + 1
        mutex := false
        trace := c.trace ++ [QEvent.enq i (c.args.getD i []) c.in_]
        rpc := c.rpc.set i RPc.done } := by
  have hil : i < c.rpc.length := by
    rw [List.getElem?_eq_some] at hpc
    exact hpc.1
  have ok : faults = true ∨ (Action.reverse i true).succeeds = true := Or.inr rfl
  have h1 := cond_produces_silent (Action.reverse i true) h ok
    (t := { c with rpc := c.rpc.set i RPc.lock })
    (by simp [step, reverse_file, hpc]) (by simp [emit, hpc])
  have h2 := cond_produces_silent (Action.reverse i true) h1 ok
    (t := { c with mutex := true, rpc := c.rpc.set i RPc.check })
    (by simp [step, reverse_file, hil, hm]) (by simp [emit, hil])
  have h3 := cond_produces_silent (Action.reverse i true) h2 ok
    (t := { c with mutex := true, rpc := c.rpc.set i RPc.insert })
    (by simp [step, reverse_file, hil, hcur, BUFFER_SIZE]) (by simp [emit, hil])
  have h4 := cond_produces_loud (Action.reverse i true)
    (Ev.enq (strncpy (c.args.getD i []) PATH_MAX) c.in_) h3 ok
    (t := { c with
        buffer := c.buffer.set c.in_ (strncpy (c.args.getD i []) PATH_MAX)
        in_ := (c.in_ + 1) % BUFFER_SIZE
        paths_to_produce := c.paths_to_produce + 1
        current_paths_num := c.current_paths_num + 1
        mutex := true
        trace := c.trace ++ [QEvent.enq i (c.args.getD i []) c.in_]
        rpc := c.rpc.set i RPc.unlock })
    (by simp [step, reverse_file, hil]) (by simp [emit, hil])
  exact cond_produces_silent (Action.reverse i true) h4 ok
    (by simp [step, reverse_file, hil]) (by simp [emit, hil])

end RevCond

namespace RevCond

open ReverseMap

/-- The condition-variable program performs one removal, from a state between two queue
operations in which the buffer is not empty. -/
theorem cond_take {faults : Bool} {args junk : List Path} {tr : List Ev} {c : State}
    (h : Produces faults args junk tr c) (hq : c.qpc = QPc.lock)
    (hm : c.mutex = false) (hcur : c.current_paths_num ≠ 0)
    (hleft : c.paths_to_consume ≠ c.paths_num) :
    Produces faults args junk (tr ++ [Ev.deq (c.buffer.getD c.out []) c.out])
      { c with
        filepath := some c.out
        out := (c.out + 1) % BUFFER_SIZE
        paths_to_consume := c.paths_to_consume + 1
        current_paths_num := c.current_paths_num - 1
        mutex := false
        trace := c.trace ++ [QEvent.deq c.out]
        shown := c.shown ++ [c.buffer.getD c.out []]
        qpc := QPc.lock } := by
  have ok : faults = true ∨ Action.print.succeeds = true := Or.inr rfl
  have h1 := cond_produces_silent Action.print h ok
    (t := { c with mutex := true, qpc := QPc.check })
    (by simp [step, print_file, hq, hm]) (by simp [emit, hq])
  have h2 := cond_produces_silent Action.print h1 ok
    (t := { c with mutex := true, qpc := QPc.past })
    (by simp [step, print_file, hcur]) (by simp [emit])
  have h3 := cond_produces_loud Action.print (Ev.deq (c.buffer.getD c.out []) c.out) h2 ok
    (t := { c with
        filepath := some c.out
        out := (c.out + 1) % BUFFER_SIZE
        paths_to_consume := c.paths_to_consume + 1
        current_paths_num := c.current_paths_num - 1
        mutex := true
        trace := c.trace ++ [QEvent.deq c.out]
        qpc := QPc.unlock })
    (by simp [step, print_file, hleft]) (by simp [emit, hleft])
  have h4 := cond_produces_silent Action.print h3 ok
    (t := { c with
        filepath := some c.out
        out := (c.out + 1) % BUFFER_SIZE
        paths_to_consume := c.paths_to_consume + 1
        current_paths_num := c.current_paths_num - 1
        mutex := false
        trace := c.trace ++ [QEvent.deq c.out]
        qpc := QPc.display })
    (by simp [step, print_file]) (by simp [emit])
  exact cond_produces_silent Action.print h4 ok
    (by simp [step, print_file]) (by simp [emit])

end RevCond

namespace RevSem

open ReverseMap

/-- The semaphore program performs one insertion by thread `i`, from a state between two
queue operations with a token left on `empty`. -/
theorem sem_insert {faults : Bool} {args junk : List Path} {tr : List Ev} {s : State}
    (h : Produces faults args junk tr s) (i : Nat) (hpc : s.rpc[i]? = some RPc.start)
    (hm : s.mutex = 1) (he : 0 < s.empty) :
    Produces faults args junk (tr ++ [Ev.enq (strncpy (s.args.getD i []) PATH_MAX) s.in_])
      { s with
        buffer := s.buffer.set s.in_ (strncpy (s.args.getD i []) PATH_MAX)
        in_ := (s.in_ + 1) % BUFFER_SIZE
        mutex := 1
        empty := s.empty - 1
        full := s.full + 1
        trace := s.trace ++ [QEvent.enq i (s.args.getD i []) s.in_]
        rpc := s.rpc.set i RPc.done } := by
  have hil : i < s.rpc.length := by
    rw [List.getElem?_eq_some] at hpc
    exact hpc.1
  have ok : faults = true ∨ (Action.reverse i true).succeeds = true := Or.inr rfl
  have h1 := produces_silent (Action.reverse i true) h ok
    (t := { s with rpc := s.rpc.set i RPc.waitEmpty })
    (by simp [step, reverse_file, hpc]) (by simp [emit, hpc])
  have h2 := produces_silent (Action.reverse i true) h1 ok
    (t := { s with empty := s.empty - 1, rpc := s.rpc.set i RPc.waitMutex })
    (by simp [step, reverse_file, hil, he]) (by simp [emit, hil])
  have h3 := produces_silent (Action.reverse i true) h2 ok
    (t := { s with empty := s.empty - 1, mutex := 0, rpc := s.rpc.set i RPc.crit })
    (by simp [step, reverse_file, hil, hm]) (by simp [emit, hil])
  have h4 := produces_loud (Action.reverse i true)
    (Ev.enq (strncpy (s.args.getD i []) PATH_MAX) s.in_) h3 ok
    (t := { s with
        buffer := s.buffer.set s.in_ (strncpy (s.args.getD i []) PATH_MAX)
        in_ := (s.in_ + 1) % BUFFER_SIZE
        mutex := 0
        empty := s.empty - 1
        trace := s.trace ++ [QEvent.enq i (s.args.getD i []) s.in_]
        rpc := s.rpc.set i RPc.postMutex })
    (by simp [step, reverse_file, hil]) (by simp [emit, hil])
  have h5 := produces_silent (Action.reverse i true) h4 ok
    (t := { s with
        buffer := s.buffer.set s.in_ (strncpy (s.args.getD i []) PATH_MAX)
        in_ := (s.in_ + 1) % BUFFER_SIZE
        mutex := 1
        empty := s.empty - 1
        trace := s.trace ++ [QEvent.enq i (s.args.getD i []) s.in_]
        rpc := s.rpc.set i RPc.postFull })
    (by simp [step, reverse_file, hil]) (by simp [emit, hil])
  exact produces_silent (Action.reverse i true) h5 ok
    (by simp [step, reverse_file, hil]) (by simp [emit, hil])

/-- The semaphore program performs one removal, from a state between two queue operations
with a token left on `full` and paths left to take. -/
theorem sem_take {faults : Bool} {args junk : List Path} {tr : List Ev} {s : State}
    (h : Produces faults args junk tr s) (hq : s.qpc = QPc.loop)
    (hm : s.mutex = 1) (hf : 0 < s.full) (hleft : s.paths_to_consume < s.paths_num) :
    Produces faults args junk (tr ++ [Ev.deq (s.buffer.getD s.out []) s.out])
      { s with
        filepath := some s.out
        out := (s.out + 1) % BUFFER_SIZE
        paths_to_consume := s.paths_to_consume + 1
        mutex := 1
        empty := s.empty + 1
        full := s.full - 1
        trace := s.trace ++ [QEvent.deq s.out]
        shown := s.shown ++ [s.buffer.getD s.out []]
        qpc := QPc.loop } := by
  have ok : faults = true ∨ Action.print.succeeds = true := Or.inr rfl
  have h1 := produces_silent Action.print h ok
    (t := { s with qpc := QPc.waitFull })
    (by simp [step, print_file, hq, hleft]) (by simp [emit, hq])
  have h2 := produces_silent Action.print h1 ok
    (t := { s with full := s.full - 1, qpc := QPc.waitMutex })
    (by simp [step, print_file, hf]) (by simp [emit])
  have h3 := produces_silent Action.print h2 ok
    (t := { s with full := s.full - 1, mutex := 0, qpc := QPc.crit })
    (by simp [step, print_file, hm]) (by simp [emit])
  have h4 := produces_loud Action.print (Ev.deq (s.buffer.getD s.out []) s.out) h3 ok
    (t := { s with
        filepath := some s.out
        out := (s.out + 1) % BUFFER_SIZE
        paths_to_consume := s.paths_to_consume + 1
        mutex := 0
        full := s.full - 1
        trace := s.trace ++ [QEvent.deq s.out]
        qpc := QPc.postMutex })
    (by simp [step, print_file]) (by simp [emit])
  have h5 := produces_silent Action.print h4 ok
    (t := { s with
        filepath := some s.out
        out := (s.out + 1) % BUFFER_SIZE
        paths_to_consume := s.paths_to_consume + 1
        mutex := 1
        full := s.full - 1
        trace := s.trace ++ [QEvent.deq s.out]
        qpc := QPc.postEmpty })
    (by simp [step, print_file]) (by simp [emit])
  have h6 := produces_silent Action.print h5 ok
    (t := { s with
        filepath := some s.out
        out := (s.out + 1) % BUFFER_SIZE
        paths_to_consume := s.paths_to_consume + 1
        mutex := 1
        empty := s.empty + 1
        full := s.full - 1
        trace := s.trace ++ [QEvent.deq s.out]
        qpc := QPc.display })
    (by simp [step, print_file]) (by simp [emit])
  exact produces_silent Action.print h6 ok
    (by simp [step, print_file]) (by simp [emit])

end RevSem

namespace RevSem

open ReverseMap

theorem map_set_same {α β : Type} (f : α → β) (l : List α) (i : Nat) (a b : α)
    (h : l[i]? = some a) (hf : f b = f a) : (l.set i b).map f = l.map f := by
  rw [List.map_set, hf]
  apply List.ext_getElem? 
  intro k
  rw [List.getElem?_set]
  by_cases hik : i = k
  · subst hik
    simp only [List.length_map, List.getElem?_map, h, Option.map_some', reduceIte]
    have hil : i < l.length := by
      rw [List.getElem?_eq_some] at h
      exact h.1
    simp [hil]
  · simp [hik]

/-- A mirror of `s` is a mirror of every state that differs from `s` only in what the
mirror does not look at. -/
theorem mirror_congr {s s' : State} {c : RevCond.State} (M : Mirror s c)
    (h1 : s'.rpc.map toCond = s.rpc.map toCond) (h2 : s'.trace = s.trace)
    (h3 : s'.buffer = s.buffer) (h4 : s'.in_ = s.in_) (h5 : s'.out = s.out)
    (h6 : s'.args = s.args) (h7 : s'.paths_num = s.paths_num)
    (h8 : s'.paths_to_consume = s.paths_to_consume) : Mirror s' c := by
  have he : enqueued s' = enqueued s := enqueued_same _ _ h2
  constructor
  · rw [h1]; exact M.rpc
  · exact M.qpc
  · exact M.mutex
  · rw [h6]; exact M.args
  · rw [h4]; exact M.in_eq
  · rw [h5]; exact M.out_eq
  · rw [h7]; exact M.pnum
  · rw [h8]; exact M.consumed
  · rw [he]; exact M.produced
  · rw [he, h8]; exact M.current
  · exact M.blen
  · rw [he, h8, h3]; exact M.live

theorem mirror_init (args junk1 junk2 : List Path) (hj2 : junk2.length = BUFFER_SIZE) :
    Mirror (init_shared args junk1) (RevCond.init_shared args junk2) := by
  constructor <;>
    simp [init_shared, RevCond.init_shared, enqueued, toCond]
  · exact hj2

end RevSem

namespace RevSem

open ReverseMap

theorem mirror_failed {s : State} {c : RevCond.State} (M : Mirror s c) (i : Nat) :
    Mirror { s with rpc := s.rpc.set i RPc.failed }
      { c with rpc := c.rpc.set i RevCond.RPc.failed } := by
  obtain ⟨m1, m2, m3, m4, m5, m6, m7, m8, m9, m10, m11, m12⟩ := M
  constructor
  · show c.rpc.set i RevCond.RPc.failed = (s.rpc.set i RPc.failed).map toCond
    rw [List.map_set, m1]; rfl
  all_goals assumption

theorem mirror_enq {n : Nat} {s : State} {c : RevCond.State} (M : Mirror s c) (i : Nat)
    (hpc : s.rpc[i]? = some RPc.crit) (T : Tokens n s) (V : Queue s) :
    Mirror
      { s with
        buffer := s.buffer.set s.in_ (strncpy (s.args.getD i []) PATH_MAX)
        in_ := (s.in_ + 1) % BUFFER_SIZE
        trace := s.trace ++ [QEvent.enq i (s.args.getD i []) s.in_]
        rpc := s.rpc.set i RPc.postMutex }
      { c with
        buffer := c.buffer.set c.in_ (strncpy (c.args.getD i []) PATH_MAX)
        in_ := (c.in_ + 1) % BUFFER_SIZE
        paths_to_produce := c.paths_to_produce + 1
        current_paths_num := c.current_paths_num + 1
        mutex := false
        trace := c.trace ++ [QEvent.enq i (c.args.getD i []) c.in_]
        rpc := c.rpc.set i RevCond.RPc.done } := by
  obtain ⟨m1, m2, m3, m4, m5, m6, m7, m8, m9, m10, m11, m12⟩ := M
  have hp := count_pos_of_getElem? _ _ _ hpc
  have hocc : (enqueued s).length < s.paths_to_consume + 4 := by
    have := T.empty_eq
    omega
  have hin : s.in_ < 4 := by rw [V.in_eq]; omega
  constructor
  · show c.rpc.set i RevCond.RPc.done = (s.rpc.set i RPc.postMutex).map toCond
    rw [List.map_set, m1]; rfl
  · exact m2
  · rfl
  · exact m4
  · show (c.in_ + 1) % BUFFER_SIZE = (s.in_ + 1) % BUFFER_SIZE
    rw [m5]
  · exact m6
  · exact m7
  · exact m8
  · rw [enqueued_enq _ _ _ _ _ rfl]
    show c.paths_to_produce + 1 = _
    simp [m9]
  · rw [enqueued_enq _ _ _ _ _ rfl]
    show c.current_paths_num + 1 + (s.paths_to_consume : Int) = _
    simp only [List.length_append, List.length_singleton]
    push_cast
    omega
  · show (c.buffer.set c.in_ _).length = 4
    simpa using m11
  · intro j hj1 hj2
    rw [enqueued_enq _ _ _ _ _ rfl] at hj2
    simp only [List.length_append, List.length_singleton] at hj2
    dsimp only at hj1
    show (c.buffer.set c.in_ (strncpy (c.args.getD i []) PATH_MAX)).getD (j % 4) []
      = (s.buffer.set s.in_ (strncpy (s.args.getD i []) PATH_MAX)).getD (j % 4) []
    rw [getD_set_any, getD_set_any, m4, m5, m11, V.blen]
    by_cases hj : s.in_ = j % 4
    · rw [if_pos ⟨hj, hin⟩, if_pos ⟨hj, hin⟩]
    · rw [if_neg (by omega), if_neg (by omega)]
      apply m12 j hj1
      have := V.in_eq
      by_contra hge
      have : j = (enqueued s).length := by omega
      omega

theorem mirror_deq {s : State} {c : RevCond.State} (M : Mirror s c) :
    Mirror
      { s with
        filepath := some s.out
        out := (s.out + 1) % BUFFER_SIZE
        paths_to_consume := s.paths_to_consume + 1
        trace := s.trace ++ [QEvent.deq s.out]
        qpc := QPc.postMutex }
      { c with
        filepath := some c.out
        out := (c.out + 1) % BUFFER_SIZE
        paths_to_consume := c.paths_to_consume + 1
        current_paths_num := c.current_paths_num - 1
        mutex := false
        trace := c.trace ++ [QEvent.deq c.out]
        shown := c.shown ++ [c.buffer.getD c.out []]
        qpc := RevCond.QPc.lock } := by
  obtain ⟨m1, m2, m3, m4, m5, m6, m7, m8, m9, m10, m11, m12⟩ := M
  constructor
  · exact m1
  · rfl
  · rfl
  · exact m4
  · exact m5
  · show (c.out + 1) % BUFFER_SIZE = (s.out + 1) % BUFFER_SIZE
    rw [m6]
  · exact m7
  · show c.paths_to_consume + 1 = s.paths_to_consume + 1
    rw [m8]
  · rw [enqueued_deq _ _ _ rfl]
    exact m9
  · rw [enqueued_deq _ _ _ rfl]
    show c.current_paths_num - 1 + ((s.paths_to_consume + 1 : Nat) : Int) = _
    push_cast
    omega
  · exact m11
  · intro j hj1 hj2
    rw [enqueued_deq _ _ _ rfl] at hj2
    dsimp only at hj1
    exact m12 j (by omega) hj2

end RevSem

namespace RevSem

open ReverseMap

/-- Every run of the semaphore program is matched by a run of the condition-variable program
that produces the same queue events. -/
theorem sem_to_cond {faults : Bool} {args junk1 junk2 : List Path}
    (hj1 : junk1.length = BUFFER_SIZE) (hj2 : junk2.length = BUFFER_SIZE)
    {tr : List Ev} {s : State} (h : Produces faults args junk1 tr s) :
    ∃ c, RevCond.Produces faults args junk2 tr c ∧ Mirror s c := by
  induction h with
  | init => exact ⟨_, RevCond.Produces.init, mirror_init args junk1 junk2 hj2⟩
  | @step tr s s' a hprev ha hs ih =>
    obtain ⟨c, hc, M⟩ := ih
    have hr := produces_reachable hprev
    have T := sem_tokens_reachable hr
    have V := sem_queue_reachable hj1 hr
    cases a with
    | reverse i ok =>
      simp only [step] at hs
      cases hpc : s.rpc[i]? with
      | none => simp [reverse_file, hpc] at hs
      | some pc =>
        have hcpc : c.rpc[i]? = some (toCond pc) := by rw [M.rpc]; simp [hpc]
        cases pc with
        | start =>
          cases ok with
          | true =>
            simp only [reverse_file, hpc, reduceIte, Option.some.injEq] at hs
            subst hs
            refine ⟨c, ?_,
              mirror_congr M (map_set_same _ _ _ _ _ hpc rfl) rfl rfl rfl rfl rfl rfl rfl⟩
            simpa [emit, hpc] using hc
          | false =>
            simp only [reverse_file, hpc, Bool.false_eq_true, reduceIte,
              Option.some.injEq] at hs
            subst hs
            have hf : faults = true := by simpa [Action.succeeds] using ha
            refine ⟨{ c with rpc := c.rpc.set i RevCond.RPc.failed }, ?_, mirror_failed M i⟩
            have := RevCond.cond_produces_silent (Action.reverse i false) hc (Or.inl hf)
              (t := { c with rpc := c.rpc.set i RevCond.RPc.failed })
              (by simp [RevCond.step, RevCond.reverse_file, hcpc, toCond])
              (by simp [RevCond.emit, hcpc, toCond])
            simpa [emit, hpc] using this
        | waitEmpty =>
          simp only [reverse_file, hpc] at hs
          split at hs
          · simp only [Option.some.injEq] at hs
            subst hs
            refine ⟨c, ?_,
              mirror_congr M (map_set_same _ _ _ _ _ hpc rfl) rfl rfl rfl rfl rfl rfl rfl⟩
            simpa [emit, hpc] using hc
          · simp at hs
        | waitMutex =>
          simp only [reverse_file, hpc] at hs
          split at hs
          · simp only [Option.some.injEq] at hs
            subst hs
            refine ⟨c, ?_,
              mirror_congr M (map_set_same _ _ _ _ _ hpc rfl) rfl rfl rfl rfl rfl rfl rfl⟩
            simpa [emit, hpc] using hc
          · simp at hs
        | crit =>
          simp only [reverse_file, hpc, Option.some.injEq] at hs
          subst hs
          have hp := count_pos_of_getElem? _ _ _ hpc
          have hcur : c.current_paths_num ≠ 4 := by
            have := M.current
            have := T.empty_eq
            omega
          have hev : Ev.enq (strncpy (c.args.getD i []) PATH_MAX) c.in_
              = Ev.enq (strncpy (s.args.getD i []) PATH_MAX) s.in_ := by
            rw [M.args, M.in_eq]
          have := RevCond.cond_insert hc i hcpc M.mutex hcur
          rw [hev] at this
          exact ⟨_, by simpa [emit, hpc] using this, mirror_enq M i hpc T V⟩
        | postMutex =>
          simp only [reverse_file, hpc, Option.some.injEq] at hs
          subst hs
          refine ⟨c, ?_,
            mirror_congr M (map_set_same _ _ _ _ _ hpc rfl) rfl rfl rfl rfl rfl rfl rfl⟩
          simpa [emit, hpc] using hc
        | postFull =>
          simp only [reverse_file, hpc, Option.some.injEq] at hs
          subst hs
          refine ⟨c, ?_,
            mirror_congr M (map_set_same _ _ _ _ _ hpc rfl) rfl rfl rfl rfl rfl rfl rfl⟩
          simpa [emit, hpc] using hc
        | done => simp [reverse_file, hpc] at hs
        | failed => simp [reverse_file, hpc] at hs
    | print =>
      simp only [step] at hs
      cases hq : s.qpc with
      | crit =>
        simp only [print_file, hq, Option.some.injEq] at hs
        subst hs
        have h8 := T.full_eq
        have h10 := T.consumed_lt
        simp only [hq, QPc.hasFull, QPc.committed, true_implies] at h8 h10
        have hlt : s.paths_to_consume < (enqueued s).length := by omega
        have hcur : c.current_paths_num ≠ 0 := by
          have := M.current
          omega
        have hleft : c.paths_to_consume ≠ c.paths_num := by
          rw [M.consumed, M.pnum]; omega
        have hbuf : c.buffer.getD c.out [] = s.buffer.getD s.out [] := by
          rw [M.out_eq, V.out_eq]
          exact M.live _ (Nat.le_refl _) hlt
        have hev : Ev.deq (c.buffer.getD c.out []) c.out
            = Ev.deq (s.buffer.getD s.out []) s.out := by
          rw [hbuf, M.out_eq]
        have := RevCond.cond_take hc M.qpc M.mutex hcur hleft
        rw [hev] at this
        exact ⟨_, by simpa [emit, hq] using this, mirror_deq M⟩
      | done => simp [print_file, hq] at hs
      | loop =>
        simp only [print_file, hq] at hs
        refine ⟨c, by simpa [emit, hq] using hc, ?_⟩
        split at hs <;> (simp only [Option.some.injEq] at hs; subst hs) <;>
          exact mirror_congr M rfl rfl rfl rfl rfl rfl rfl rfl
      | waitFull =>
        simp only [print_file, hq] at hs
        refine ⟨c, by simpa [emit, hq] using hc, ?_⟩
        split at hs
        · simp only [Option.some.injEq] at hs; subst hs
          exact mirror_congr M rfl rfl rfl rfl rfl rfl rfl rfl
        · simp at hs
      | waitMutex =>
        simp only [print_file, hq] at hs
        refine ⟨c, by simpa [emit, hq] using hc, ?_⟩
        split at hs
        · simp only [Option.some.injEq] at hs; subst hs
          exact mirror_congr M rfl rfl rfl rfl rfl rfl rfl rfl
        · simp at hs
      | postMutex =>
        simp only [print_file, hq, Option.some.injEq] at hs
        subst hs
        exact ⟨c, by simpa [emit, hq] using hc,
          mirror_congr M rfl rfl rfl rfl rfl rfl rfl rfl⟩
      | postEmpty =>
        simp only [print_file, hq, Option.some.injEq] at hs
        subst hs
        exact ⟨c, by simpa [emit, hq] using hc,
          mirror_congr M rfl rfl rfl rfl rfl rfl rfl rfl⟩
      | display =>
        simp only [print_file, hq, Option.some.injEq] at hs
        subst hs
        exact ⟨c, by simpa [emit, hq] using hc,
          mirror_congr M rfl rfl rfl rfl rfl rfl rfl rfl⟩

end RevSem

namespace RevCond

open ReverseMap

/-- A mirror of `c` is a mirror of every state that differs from `c` only in what the
mirror does not look at. -/
theorem cond_mirror_congr {c c' : State} {s : RevSem.State} (M : Mirror c s)
    (h1 : c'.rpc.map toSem = c.rpc.map toSem) (h2 : c'.args = c.args)
    (h3 : c'.buffer = c.buffer) (h4 : c'.in_ = c.in_) (h5 : c'.out = c.out)
    (h6 : c'.paths_to_produce = c.paths_to_produce) (h7 : c'.paths_num = c.paths_num)
    (h8 : c'.paths_to_consume = c.paths_to_consume) : Mirror c' s := by
  obtain ⟨m1, m2, m3, m4, m5, m6, m7, m8, m9, m10, m11, m12, m13, m14, m15⟩ := M
  constructor
  · rw [h1]; exact m1
  · exact m2
  · exact m3
  · rw [h2]; exact m4
  · rw [h4]; exact m5
  · rw [h5]; exact m6
  · rw [h4, h6]; exact m7
  · rw [h5, h8]; exact m8
  · rw [h7]; exact m9
  · rw [h8]; exact m10
  · rw [h8, h6]; exact m11
  · rw [h8, h6]; exact m12
  · exact m13
  · rw [h3]; exact m14
  · rw [h8, h6, h3]; exact m15

theorem cond_mirror_init (args junk1 junk2 : List Path) (hj1 : junk1.length = BUFFER_SIZE)
    (hj2 : junk2.length = BUFFER_SIZE) :
    Mirror (init_shared args junk2) (RevSem.init_shared args junk1) := by
  constructor <;>
    simp [init_shared, RevSem.init_shared, toSem, BUFFER_SIZE]
  · exact hj1
  · exact hj2

theorem cond_mirror_failed {c : State} {s : RevSem.State} (M : Mirror c s) (i : Nat) :
    Mirror { c with rpc := c.rpc.set i RPc.failed }
      { s with rpc := s.rpc.set i RevSem.RPc.failed } := by
  obtain ⟨m1, m2, m3, m4, m5, m6, m7, m8, m9, m10, m11, m12, m13, m14, m15⟩ := M
  constructor
  · show s.rpc.set i RevSem.RPc.failed = (c.rpc.set i RPc.failed).map toSem
    rw [List.map_set, m1]; rfl
  all_goals assumption

theorem cond_mirror_enq {c : State} {s : RevSem.State} (M : Mirror c s) (i : Nat)
    (hroom : c.paths_to_produce < c.paths_to_consume + 4)
    (hle : c.paths_to_consume ≤ c.paths_to_produce) :
    Mirror
      { c with
        buffer := c.buffer.set c.in_ (strncpy (c.args.getD i []) PATH_MAX)
        in_ := (c.in_ + 1) % BUFFER_SIZE
        paths_to_produce := c.paths_to_produce + 1
        current_paths_num := c.current_paths_num + 1
        trace := c.trace ++ [QEvent.enq i (c.args.getD i []) c.in_]
        rpc := c.rpc.set i RPc.unlock }
      { s with
        buffer := s.buffer.set s.in_ (strncpy (s.args.getD i []) PATH_MAX)
        in_ := (s.in_ + 1) % BUFFER_SIZE
        mutex := 1
        empty := s.empty - 1
        full := s.full + 1
        trace := s.trace ++ [QEvent.enq i (s.args.getD i []) s.in_]
        rpc := s.rpc.set i RevSem.RPc.done } := by
  obtain ⟨m1, m2, m3, m4, m5, m6, m7, m8, m9, m10, m11, m12, m13, m14, m15⟩ := M
  have hin : c.in_ < 4 := by rw [m7]; omega
  constructor
  · show s.rpc.set i RevSem.RPc.done = (c.rpc.set i RPc.unlock).map toSem
    rw [List.map_set, m1]; rfl
  · exact m2
  · rfl
  · exact m4
  · show (s.in_ + 1) % BUFFER_SIZE = (c.in_ + 1) % BUFFER_SIZE
    rw [m5]
  · exact m6
  · show (c.in_ + 1) % BUFFER_SIZE = (c.paths_to_produce + 1) % 4
    simp only [BUFFER_SIZE]
    omega
  · exact m8
  · exact m9
  · exact m10
  · show s.full + 1 + c.paths_to_consume = c.paths_to_produce + 1
    omega
  · show s.empty - 1 + (c.paths_to_produce + 1) = 4 + c.paths_to_consume
    omega
  · show (s.buffer.set s.in_ _).length = 4
    simpa using m13
  · show (c.buffer.set c.in_ _).length = 4
    simpa using m14
  · intro j hj1 hj2
    dsimp only at hj1 hj2
    show (s.buffer.set s.in_ (strncpy (s.args.getD i []) PATH_MAX)).getD (j % 4) []
      = (c.buffer.set c.in_ (strncpy (c.args.getD i []) PATH_MAX)).getD (j % 4) []
    rw [getD_set_any, getD_set_any, m4, m5, m13, m14]
    by_cases hj : c.in_ = j % 4
    · rw [if_pos ⟨hj, hin⟩, if_pos ⟨hj, hin⟩]
    · rw [if_neg (by omega), if_neg (by omega)]
      apply m15 j hj1
      by_contra hge
      have : j = c.paths_to_produce := by omega
      omega

theorem cond_mirror_deq {c : State} {s : RevSem.State} (M : Mirror c s)
    (hlt : c.paths_to_consume < c.paths_to_produce) :
    Mirror
      { c with
        filepath := some c.out
        out := (c.out + 1) % BUFFER_SIZE
        paths_to_consume := c.paths_to_consume + 1
        current_paths_num := c.current_paths_num - 1
        trace := c.trace ++ [QEvent.deq c.out]
        qpc := QPc.unlock }
      { s with
        filepath := some s.out
        out := (s.out + 1) % BUFFER_SIZE
        paths_to_consume := s.paths_to_consume + 1
        mutex := 1
        empty := s.empty + 1
        full := s.full - 1
        trace := s.trace ++ [QEvent.deq s.out]
        shown := s.shown ++ [s.buffer.getD s.out []]
        qpc := RevSem.QPc.loop } := by
  obtain ⟨m1, m2, m3, m4, m5, m6, m7, m8, m9, m10, m11, m12, m13, m14, m15⟩ := M
  constructor
  · exact m1
  · rfl
  · rfl
  · exact m4
  · exact m5
  · show (s.out + 1) % BUFFER_SIZE = (c.out + 1) % BUFFER_SIZE
    rw [m6]
  · exact m7
  · show (c.out + 1) % BUFFER_SIZE = (c.paths_to_consume + 1) % 4
    simp only [BUFFER_SIZE]
    omega
  · exact m9
  · show s.paths_to_consume + 1 = c.paths_to_consume + 1
    rw [m10]
  · show s.full - 1 + (c.paths_to_consume + 1) = c.paths_to_produce
    omega
  · show s.empty + 1 + c.paths_to_produce = 4 + (c.paths_to_consume + 1)
    omega
  · exact m13
  · exact m14
  · intro j hj1 hj2
    dsimp only at hj1 hj2
    exact m15 j (by omega) hj2

end RevCond

namespace RevCond

open ReverseMap

/-- Every run of the condition-variable program is matched by a run of the semaphore program
that produces the same queue events. -/
theorem cond_to_sem {faults : Bool} {args junk1 junk2 : List Path}
    (hj1 : junk1.length = BUFFER_SIZE) (hj2 : junk2.length = BUFFER_SIZE)
    {tr : List Ev} {c : State} (h : Produces faults args junk2 tr c) :
    ∃ s, RevSem.Produces faults args junk1 tr s ∧ Mirror c s := by
  induction h with
  | init => exact ⟨_, RevSem.Produces.init, cond_mirror_init args junk1 junk2 hj1 hj2⟩
  | @step tr c c' a hprev ha hs ih =>
    obtain ⟨s, hsem, M⟩ := ih
    have K := counters_reachable (cond_produces_reachable hprev)
    cases a with
    | reverse i ok =>
      simp only [step] at hs
      cases hpc : c.rpc[i]? with
      | none => simp [reverse_file, hpc] at hs
      | some pc =>
        have hspc : s.rpc[i]? = some (toSem pc) := by rw [M.rpc]; simp [hpc]
        cases pc with
        | start =>
          cases ok with
          | true =>
            simp only [reverse_file, hpc, reduceIte, Option.some.injEq] at hs
            subst hs
            refine ⟨s, ?_,
              cond_mirror_congr M (RevSem.map_set_same _ _ _ _ _ hpc rfl)
                rfl rfl rfl rfl rfl rfl rfl⟩
            simpa [emit, hpc] using hsem
          | false =>
            simp only [reverse_file, hpc, Bool.false_eq_true, reduceIte,
              Option.some.injEq] at hs
            subst hs
            have hf : faults = true := by simpa [Action.succeeds] using ha
            refine ⟨{ s with rpc := s.rpc.set i RevSem.RPc.failed }, ?_,
              cond_mirror_failed M i⟩
            have := RevSem.produces_silent (Action.reverse i false) hsem (Or.inl hf)
              (t := { s with rpc := s.rpc.set i RevSem.RPc.failed })
              (by simp [RevSem.step, RevSem.reverse_file, hspc, toSem])
              (by simp [RevSem.emit, hspc, toSem])
            simpa [emit, hpc] using this
        | lock =>
          simp only [reverse_file, hpc] at hs
          split at hs
          · simp at hs
          · simp only [Option.some.injEq] at hs
            subst hs
            refine ⟨s, ?_,
              cond_mirror_congr M (RevSem.map_set_same _ _ _ _ _ hpc rfl)
                rfl rfl rfl rfl rfl rfl rfl⟩
            simpa [emit, hpc] using hsem
        | check =>
          simp only [reverse_file, hpc] at hs
          refine ⟨s, by simpa [emit, hpc] using hsem, ?_⟩
          split at hs <;> (simp only [Option.some.injEq] at hs; subst hs) <;>
            exact cond_mirror_congr M (RevSem.map_set_same _ _ _ _ _ hpc rfl)
              rfl rfl rfl rfl rfl rfl rfl
        | wait =>
          simp only [reverse_file, hpc] at hs
          split at hs
          · simp at hs
          · simp only [Option.some.injEq] at hs
            subst hs
            refine ⟨s, ?_,
              cond_mirror_congr M (RevSem.map_set_same _ _ _ _ _ hpc rfl)
                rfl rfl rfl rfl rfl rfl rfl⟩
            simpa [emit, hpc] using hsem
        | insert =>
          simp only [reverse_file, hpc, Option.some.injEq] at hs
          subst hs
          have hp := count_pos_of_getElem? _ _ _ hpc
          have hroom := K.room (by omega)
          have hcur := K.current_eq
          have hge := K.current_ge
          have hempty : 0 < s.empty := by
            have := M.empty
            omega
          have hev : Ev.enq (strncpy (s.args.getD i []) PATH_MAX) s.in_
              = Ev.enq (strncpy (c.args.getD i []) PATH_MAX) c.in_ := by
            rw [M.args, M.in_eq]
          have := RevSem.sem_insert hsem i hspc M.mutex hempty
          rw [hev] at this
          exact ⟨_, by simpa [emit, hpc] using this,
            cond_mirror_enq M i (by omega) (by omega)⟩
        | unlock =>
          simp only [reverse_file, hpc, Option.some.injEq] at hs
          subst hs
          refine ⟨s, ?_,
            cond_mirror_congr M (RevSem.map_set_same _ _ _ _ _ hpc rfl)
              rfl rfl rfl rfl rfl rfl rfl⟩
          simpa [emit, hpc] using hsem
        | done => simp [reverse_file, hpc] at hs
        | failed => simp [reverse_file, hpc] at hs
    | print =>
      simp only [step] at hs
      cases hq : c.qpc with
      | lock =>
        simp only [print_file, hq] at hs
        refine ⟨s, by simpa [emit, hq] using hsem, ?_⟩
        split at hs
        · simp at hs
        · simp only [Option.some.injEq] at hs; subst hs
          exact cond_mirror_congr M rfl rfl rfl rfl rfl rfl rfl rfl
      | check =>
        simp only [print_file, hq] at hs
        refine ⟨s, by simpa [emit, hq] using hsem, ?_⟩
        split at hs <;> (simp only [Option.some.injEq] at hs; subst hs) <;>
          exact cond_mirror_congr M rfl rfl rfl rfl rfl rfl rfl rfl
      | wait =>
        simp only [print_file, hq] at hs
        refine ⟨s, by simpa [emit, hq] using hsem, ?_⟩
        split at hs
        · simp at hs
        · simp only [Option.some.injEq] at hs; subst hs
          exact cond_mirror_congr M rfl rfl rfl rfl rfl rfl rfl rfl
      | past =>
        simp only [print_file, hq] at hs
        by_cases hend : c.paths_to_consume = c.paths_num
        · rw [if_pos hend] at hs
          simp only [Option.some.injEq] at hs; subst hs
          exact ⟨s, by simpa [emit, hq, hend] using hsem,
            cond_mirror_congr M rfl rfl rfl rfl rfl rfl rfl rfl⟩
        · rw [if_neg hend] at hs
          simp only [Option.some.injEq] at hs; subst hs
          have hready := K.ready (by rw [hq]; rfl)
          have hcur := K.current_eq
          have hge := K.current_ge
          have hprod := K.produced_eq
          have hsum := K.rsum
          have hnum := K.pnum
          have hlt : c.paths_to_consume < c.paths_to_produce := by
            rcases hready with h0 | hall
            · omega
            · omega
          have hfull : 0 < s.full := by
            have := M.full
            omega
          have hleft : s.paths_to_consume < s.paths_num := by
            rw [M.consumed, M.pnum]; omega
          have hbuf : s.buffer.getD s.out [] = c.buffer.getD c.out [] := by
            rw [M.out_eq, M.out_mod]
            exact M.live _ (Nat.le_refl _) hlt
          have hev : Ev.deq (s.buffer.getD s.out []) s.out
              = Ev.deq (c.buffer.getD c.out []) c.out := by
            rw [hbuf, M.out_eq]
          have := RevSem.sem_take hsem M.qpc M.mutex hfull hleft
          rw [hev] at this
          exact ⟨_, by simpa [emit, hq, hend] using this, cond_mirror_deq M hlt⟩
      | unlock =>
        simp only [print_file, hq, Option.some.injEq] at hs
        subst hs
        exact ⟨s, by simpa [emit, hq] using hsem,
          cond_mirror_congr M rfl rfl rfl rfl rfl rfl rfl rfl⟩
      | display =>
        simp only [print_file, hq, Option.some.injEq] at hs
        subst hs
        exact ⟨s, by simpa [emit, hq] using hsem,
          cond_mirror_congr M rfl rfl rfl rfl rfl rfl rfl rfl⟩
      | done => simp [print_file, hq] at hs

end RevCond

namespace ReverseMap

/-- C11. `reverse_map_sem_t` and `reverse_map_cond_t` have the same queue behaviour: for every
command line `args`, the sequences of queue events (a path stored in a slot, a slot holding a
path taken) that the runs of the semaphore program produce are exactly those that the runs of
the condition-variable program produce.  This holds when no file operation fails
(`faults = false`, every `reverse_file` thread reaches its insertion) and also when threads
may return early (`faults = true`); the uninitialised contents `junk1` and `junk2` of the two
buffers of `BUFFER_SIZE` slots need not agree. -/
theorem relays_same_events (faults : Bool) (args junk1 junk2 : List Path)
    (hj1 : junk1.length = BUFFER_SIZE) (hj2 : junk2.length = BUFFER_SIZE) :
    {tr : List Ev | ∃ s, RevSem.Produces faults args junk1 tr s}
      = {tr : List Ev | ∃ c, RevCond.Produces faults args junk2 tr c} := by
  apply Set.ext
  intro tr
  constructor
  · rintro ⟨s, hs⟩
    obtain ⟨c, hc, _⟩ := RevSem.sem_to_cond hj1 hj2 hs
    exact ⟨c, hc⟩
  · rintro ⟨c, hc⟩
    obtain ⟨s, hs, _⟩ := RevCond.cond_to_sem hj1 hj2 hc
    exact ⟨s, hs⟩

theorem relays_same_events_witness :
    [Ev.enq [98] 0]
      ∈ {tr : List Ev | ∃ c, RevCond.Produces false [[97], [98]] [[1], [2], [3], [4]] tr c} :=
  (relays_same_events false [[97], [98]] [[], [], [], []] [[1], [2], [3], [4]] rfl rfl) ▸
    (⟨_, RevSem.sem_insert RevSem.Produces.init 1 rfl rfl (by decide)⟩ :
      ∃ s, RevSem.Produces false [[97], [98]] [[], [], [], []] [Ev.enq [98] 0] s)

end ReverseMap

/-! ## Proofs: which numbers of threads can deadlock `prod_cons_sem_t` -/

namespace ProdCons

theorem exists_of_count_pos {α : Type} [DecidableEq α] (l : List α) (a : α)
    (h : 0 < l.count a) : ∃ i : Nat, l[i]? = some a :=
  List.mem_iff_getElem?.mp (List.count_pos_iff.mp h)

/-- A producer at the test of its `while`, with items left to produce, goes on to
`sem_wait(empty)`. -/
theorem covers_p_enter {P Q : Nat} {c : Census} (h : Covers P Q c)
    (h1 : 0 < c.pLoop) (h2 : c.produced_items < 100) :
    Covers P Q
      { c with
        pLoop := c.pLoop - 1, pWaitEmpty := c.pWaitEmpty + 1 } := by
  obtain ⟨s, hr, rfl⟩ := h
  obtain ⟨i, hpc⟩ := exists_of_count_pos _ _ h1
  have h2' : s.produced_items < 100 := h2
  have hs : step s (Action.producer i 0)
      = some { s with
        pdata := s.pdata.set i (0 % 99 + 1), ppc := s.ppc.set i PPc.waitEmpty } := by
    simp [step, producer, hpc, items_to_produce, items_to_consume, h2']
  refine ⟨_, Reachable.step _ hr hs, ?_⟩
  simp only [census, Census.mk.injEq, count_set_eq _ _ _ _ _ hpc, reduceIte, reduceCtorEq,
    Nat.add_zero, Nat.sub_zero, true_and, and_true]

/-- A producer at the test of its `while`, with all items produced, leaves the loop. -/
theorem covers_p_leave {P Q : Nat} {c : Census} (h : Covers P Q c)
    (h1 : 0 < c.pLoop) (h2 : ¬ c.produced_items < 100) :
    Covers P Q
      { c with
        pLoop := c.pLoop - 1, pFinalPost := c.pFinalPost + 1 } := by
  obtain ⟨s, hr, rfl⟩ := h
  obtain ⟨i, hpc⟩ := exists_of_count_pos _ _ h1
  have h2' : ¬ s.produced_items < 100 := h2
  have hs : step s (Action.producer i 0)
      = some { s with
        ppc := s.ppc.set i PPc.finalPost } := by
    simp [step, producer, hpc, items_to_produce, items_to_consume, h2']
  refine ⟨_, Reachable.step _ hr hs, ?_⟩
  simp only [census, Census.mk.injEq, count_set_eq _ _ _ _ _ hpc, reduceIte, reduceCtorEq,
    Nat.add_zero, Nat.sub_zero, true_and, and_true]

/-- A producer inside `sem_wait(empty)` takes a token of `empty`. -/
theorem covers_p_waitEmpty {P Q : Nat} {c : Census} (h : Covers P Q c)
    (h1 : 0 < c.pWaitEmpty) (h2 : 0 < c.empty) :
    Covers P Q
      { c with
        empty := c.empty - 1, pWaitEmpty := c.pWaitEmpty - 1, pWaitMutex := c.pWaitMutex + 1 } := by
  obtain ⟨s, hr, rfl⟩ := h
  obtain ⟨i, hpc⟩ := exists_of_count_pos _ _ h1
  have h2' : 0 < s.empty := h2
  have hs : step s (Action.producer i 0)
      = some { s with
        empty := s.empty - 1, ppc := s.ppc.set i PPc.waitMutex } := by
    simp [step, producer, hpc, items_to_produce, items_to_consume, h2']
  refine ⟨_, Reachable.step _ hr hs, ?_⟩
  simp only [census, Census.mk.injEq, count_set_eq _ _ _ _ _ hpc, reduceIte, reduceCtorEq,
    Nat.add_zero, Nat.sub_zero, true_and, and_true]

/-- A producer inside `sem_wait(mutex)` takes the mutex. -/
theorem covers_p_waitMutex {P Q : Nat} {c : Census} (h : Covers P Q c)
    (h1 : 0 < c.pWaitMutex) (h2 : 0 < c.mutex) :
    Covers P Q
      { c with
        mutex := c.mutex - 1, pWaitMutex := c.pWaitMutex - 1, pCrit := c.pCrit + 1 } := by
  obtain ⟨s, hr, rfl⟩ := h
  obtain ⟨i, hpc⟩ := exists_of_count_pos _ _ h1
  have h2' : 0 < s.mutex := h2
  have hs : step s (Action.producer i 0)
      = some { s with
        mutex := s.mutex - 1, ppc := s.ppc.set i PPc.crit } := by
    simp [step, producer, hpc, items_to_produce, items_to_consume, h2']
  refine ⟨_, Reachable.step _ hr hs, ?_⟩
  simp only [census, Census.mk.injEq, count_set_eq _ _ _ _ _ hpc, reduceIte, reduceCtorEq,
    Nat.add_zero, Nat.sub_zero, true_and, and_true]

/-- A producer in its critical section, with items left to produce, writes one. -/
theorem covers_p_write {P Q : Nat} {c : Census} (h : Covers P Q c)
    (h1 : 0 < c.pCrit) (h2 : c.produced_items < 100) :
    Covers P Q
      { c with
        produced_items := c.produced_items + 1, pCrit := c.pCrit - 1,
        pPostMutex := c.pPostMutex + 1 } := by
  obtain ⟨s, hr, rfl⟩ := h
  obtain ⟨i, hpc⟩ := exists_of_count_pos _ _ h1
  have h2' : s.produced_items < 100 := h2
  have hs : step s (Action.producer i 0)
      = some { s with
        buffer := s.buffer.set s.in_ (s.pdata.getD i 0)
        in_ := (s.in_ + 1) % BUFFER_SIZE
        produced_items := s.produced_items + 1
        stdout := s.stdout ++ [Output.produced (i + 1) s.in_ (s.pdata.getD i 0),
          Output.cells (s.buffer.set s.in_ (s.pdata.getD i 0))]
        ppc := s.ppc.set i PPc.postMutex } := by
    simp [step, producer, hpc, items_to_produce, items_to_consume, h2']
  refine ⟨_, Reachable.step _ hr hs, ?_⟩
  simp only [census, Census.mk.injEq, count_set_eq _ _ _ _ _ hpc, reduceIte, reduceCtorEq,
    Nat.add_zero, Nat.sub_zero, true_and, and_true]

/-- A producer in its critical section, with all items produced, writes nothing. -/
theorem covers_p_skip {P Q : Nat} {c : Census} (h : Covers P Q c)
    (h1 : 0 < c.pCrit) (h2 : ¬ c.produced_items < 100) :
    Covers P Q
      { c with
        pCrit := c.pCrit - 1, pPostMutex := c.pPostMutex + 1 } := by
  obtain ⟨s, hr, rfl⟩ := h
  obtain ⟨i, hpc⟩ := exists_of_count_pos _ _ h1
  have h2' : ¬ s.produced_items < 100 := h2
  have hs : step s (Action.producer i 0)
      = some { s with
        ppc := s.ppc.set i PPc.postMutex } := by
    simp [step, producer, hpc, items_to_produce, items_to_consume, h2']
  refine ⟨_, Reachable.step _ hr hs, ?_⟩
  simp only [census, Census.mk.injEq, count_set_eq _ _ _ _ _ hpc, reduceIte, reduceCtorEq,
    Nat.add_zero, Nat.sub_zero, true_and, and_true]

/-- A producer past its critical section posts `mutex`. -/
theorem covers_p_postMutex {P Q : Nat} {c : Census} (h : Covers P Q c)
    (h1 : 0 < c.pPostMutex) :
    Covers P Q
      { c with
        mutex := c.mutex + 1, pPostMutex := c.pPostMutex - 1, pPostFull := c.pPostFull + 1 } := by
  obtain ⟨s, hr, rfl⟩ := h
  obtain ⟨i, hpc⟩ := exists_of_count_pos _ _ h1
  have hs : step s (Action.producer i 0)
      = some { s with
        mutex := s.mutex + 1, ppc := s.ppc.set i PPc.postFull } := by
    simp [step, producer, hpc, items_to_produce, items_to_consume]
  refine ⟨_, Reachable.step _ hr hs, ?_⟩
  simp only [census, Census.mk.injEq, count_set_eq _ _ _ _ _ hpc, reduceIte, reduceCtorEq,
    Nat.add_zero, Nat.sub_zero, true_and, and_true]

/-- A producer at the end of its loop body posts `full`. -/
theorem covers_p_postFull {P Q : Nat} {c : Census} (h : Covers P Q c)
    (h1 : 0 < c.pPostFull) :
    Covers P Q
      { c with
        full := c.full + 1, pPostFull := c.pPostFull - 1, pLoop := c.pLoop + 1 } := by
  obtain ⟨s, hr, rfl⟩ := h
  obtain ⟨i, hpc⟩ := exists_of_count_pos _ _ h1
  have hs : step s (Action.producer i 0)
      = some { s with
        full := s.full + 1, ppc := s.ppc.set i PPc.loop } := by
    simp [step, producer, hpc, items_to_produce, items_to_consume]
  refine ⟨_, Reachable.step _ hr hs, ?_⟩
  simp only [census, Census.mk.injEq, count_set_eq _ _ _ _ _ hpc, reduceIte, reduceCtorEq,
    Nat.add_zero, Nat.sub_zero, true_and, and_true]

/-- A producer past its loop posts `full` once more and returns. -/
theorem covers_p_finalPost {P Q : Nat} {c : Census} (h : Covers P Q c)
    (h1 : 0 < c.pFinalPost) :
    Covers P Q
      { c with
        full := c.full + 1, pFinalPost := c.pFinalPost - 1, pDone := c.pDone + 1 } := by
  obtain ⟨s, hr, rfl⟩ := h
  obtain ⟨i, hpc⟩ := exists_of_count_pos _ _ h1
  have hs : step s (Action.producer i 0)
      = some { s with
        full := s.full + 1, ppc := s.ppc.set i PPc.done } := by
    simp [step, producer, hpc, items_to_produce, items_to_consume]
  refine ⟨_, Reachable.step _ hr hs, ?_⟩
  simp only [census, Census.mk.injEq, count_set_eq _ _ _ _ _ hpc, reduceIte, reduceCtorEq,
    Nat.add_zero, Nat.sub_zero, true_and, and_true]

/-- A consumer at the test of its `while`, with items left to consume, goes on to
`sem_wait(full)`. -/
theorem covers_c_enter {P Q : Nat} {c : Census} (h : Covers P Q c)
    (h1 : 0 < c.cLoop) (h2 : c.consumed_items < 100) :
    Covers P Q
      { c with
        cLoop := c.cLoop - 1, cWaitFull := c.cWaitFull + 1 } := by
  obtain ⟨s, hr, rfl⟩ := h
  obtain ⟨i, hpc⟩ := exists_of_count_pos _ _ h1
  have h2' : s.consumed_items < 100 := h2
  have hs : step s (Action.consumer i)
      = some { s with
        cpc := s.cpc.set i CPc.waitFull } := by
    simp [step, consumer, hpc, items_to_produce, items_to_consume, h2']
  refine ⟨_, Reachable.step _ hr hs, ?_⟩
  simp only [census, Census.mk.injEq, count_set_eq _ _ _ _ _ hpc, reduceIte, reduceCtorEq,
    Nat.add_zero, Nat.sub_zero, true_and, and_true]

/-- A consumer at the test of its `while`, with all items consumed, returns. -/
theorem covers_c_leave {P Q : Nat} {c : Census} (h : Covers P Q c)
    (h1 : 0 < c.cLoop) (h2 : ¬ c.consumed_items < 100) :
    Covers P Q
      { c with
        cLoop := c.cLoop - 1, cDone := c.cDone + 1 } := by
  obtain ⟨s, hr, rfl⟩ := h
  obtain ⟨i, hpc⟩ := exists_of_count_pos _ _ h1
  have h2' : ¬ s.consumed_items < 100 := h2
  have hs : step s (Action.consumer i)
      = some { s with
        cpc := s.cpc.set i CPc.done } := by
    simp [step, consumer, hpc, items_to_produce, items_to_consume, h2']
  refine ⟨_, Reachable.step _ hr hs, ?_⟩
  simp only [census, Census.mk.injEq, count_set_eq _ _ _ _ _ hpc, reduceIte, reduceCtorEq,
    Nat.add_zero, Nat.sub_zero, true_and, and_true]

/-- A consumer inside `sem_wait(full)` takes a token of `full`. -/
theorem covers_c_waitFull {P Q : Nat} {c : Census} (h : Covers P Q c)
    (h1 : 0 < c.cWaitFull) (h2 : 0 < c.full) :
    Covers P Q
      { c with
        full := c.full - 1, cWaitFull := c.cWaitFull - 1, cWaitMutex := c.cWaitMutex + 1 } := by
  obtain ⟨s, hr, rfl⟩ := h
  obtain ⟨i, hpc⟩ := exists_of_count_pos _ _ h1
  have h2' : 0 < s.full := h2
  have hs : step s (Action.consumer i)
      = some { s with
        full := s.full - 1, cpc := s.cpc.set i CPc.waitMutex } := by
    simp [step, consumer, hpc, items_to_produce, items_to_consume, h2']
  refine ⟨_, Reachable.step _ hr hs, ?_⟩
  simp only [census, Census.mk.injEq, count_set_eq _ _ _ _ _ hpc, reduceIte, reduceCtorEq,
    Nat.add_zero, Nat.sub_zero, true_and, and_true]

/-- A consumer inside `sem_wait(mutex)` takes the mutex. -/
theorem covers_c_waitMutex {P Q : Nat} {c : Census} (h : Covers P Q c)
    (h1 : 0 < c.cWaitMutex) (h2 : 0 < c.mutex) :
    Covers P Q
      { c with
        mutex := c.mutex - 1, cWaitMutex := c.cWaitMutex - 1, cCrit := c.cCrit + 1 } := by
  obtain ⟨s, hr, rfl⟩ := h
  obtain ⟨i, hpc⟩ := exists_of_count_pos _ _ h1
  have h2' : 0 < s.mutex := h2
  have hs : step s (Action.consumer i)
      = some { s with
        mutex := s.mutex - 1, cpc := s.cpc.set i CPc.crit } := by
    simp [step, consumer, hpc, items_to_produce, items_to_consume, h2']
  refine ⟨_, Reachable.step _ hr hs, ?_⟩
  simp only [census, Census.mk.injEq, count_set_eq _ _ _ _ _ hpc, reduceIte, reduceCtorEq,
    Nat.add_zero, Nat.sub_zero, true_and, and_true]

/-- A consumer in its critical section, with items left to consume, reads one. -/
theorem covers_c_read {P Q : Nat} {c : Census} (h : Covers P Q c)
    (h1 : 0 < c.cCrit) (h2 : c.consumed_items < 100) :
    Covers P Q
      { c with
        consumed_items := c.consumed_items + 1, cCrit := c.cCrit - 1,
        cPostMutex := c.cPostMutex + 1 } := by
  obtain ⟨s, hr, rfl⟩ := h
  obtain ⟨i, hpc⟩ := exists_of_count_pos _ _ h1
  have h2' : s.consumed_items < 100 := h2
  have hs : step s (Action.consumer i)
      = some { s with
        buffer := s.buffer.set s.out NEUTRAL_VALUE
        out := (s.out + 1) % BUFFER_SIZE
        consumed_items := s.consumed_items + 1
        stdout := s.stdout ++ [Output.consumed (i + 1) s.out (s.buffer.getD s.out 0),
          Output.cells (s.buffer.set s.out NEUTRAL_VALUE)]
        cpc := s.cpc.set i CPc.postMutex } := by
    simp [step, consumer, hpc, items_to_produce, items_to_consume, h2']
  refine ⟨_, Reachable.step _ hr hs, ?_⟩
  simp only [census, Census.mk.injEq, count_set_eq _ _ _ _ _ hpc, reduceIte, reduceCtorEq,
    Nat.add_zero, Nat.sub_zero, true_and, and_true]

/-- A consumer in its critical section, with all items consumed, reads nothing. -/
theorem covers_c_skip {P Q : Nat} {c : Census} (h : Covers P Q c)
    (h1 : 0 < c.cCrit) (h2 : ¬ c.consumed_items < 100) :
    Covers P Q
      { c with
        cCrit := c.cCrit - 1, cPostMutex := c.cPostMutex + 1 } := by
  obtain ⟨s, hr, rfl⟩ := h
  obtain ⟨i, hpc⟩ := exists_of_count_pos _ _ h1
  have h2' : ¬ s.consumed_items < 100 := h2
  have hs : step s (Action.consumer i)
      = some { s with
        cpc := s.cpc.set i CPc.postMutex } := by
    simp [step, consumer, hpc, items_to_produce, items_to_consume, h2']
  refine ⟨_, Reachable.step _ hr hs, ?_⟩
  simp only [census, Census.mk.injEq, count_set_eq _ _ _ _ _ hpc, reduceIte, reduceCtorEq,
    Nat.add_zero, Nat.sub_zero, true_and, and_true]

/-- A consumer past its critical section posts `mutex`. -/
theorem covers_c_postMutex {P Q : Nat} {c : Census} (h : Covers P Q c)
    (h1 : 0 < c.cPostMutex) :
    Covers P Q
      { c with
        mutex := c.mutex + 1, cPostMutex := c.cPostMutex - 1, cPostEmpty := c.cPostEmpty + 1 } := by
  obtain ⟨s, hr, rfl⟩ := h
  obtain ⟨i, hpc⟩ := exists_of_count_pos _ _ h1
  have hs : step s (Action.consumer i)
      = some { s with
        mutex := s.mutex + 1, cpc := s.cpc.set i CPc.postEmpty } := by
    simp [step, consumer, hpc, items_to_produce, items_to_consume]
  refine ⟨_, Reachable.step _ hr hs, ?_⟩
  simp only [census, Census.mk.injEq, count_set_eq _ _ _ _ _ hpc, reduceIte, reduceCtorEq,
    Nat.add_zero, Nat.sub_zero, true_and, and_true]

/-- A consumer at the end of its loop body posts `empty`. -/
theorem covers_c_postEmpty {P Q : Nat} {c : Census} (h : Covers P Q c)
    (h1 : 0 < c.cPostEmpty) :
    Covers P Q
      { c with
        empty := c.empty + 1, cPostEmpty := c.cPostEmpty - 1, cLoop := c.cLoop + 1 } := by
  obtain ⟨s, hr, rfl⟩ := h
  obtain ⟨i, hpc⟩ := exists_of_count_pos _ _ h1
  have hs : step s (Action.consumer i)
      = some { s with
        empty := s.empty + 1, cpc := s.cpc.set i CPc.loop } := by
    simp [step, consumer, hpc, items_to_produce, items_to_consume]
  refine ⟨_, Reachable.step _ hr hs, ?_⟩
  simp only [census, Census.mk.injEq, count_set_eq _ _ _ _ _ hpc, reduceIte, reduceCtorEq,
    Nat.add_zero, Nat.sub_zero, true_and, and_true]

end ProdCons

namespace ProdCons

theorem covers_init (P Q : Nat) : Covers P Q (quiet 0 0 10 0 P 0 0 Q 0 0) := by
  refine ⟨init_shared P Q, Reachable.init, ?_⟩
  simp [census, init_shared, quiet, List.count_replicate, BUFFER_SIZE]

/-- One producer runs a whole pass of its loop and writes an item. -/
theorem quiet_produce {P Q kp kc e f pl pw pd cl cw cd : Nat}
    (h : Covers P Q (quiet kp kc (e + 1) f (pl + 1) pw pd cl cw cd)) (hk : kp < 100) :
    Covers P Q (quiet (kp + 1) kc e (f + 1) (pl + 1) pw pd cl cw cd) := by
  have h1 := covers_p_enter h (by dsimp only [quiet]; omega) hk
  have h2 := covers_p_waitEmpty h1 (by dsimp only [quiet]; omega) (by dsimp only [quiet]; omega)
  have h3 := covers_p_waitMutex h2 (by dsimp only [quiet]; omega) (by dsimp only [quiet]; omega)
  have h4 := covers_p_write h3 (by dsimp only [quiet]; omega) hk
  have h5 := covers_p_postMutex h4 (by dsimp only [quiet]; omega)
  exact covers_p_postFull h5 (by dsimp only [quiet]; omega)

/-- One consumer runs a whole pass of its loop and reads an item. -/
theorem quiet_consume {P Q kp kc e f pl pw pd cl cw cd : Nat}
    (h : Covers P Q (quiet kp kc e (f + 1) pl pw pd (cl + 1) cw cd)) (hk : kc < 100) :
    Covers P Q (quiet kp (kc + 1) (e + 1) f pl pw pd (cl + 1) cw cd) := by
  have h1 := covers_c_enter h (by dsimp only [quiet]; omega) hk
  have h2 := covers_c_waitFull h1 (by dsimp only [quiet]; omega) (by dsimp only [quiet]; omega)
  have h3 := covers_c_waitMutex h2 (by dsimp only [quiet]; omega) (by dsimp only [quiet]; omega)
  have h4 := covers_c_read h3 (by dsimp only [quiet]; omega) hk
  have h5 := covers_c_postMutex h4 (by dsimp only [quiet]; omega)
  exact covers_c_postEmpty h5 (by dsimp only [quiet]; omega)

/-- A producer passes the test of its `while` and stops before `sem_wait(empty)`. -/
theorem quiet_p_enter {P Q kp kc e f pl pw pd cl cw cd : Nat}
    (h : Covers P Q (quiet kp kc e f (pl + 1) pw pd cl cw cd)) (hk : kp < 100) :
    Covers P Q (quiet kp kc e f pl (pw + 1) pd cl cw cd) :=
  covers_p_enter h (by dsimp only [quiet]; omega) hk

/-- A consumer passes the test of its `while` and stops before `sem_wait(full)`. -/
theorem quiet_c_enter {P Q kp kc e f pl pw pd cl cw cd : Nat}
    (h : Covers P Q (quiet kp kc e f pl pw pd (cl + 1) cw cd)) (hk : kc < 100) :
    Covers P Q (quiet kp kc e f pl pw pd cl (cw + 1) cd) :=
  covers_c_enter h (by dsimp only [quiet]; omega) hk

/-- A producer finds the test of its `while` false, posts `full` and returns. -/
theorem quiet_p_exit {P Q kp kc e f pl pw pd cl cw cd : Nat}
    (h : Covers P Q (quiet kp kc e f (pl + 1) pw pd cl cw cd)) (hk : ¬ kp < 100) :
    Covers P Q (quiet kp kc e (f + 1) pl pw (pd + 1) cl cw cd) := by
  have h1 := covers_p_leave h (by dsimp only [quiet]; omega) hk
  exact covers_p_finalPost h1 (by dsimp only [quiet]; omega)

/-- A consumer finds the test of its `while` false and returns. -/
theorem quiet_c_exit {P Q kp kc e f pl pw pd cl cw cd : Nat}
    (h : Covers P Q (quiet kp kc e f pl pw pd (cl + 1) cw cd)) (hk : ¬ kc < 100) :
    Covers P Q (quiet kp kc e f pl pw pd cl cw (cd + 1)) :=
  covers_c_leave h (by dsimp only [quiet]; omega) hk

/-- A producer that lagged behind takes a token of `empty`, finds nothing left to produce,
posts `full`, leaves its loop, posts `full` once more and returns. -/
theorem quiet_p_lag {P Q kp kc e f pl pw pd cl cw cd : Nat}
    (h : Covers P Q (quiet kp kc (e + 1) f pl (pw + 1) pd cl cw cd)) (hk : ¬ kp < 100) :
    Covers P Q (quiet kp kc e (f + 2) pl pw (pd + 1) cl cw cd) := by
  have h1 := covers_p_waitEmpty h (by dsimp only [quiet]; omega) (by dsimp only [quiet]; omega)
  have h2 := covers_p_waitMutex h1 (by dsimp only [quiet]; omega) (by dsimp only [quiet]; omega)
  have h3 := covers_p_skip h2 (by dsimp only [quiet]; omega) hk
  have h4 := covers_p_postMutex h3 (by dsimp only [quiet]; omega)
  have h5 := covers_p_postFull h4 (by dsimp only [quiet]; omega)
  have h6 := covers_p_leave h5 (by dsimp only [quiet]; omega) hk
  exact covers_p_finalPost h6 (by dsimp only [quiet]; omega)

/-- A consumer that lagged behind takes a token of `full`, finds nothing left to consume,
posts `empty` and returns. -/
theorem quiet_c_lag {P Q kp kc e f pl pw pd cl cw cd : Nat}
    (h : Covers P Q (quiet kp kc e (f + 1) pl pw pd cl (cw + 1) cd)) (hk : ¬ kc < 100) :
    Covers P Q (quiet kp kc (e + 1) f pl pw pd cl cw (cd + 1)) := by
  have h1 := covers_c_waitFull h (by dsimp only [quiet]; omega) (by dsimp only [quiet]; omega)
  have h2 := covers_c_waitMutex h1 (by dsimp only [quiet]; omega) (by dsimp only [quiet]; omega)
  have h3 := covers_c_skip h2 (by dsimp only [quiet]; omega) hk
  have h4 := covers_c_postMutex h3 (by dsimp only [quiet]; omega)
  have h5 := covers_c_postEmpty h4 (by dsimp only [quiet]; omega)
  exact covers_c_leave h5 (by dsimp only [quiet]; omega) hk

end ProdCons

namespace ProdCons

/-- The same census written with other expressions. -/
theorem covers_quiet_eq {P Q a1 a2 a3 a4 a5 a6 a7 a8 a9 a10 b1 b2 b3 b4 b5 b6 b7 b8 b9 b10 : Nat}
    (h : Covers P Q (quiet a1 a2 a3 a4 a5 a6 a7 a8 a9 a10))
    (e1 : a1 = b1) (e2 : a2 = b2) (e3 : a3 = b3) (e4 : a4 = b4) (e5 : a5 = b5)
    (e6 : a6 = b6) (e7 : a7 = b7) (e8 : a8 = b8) (e9 : a9 = b9) (e10 : a10 = b10) :
    Covers P Q (quiet b1 b2 b3 b4 b5 b6 b7 b8 b9 b10) := by
  subst e1 e2 e3 e4 e5 e6 e7 e8 e9 e10
  exact h

/-- One producer and one consumer move `n` items through the buffer. -/
theorem quiet_cycle {P Q pl pw pd cl cw cd : Nat} (n : Nat) :
    ∀ k, k + n ≤ 100 → Covers P Q (quiet k k 10 0 (pl + 1) pw pd (cl + 1) cw cd) →
      Covers P Q (quiet (k + n) (k + n) 10 0 (pl + 1) pw pd (cl + 1) cw cd) := by
  induction n with
  | zero => intro k _ h; exact h
  | succ n ih =>
    intro k hk h
    have h1 : Covers P Q (quiet (k + 1) k 9 1 (pl + 1) pw pd (cl + 1) cw cd) :=
      quiet_produce h (by omega)
    have h2 : Covers P Q (quiet (k + 1) (k + 1) 10 0 (pl + 1) pw pd (cl + 1) cw cd) :=
      quiet_consume h1 (by omega)
    exact covers_quiet_eq (ih (k + 1) (by omega) h2) (by omega) (by omega) rfl rfl rfl rfl rfl
      rfl rfl rfl

/-- The producers pass the test of their `while` one after the other, `n` of them. -/
theorem quiet_p_enters {P Q kp kc e f pd cl cw cd : Nat} (hk : kp < 100) (n : Nat) :
    ∀ pl pw, Covers P Q (quiet kp kc e f (pl + n) pw pd cl cw cd) →
      Covers P Q (quiet kp kc e f pl (pw + n) pd cl cw cd) := by
  induction n with
  | zero => intro pl pw h; exact h
  | succ n ih =>
    intro pl pw h
    have h1 : Covers P Q (quiet kp kc e f (pl + n) (pw + 1) pd cl cw cd) := quiet_p_enter h hk
    exact covers_quiet_eq (ih pl (pw + 1) h1) rfl rfl rfl rfl rfl (by omega) rfl rfl rfl rfl

/-- The consumers pass the test of their `while` one after the other, `n` of them. -/
theorem quiet_c_enters {P Q kp kc e f pl pw pd cd : Nat} (hk : kc < 100) (n : Nat) :
    ∀ cl cw, Covers P Q (quiet kp kc e f pl pw pd (cl + n) cw cd) →
      Covers P Q (quiet kp kc e f pl pw pd cl (cw + n) cd) := by
  induction n with
  | zero => intro cl cw h; exact h
  | succ n ih =>
    intro cl cw h
    have h1 : Covers P Q (quiet kp kc e f pl pw pd (cl + n) (cw + 1) cd) := quiet_c_enter h hk
    exact covers_quiet_eq (ih cl (cw + 1) h1) rfl rfl rfl rfl rfl rfl rfl rfl (by omega) rfl

/-- The producers at the test of their `while` return one after the other, `n` of them. -/
theorem quiet_p_exits {P Q kp kc e pw cl cw cd : Nat} (hk : ¬ kp < 100) (n : Nat) :
    ∀ f pl pd, Covers P Q (quiet kp kc e f (pl + n) pw pd cl cw cd) →
      Covers P Q (quiet kp kc e (f + n) pl pw (pd + n) cl cw cd) := by
  induction n with
  | zero => intro f pl pd h; exact h
  | succ n ih =>
    intro f pl pd h
    have h1 : Covers P Q (quiet kp kc e (f + 1) (pl + n) pw (pd + 1) cl cw cd) :=
      quiet_p_exit h hk
    exact covers_quiet_eq (ih (f + 1) pl (pd + 1) h1) rfl rfl rfl (by omega) rfl rfl (by omega)
      rfl rfl rfl

/-- The consumers at the test of their `while` return one after the other, `n` of them. -/
theorem quiet_c_exits {P Q kp kc e f pl pw pd cw : Nat} (hk : ¬ kc < 100) (n : Nat) :
    ∀ cl cd, Covers P Q (quiet kp kc e f pl pw pd (cl + n) cw cd) →
      Covers P Q (quiet kp kc e f pl pw pd cl cw (cd + n)) := by
  induction n with
  | zero => intro cl cd h; exact h
  | succ n ih =>
    intro cl cd h
    have h1 : Covers P Q (quiet kp kc e f pl pw pd (cl + n) cw (cd + 1)) := quiet_c_exit h hk
    exact covers_quiet_eq (ih cl (cd + 1) h1) rfl rfl rfl rfl rfl rfl rfl rfl rfl (by omega)

/-- Lagging producers use up `n` tokens of `empty` and return, `n` of them. -/
theorem quiet_p_lags {P Q kp kc pl cl cw cd : Nat} (hk : ¬ kp < 100) (n : Nat) :
    ∀ e f pw pd, Covers P Q (quiet kp kc (e + n) f pl (pw + n) pd cl cw cd) →
      Covers P Q (quiet kp kc e (f + 2 * n) pl pw (pd + n) cl cw cd) := by
  induction n with
  | zero => intro e f pw pd h; exact h
  | succ n ih =>
    intro e f pw pd h
    have h1 : Covers P Q (quiet kp kc (e + n) (f + 2) pl (pw + n) (pd + 1) cl cw cd) :=
      quiet_p_lag h hk
    exact covers_quiet_eq (ih e (f + 2) pw (pd + 1) h1) rfl rfl rfl (by omega) rfl rfl
      (by omega) rfl rfl rfl

/-- Lagging consumers use up `n` tokens of `full` and return, `n` of them. -/
theorem quiet_c_lags {P Q kp kc pl pw pd cl : Nat} (hk : ¬ kc < 100) (n : Nat) :
    ∀ e f cw cd, Covers P Q (quiet kp kc e (f + n) pl pw pd cl (cw + n) cd) →
      Covers P Q (quiet kp kc (e + n) f pl pw pd cl cw (cd + n)) := by
  induction n with
  | zero => intro e f cw cd h; exact h
  | succ n ih =>
    intro e f cw cd h
    have h1 : Covers P Q (quiet kp kc (e + 1) (f + n) pl pw pd cl (cw + n) (cd + 1)) :=
      quiet_c_lag h hk
    exact covers_quiet_eq (ih (e + 1) f cw (cd + 1) h1) rfl rfl (by omega) rfl rfl rfl rfl
      rfl rfl (by omega)

end ProdCons

namespace ProdCons

/-- A state is stuck when every thread has returned or waits for a semaphore that is 0. -/
theorem stuck_of_quiet {s : State} {kp kc e f pw pd cw cd : Nat}
    (h : census s = quiet kp kc e f 0 pw pd 0 cw cd) (he : 0 < pw → e = 0)
    (hf : 0 < cw → f = 0) : Stuck s := by
  simp only [census, quiet, Census.mk.injEq] at h
  obtain ⟨-, -, -, h4, h5, p1, p2, p3, p4, p5, p6, p7, p8, c1, c2, c3, c4, c5, c6, c7⟩ := h
  apply stuck_of_stuckB
  simp only [stuckB, Bool.and_eq_true, List.all_eq_true]
  constructor
  · intro c hc
    have hpos := List.count_pos_iff.mpr hc
    cases c <;> simp only [blockedP, beq_iff_eq] <;> omega
  · intro c hc
    have hpos := List.count_pos_iff.mpr hc
    cases c <;> simp only [blockedC, beq_iff_eq] <;> omega

/-- With `p + 12` producers, eleven of them can pass the test of their `while` before item
100 is written; ten of these use up `empty`, and the eleventh stays in `sem_wait(empty)`. -/
theorem covers_blocked_producer (p q : Nat) :
    Covers (p + 12) (q + 1) (quiet 100 100 0 (p + 21) 0 1 (p + 11) 0 0 (q + 1)) := by
  have h0 : Covers (p + 12) (q + 1) (quiet 0 0 10 0 (p + 11 + 1) 0 0 (q + 1) 0 0) :=
    covers_init (p + 12) (q + 1)
  have h1 := quiet_cycle 99 0 (by omega) h0
  have h2 : Covers (p + 12) (q + 1) (quiet 99 99 10 0 (p + 1 + 11) 0 0 (q + 1) 0 0) :=
    covers_quiet_eq h1 rfl rfl rfl rfl (by omega) rfl rfl rfl rfl rfl
  have h3 := quiet_p_enters (by omega) 11 _ _ h2
  have h4 : Covers (p + 12) (q + 1) (quiet 99 99 (9 + 1) 0 (p + 1) 11 0 (q + 1) 0 0) :=
    covers_quiet_eq h3 rfl rfl rfl rfl rfl rfl rfl rfl rfl rfl
  have h5 := quiet_consume (quiet_produce h4 (by omega)) (by omega)
  have h6 : Covers (p + 12) (q + 1) (quiet 100 100 10 0 (p + 1) 11 0 (0 + (q + 1)) 0 0) :=
    covers_quiet_eq h5 rfl rfl rfl rfl rfl rfl rfl (by omega) rfl rfl
  have h7 := quiet_c_exits (by omega) (q + 1) _ _ h6
  have h8 : Covers (p + 12) (q + 1) (quiet 100 100 10 0 (0 + (p + 1)) 11 0 0 0 (0 + (q + 1))) :=
    covers_quiet_eq h7 rfl rfl rfl rfl (by omega) rfl rfl rfl rfl rfl
  have h9 := quiet_p_exits (by omega) (p + 1) _ _ _ h8
  have h10 : Covers (p + 12) (q + 1)
      (quiet 100 100 (0 + 10) (0 + (p + 1)) 0 (1 + 10) (0 + (p + 1)) 0 0 (0 + (q + 1))) :=
    covers_quiet_eq h9 rfl rfl rfl rfl rfl rfl rfl rfl rfl rfl
  have h11 := quiet_p_lags (by omega) 10 _ _ _ _ h10
  exact covers_quiet_eq h11 rfl rfl rfl (by omega) rfl rfl (by omega) rfl rfl (by omega)

/-- With `p + 1` producers and `p + 3` consumers or more, `p + 2` consumers can pass the test
of their `while` before item 100 is read; `p + 1` of these use up `full`, and the last one
stays in `sem_wait(full)`. -/
theorem covers_blocked_consumer (p q : Nat) :
    Covers (p + 1) (p + 3 + q) (quiet 100 100 (p + 11) 0 0 0 (p + 1) 0 1 (p + q + 2)) := by
  have h0 : Covers (p + 1) (p + 3 + q) (quiet 0 0 10 0 (p + 1) 0 0 (p + 2 + q + 1) 0 0) :=
    covers_quiet_eq (covers_init (p + 1) (p + 3 + q)) rfl rfl rfl rfl rfl rfl rfl (by omega)
      rfl rfl
  have h1 := quiet_cycle 99 0 (by omega) h0
  have h2 : Covers (p + 1) (p + 3 + q) (quiet 99 99 10 0 (p + 1) 0 0 (q + 1 + (p + 2)) 0 0) :=
    covers_quiet_eq h1 rfl rfl rfl rfl rfl rfl rfl (by omega) rfl rfl
  have h3 := quiet_c_enters (by omega) (p + 2) _ _ h2
  have h4 : Covers (p + 1) (p + 3 + q)
      (quiet 99 99 (9 + 1) 0 (p + 1) 0 0 (q + 1) (0 + (p + 2)) 0) :=
    covers_quiet_eq h3 rfl rfl rfl rfl rfl rfl rfl rfl rfl rfl
  have h5 := quiet_consume (quiet_produce h4 (by omega)) (by omega)
  have h6 : Covers (p + 1) (p + 3 + q)
      (quiet 100 100 10 0 (0 + (p + 1)) 0 0 (q + 1) (0 + (p + 2)) 0) :=
    covers_quiet_eq h5 rfl rfl rfl rfl (by omega) rfl rfl rfl rfl rfl
  have h7 := quiet_p_exits (by omega) (p + 1) _ _ _ h6
  have h8 : Covers (p + 1) (p + 3 + q)
      (quiet 100 100 10 (0 + (p + 1)) 0 0 (0 + (p + 1)) (0 + (q + 1)) (0 + (p + 2)) 0) :=
    covers_quiet_eq h7 rfl rfl rfl rfl rfl rfl rfl (by omega) rfl rfl
  have h9 := quiet_c_exits (by omega) (q + 1) _ _ h8
  have h10 : Covers (p + 1) (p + 3 + q)
      (quiet 100 100 10 (0 + (p + 1)) 0 0 (0 + (p + 1)) 0 (1 + (p + 1)) (0 + (q + 1))) :=
    covers_quiet_eq h9 rfl rfl rfl rfl rfl rfl rfl rfl (by omega) rfl
  have h11 := quiet_c_lags (by omega) (p + 1) _ _ _ _ h10
  exact covers_quiet_eq h11 rfl rfl (by omega) rfl rfl rfl (by omega) rfl rfl (by omega)

end ProdCons

namespace ProdCons

/-- What a state in which nothing can move looks like: all items went through, no thread
waits for `mutex`, a producer waits for `empty` only if there are at least 12 producers (and
then no consumer waits), a consumer waits for `full` only if there are at least two consumers
more than producers (and then no producer waits). -/
theorem stuck_census {P Q : Nat} (hP : 1 ≤ P) (hQ : 1 ≤ Q) {s : State}
    (hr : Reachable P Q s) (hs : Stuck s) :
    s.produced_items = 100 ∧ s.consumed_items = 100
      ∧ s.ppc.count PPc.waitMutex = 0 ∧ s.cpc.count CPc.waitMutex = 0
      ∧ (0 < s.ppc.count PPc.waitEmpty → 12 ≤ P ∧ s.cpc.count CPc.waitFull = 0)
      ∧ (0 < s.cpc.count CPc.waitFull → P + 2 ≤ Q ∧ s.ppc.count PPc.waitEmpty = 0) := by
  obtain ⟨np, nc, h1, h2, h3, h4, h5, h6, h7, h8, h9, h10, h11, h12, h13⟩ := tokens_reachable hr
  have p1 := count_zero_of_stuck_p hs PPc.loop (by decide) (by decide) (by decide)
  have p2 := count_zero_of_stuck_p hs PPc.crit (by decide) (by decide) (by decide)
  have p3 := count_zero_of_stuck_p hs PPc.postMutex (by decide) (by decide) (by decide)
  have p4 := count_zero_of_stuck_p hs PPc.postFull (by decide) (by decide) (by decide)
  have p5 := count_zero_of_stuck_p hs PPc.finalPost (by decide) (by decide) (by decide)
  have c1 := count_zero_of_stuck_c hs CPc.loop (by decide) (by decide) (by decide)
  have c2 := count_zero_of_stuck_c hs CPc.crit (by decide) (by decide) (by decide)
  have c3 := count_zero_of_stuck_c hs CPc.postMutex (by decide) (by decide) (by decide)
  have c4 := count_zero_of_stuck_c hs CPc.postEmpty (by decide) (by decide) (by decide)
  obtain ⟨p6, p7⟩ := count_blocked_p hs
  obtain ⟨c6, c7⟩ := count_blocked_c hs
  omega

end ProdCons

namespace ProdCons

theorem blocked_producer_exists {P Q : Nat} (hP : 12 ≤ P) (hQ : 1 ≤ Q) :
    ∃ s, Reachable P Q s ∧ Stuck s ∧ PPc.waitEmpty ∈ s.ppc ∧ s.empty = 0 := by
  obtain ⟨p, rfl⟩ : ∃ p, P = p + 12 := ⟨P - 12, by omega⟩
  obtain ⟨q, rfl⟩ : ∃ q, Q = q + 1 := ⟨Q - 1, by omega⟩
  obtain ⟨s, hr, hc⟩ := covers_blocked_producer p q
  refine ⟨s, hr, stuck_of_quiet hc (fun _ => rfl) (fun h => absurd h (by decide)), ?_, ?_⟩
  · simp only [census, quiet, Census.mk.injEq] at hc
    exact List.count_pos_iff.mp (by omega)
  · simp only [census, quiet, Census.mk.injEq] at hc
    exact hc.2.2.2.1

theorem blocked_consumer_exists {P Q : Nat} (hP : 1 ≤ P) (hQ : P + 2 ≤ Q) :
    ∃ s, Reachable P Q s ∧ Stuck s ∧ CPc.waitFull ∈ s.cpc ∧ s.full = 0 := by
  obtain ⟨p, rfl⟩ : ∃ p, P = p + 1 := ⟨P - 1, by omega⟩
  obtain ⟨q, rfl⟩ : ∃ q, Q = p + 3 + q := ⟨Q - (p + 3), by omega⟩
  obtain ⟨s, hr, hc⟩ := covers_blocked_consumer p q
  refine ⟨s, hr, stuck_of_quiet hc (fun h => absurd h (by decide)) (fun _ => rfl), ?_, ?_⟩
  · simp only [census, quiet, Census.mk.injEq] at hc
    exact List.count_pos_iff.mp (by omega)
  · simp only [census, quiet, Census.mk.injEq] at hc
    exact hc.2.2.2.2.1

/-- C21. In `prod_cons_sem_t` with `P ≥ 1` producers and `Q ≥ 1` consumers, a reachable state
in which no thread can take a step although not all threads have left their loops exists if
and only if `P ≥ 12` or `Q ≥ P + 2`.  In every reachable state in which no thread can take a
step all 100 items went through; a producer is then blocked in `sem_wait(empty)` only if
`P ≥ 12` (and no consumer is blocked), a consumer is blocked in `sem_wait(full)` only if
`Q ≥ P + 2` (and no producer is blocked); and both kinds of blocked thread do occur: for
`P ≥ 12` some run ends with a producer blocked on `empty = 0`, for `Q ≥ P + 2` some run ends
with a consumer blocked on `full = 0`. -/
theorem deadlock_iff (P Q : Nat) (hP : 1 ≤ P) (hQ : 1 ≤ Q) :
    ((∃ s, Reachable P Q s ∧ Stuck s ∧ ¬ AllExited s) ↔ (12 ≤ P ∨ P + 2 ≤ Q))
      ∧ (∀ s, Reachable P Q s → Stuck s →
          s.produced_items = 100 ∧ s.consumed_items = 100
            ∧ (PPc.waitEmpty ∈ s.ppc → 12 ≤ P ∧ CPc.waitFull ∉ s.cpc)
            ∧ (CPc.waitFull ∈ s.cpc → P + 2 ≤ Q ∧ PPc.waitEmpty ∉ s.ppc))
      ∧ (12 ≤ P → ∃ s, Reachable P Q s ∧ Stuck s ∧ PPc.waitEmpty ∈ s.ppc ∧ s.empty = 0)
      ∧ (P + 2 ≤ Q → ∃ s, Reachable P Q s ∧ Stuck s ∧ CPc.waitFull ∈ s.cpc ∧ s.full = 0) := by
  refine ⟨⟨?_, ?_⟩, ?_, fun h => blocked_producer_exists h hQ,
    fun h => blocked_consumer_exists hP h⟩
  · rintro ⟨s, hr, hs, hx⟩
    by_contra hn
    exact hx (stuck_all_exited hP hQ (by omega) (by omega) hr hs).1
  · rintro (h | h)
    · obtain ⟨s, hr, hs, hm, _⟩ := blocked_producer_exists h hQ
      refine ⟨s, hr, hs, fun hx => ?_⟩
      rcases hx.1 _ hm with h | h <;> exact absurd h (by decide)
    · obtain ⟨s, hr, hs, hm, _⟩ := blocked_consumer_exists hP h
      exact ⟨s, hr, hs, fun hx => absurd (hx.2 _ hm) (by decide)⟩
  · intro s hr hs
    obtain ⟨k1, k2, -, -, k5, k6⟩ := stuck_census hP hQ hr hs
    refine ⟨k1, k2, fun hm => ?_, fun hm => ?_⟩
    · obtain ⟨a, b⟩ := k5 (List.count_pos_iff.mpr hm)
      exact ⟨a, List.count_eq_zero.mp b⟩
    · obtain ⟨a, b⟩ := k6 (List.count_pos_iff.mpr hm)
      exact ⟨a, List.count_eq_zero.mp b⟩

theorem deadlock_iff_witness :
    (1 ≤ 1 ∧ 1 ≤ 3 ∧ ∃ s, Reachable 1 3 s ∧ Stuck s ∧ ¬ AllExited s)
      ∧ (1 ≤ 11 ∧ 1 ≤ 12 ∧ ¬ ∃ s, Reachable 11 12 s ∧ Stuck s ∧ ¬ AllExited s) :=
  ⟨⟨by decide, by decide,
      (deadlock_iff 1 3 (by decide) (by decide)).1.mpr (Or.inr (by decide))⟩,
    ⟨by decide, by decide,
      fun h => absurd ((deadlock_iff 11 12 (by decide) (by decide)).1.mp h) (by decide)⟩⟩

end ProdCons
